import Mathlib

/-!
nsq: coordination error taxonomy, node identity and the segmented disk queue writer.

Shallow embedding of `consistence/common.go` (error values, node-id codec, list
helpers) and of the disk queue writer and reader exercised by
`nsqd/diskqueue_writer_test.go`, together with the actions of those tests.

Conventions of the embedding

* a Go `string` is its sequence of bytes (`GoString`);
* Go `int` / `int64` values are `Int` (no value in this development reaches the
  64-bit range: every index is bounded by a string length);
* a `*CoordErr` is `Option Nat`: `none` is `nil`, `some a` is the address `a`, and
  a heap `Nat → CoordErr` gives the value stored at each address, so that pointer
  identity (`self == other`) is address equality;
* an operation that can panic returns `Option`, `none` being the panic;
* a Go `map[string]struct{}` is its list of keys, and a `range` loop over it takes
  the keys in an order chosen by a parameter (`MapIter`).
-/

namespace Consistence

/-! ## Strings -/

/-- A Go string: an immutable sequence of bytes. -/
abbrev GoString := List UInt8

/-- The one-byte string `":"`. -/
def colon : GoString := [58]

/-- Go `strings.Index(s, substr)`: the index of the first instance of `substr`
in `s`, or `-1` if `substr` is not present in `s`. -/
def stringsIndex : GoString → GoString → Int
  | [], substr => if substr = [] then 0 else -1
  | c :: t, substr =>
    if substr.isPrefixOf (c :: t) then 0
    else
      let r := stringsIndex t substr
      if r < 0 then -1 else r + 1

/-- Go slice expression `s[lo:]`; panics (`none`) unless `0 ≤ lo ≤ len(s)`. -/
def sliceFrom (s : GoString) (lo : Int) : Option GoString :=
  if 0 ≤ lo ∧ lo ≤ (s.length : Int) then some (s.drop lo.toNat) else none

/-- Go slice expression `s[:hi]`; panics (`none`) unless `0 ≤ hi ≤ len(s)`. -/
def sliceTo (s : GoString) (hi : Int) : Option GoString :=
  if 0 ≤ hi ∧ hi ≤ (s.length : Int) then some (s.take hi.toNat) else none

/-! ## Error taxonomy (`common.go` lines 8-87) -/

/-- Go `type CoordErrType int`. -/
abbrev CoordErrType := Int

def CoordNoErr : CoordErrType := 0
def CoordCommonErr : CoordErrType := 1
def CoordNetErr : CoordErrType := 2
def CoordElectionErr : CoordErrType := 3
def CoordElectionTmpErr : CoordErrType := 4
def CoordClusterErr : CoordErrType := 5
def CoordLocalErr : CoordErrType := 6
def CoordTmpErr : CoordErrType := 7

/-- The numeric RPC return code type. Its declaration and its constants
(`RpcNoErr`, `RpcCommonErr`, ...) are not part of `common.go`; functions that
mention one of the constants take it as a parameter. -/
abbrev ErrRPCRetCode := Int

structure CoordErr where
  ErrMsg : GoString
  ErrCode : ErrRPCRetCode
  ErrType : CoordErrType
deriving DecidableEq, Repr

/-- A `*CoordErr`: `none` is the nil pointer, `some a` the address `a`. -/
abbrev CoordErrPtr := Option Nat

/-- The heap: the `CoordErr` value stored at each address. -/
abbrev Heap := Nat → CoordErr

/-- `NewCoordErr(msg, etype)`, the value the returned pointer refers to. -/
def NewCoordErr (RpcCommonErr : ErrRPCRetCode) (msg : GoString) (etype : CoordErrType) :
    CoordErr :=
  { ErrMsg := msg, ErrType := etype, ErrCode := RpcCommonErr }

/-- `NewCoordErrWithCode(msg, etype, code)`. -/
def NewCoordErrWithCode (msg : GoString) (etype : CoordErrType) (code : ErrRPCRetCode) :
    CoordErr :=
  { ErrMsg := msg, ErrType := etype, ErrCode := code }

/-- `(*CoordErr).HasError`. -/
def HasError (RpcNoErr : ErrRPCRetCode) (self : CoordErr) : Bool :=
  if self.ErrType = CoordNoErr ∧ self.ErrCode = RpcNoErr then false
  else true

/-- `(*CoordErr).IsEqual`, lines 54-75. -/
def IsEqual (RpcCommonErr : ErrRPCRetCode) (heap : Heap) (self other : CoordErrPtr) : Bool :=
  match self, other with
  | _, none => false
  | none, _ => false
  | some s, some o =>
    if s = o then true
    else if (heap o).ErrCode ≠ (heap s).ErrCode ∨ (heap o).ErrType ≠ (heap s).ErrType then false
    else if (heap o).ErrCode ≠ RpcCommonErr then true
    else if (heap o).ErrMsg = (heap s).ErrMsg then true
    else false

/-- `(*CoordErr).IsNetErr`. -/
def IsNetErr (self : CoordErr) : Bool :=
  self.ErrType = CoordNetErr

/-- `(*CoordErr).CanRetry`. -/
def CanRetry (self : CoordErr) : Bool :=
  self.ErrType = CoordTmpErr || self.ErrType = CoordElectionTmpErr

/-- `(*CoordErr).IsNeedCheckSync`. -/
def IsNeedCheckSync (self : CoordErr) : Bool :=
  self.ErrType = CoordElectionErr

/-! ## Node identity (`common.go` lines 124-140) -/

/-- The fields of `NsqdNodeInfo` that `GenNsqdNodeID` reads (the struct is declared
outside `common.go`). -/
structure NsqdNodeInfo where
  NodeIp : GoString
  RpcPort : GoString
  TcpPort : GoString
deriving DecidableEq, Repr

/-- `bytes.Buffer.WriteString`: append the string to the buffer contents. -/
def WriteString (buf : GoString) (s : GoString) : GoString := buf ++ s

/-- `GenNsqdNodeID`, lines 124-134: seven `WriteString` calls on an empty buffer. -/
def GenNsqdNodeID (n : NsqdNodeInfo) (extra : GoString) : GoString :=
  let tmpbuf : GoString := []
  let tmpbuf := WriteString tmpbuf n.NodeIp
  let tmpbuf := WriteString tmpbuf colon
  let tmpbuf := WriteString tmpbuf n.RpcPort
  let tmpbuf := WriteString tmpbuf colon
  let tmpbuf := WriteString tmpbuf n.TcpPort
  let tmpbuf := WriteString tmpbuf colon
  let tmpbuf := WriteString tmpbuf extra
  tmpbuf

/-- `ExtractRpcAddrFromID`, lines 136-140. `none` is an out-of-range slice panic. -/
def ExtractRpcAddrFromID (nid : GoString) : Option GoString :=
  let pos1 := stringsIndex nid colon
  match sliceFrom nid (pos1 + 1) with
  | none => none
  | some rest =>
    let pos2 := stringsIndex rest colon
    sliceTo nid (pos1 + pos2 + 1)

/-! ## Sentinel errors (`common.go` lines 89-122) -/

/-- The bytes of a Go string literal. -/
def goString (s : String) : GoString := s.toUTF8.data.toList

/-- The RPC return code constants that `common.go` mentions. Their declarations
(and so their values) are outside `common.go`; they are taken as parameters. -/
structure RpcRetCodes where
  RpcNoErr : ErrRPCRetCode
  RpcCommonErr : ErrRPCRetCode
  RpcErrNotTopicLeader : ErrRPCRetCode
  RpcErrEpochMismatch : ErrRPCRetCode
  RpcErrEpochLessThanCurrent : ErrRPCRetCode
  RpcErrWriteQuorumFailed : ErrRPCRetCode
  RpcErrCommitLogIDDup : ErrRPCRetCode
  RpcErrMissingTopicLeaderSession : ErrRPCRetCode
  RpcErrLeaderSessionMismatch : ErrRPCRetCode
  RpcErrWriteDisabled : ErrRPCRetCode
  RpcErrLeavingISRWait : ErrRPCRetCode
  RpcErrTopicCoordExistingAndMismatch : ErrRPCRetCode
  RpcErrTopicLeaderChanged : ErrRPCRetCode
  RpcErrCommitLogEOF : ErrRPCRetCode
  RpcErrCommitLogOutofBound : ErrRPCRetCode
  RpcErrMissingTopicCoord : ErrRPCRetCode
  RpcErrTopicLoading : ErrRPCRetCode

def ErrTopicInfoNotFound (c : RpcRetCodes) : CoordErr :=
  NewCoordErr c.RpcCommonErr (goString "topic info not found") CoordClusterErr

def ErrNotTopicLeader (c : RpcRetCodes) : CoordErr :=
  NewCoordErrWithCode (goString "not topic leader") CoordElectionErr c.RpcErrNotTopicLeader

def ErrEpochMismatch (c : RpcRetCodes) : CoordErr :=
  NewCoordErrWithCode (goString "commit epoch not match") CoordElectionErr c.RpcErrEpochMismatch

def ErrEpochLessThanCurrent (c : RpcRetCodes) : CoordErr :=
  NewCoordErrWithCode (goString "epoch should be increased") CoordElectionErr c.RpcErrEpochLessThanCurrent

def ErrWriteQuorumFailed (c : RpcRetCodes) : CoordErr :=
  NewCoordErrWithCode (goString "write to quorum failed.") CoordElectionTmpErr c.RpcErrWriteQuorumFailed

def ErrCommitLogIDDup (c : RpcRetCodes) : CoordErr :=
  NewCoordErrWithCode (goString "commit id duplicated") CoordElectionErr c.RpcErrCommitLogIDDup

def ErrMissingTopicLeaderSession (c : RpcRetCodes) : CoordErr :=
  NewCoordErrWithCode (goString "missing topic leader session") CoordElectionErr c.RpcErrMissingTopicLeaderSession

def ErrLeaderSessionMismatch (c : RpcRetCodes) : CoordErr :=
  NewCoordErrWithCode (goString "leader session mismatch") CoordElectionErr c.RpcErrLeaderSessionMismatch

def ErrWriteDisabled (c : RpcRetCodes) : CoordErr :=
  NewCoordErrWithCode (goString "write is disabled on the topic") CoordElectionTmpErr c.RpcErrWriteDisabled

def ErrLeavingISRWait (c : RpcRetCodes) : CoordErr :=
  NewCoordErrWithCode (goString "leaving isr need wait.") CoordElectionTmpErr c.RpcErrLeavingISRWait

def ErrTopicCoordExistingAndMismatch (c : RpcRetCodes) : CoordErr :=
  NewCoordErrWithCode (goString "topic coordinator existing with a different partition") CoordClusterErr c.RpcErrTopicCoordExistingAndMismatch

def ErrTopicLeaderChanged (c : RpcRetCodes) : CoordErr :=
  NewCoordErrWithCode (goString "topic leader changed") CoordElectionTmpErr c.RpcErrTopicLeaderChanged

def ErrTopicCommitLogEOF (c : RpcRetCodes) : CoordErr :=
  NewCoordErrWithCode (goString "topic commit log end of file") CoordCommonErr c.RpcErrCommitLogEOF

def ErrTopicCommitLogOutofBound (c : RpcRetCodes) : CoordErr :=
  NewCoordErrWithCode (goString "topic commit log offset out of bound") CoordCommonErr c.RpcErrCommitLogOutofBound

def ErrMissingTopicCoord (c : RpcRetCodes) : CoordErr :=
  NewCoordErrWithCode (goString "missing topic coordinator") CoordClusterErr c.RpcErrMissingTopicCoord

def ErrTopicLoading (c : RpcRetCodes) : CoordErr :=
  NewCoordErrWithCode (goString "topic is still loading data") CoordLocalErr c.RpcErrTopicLoading

def ErrPubArgError (c : RpcRetCodes) : CoordErr :=
  NewCoordErr c.RpcCommonErr (goString "pub argument error") CoordCommonErr

def ErrTopicNotRelated (c : RpcRetCodes) : CoordErr :=
  NewCoordErr c.RpcCommonErr (goString "topic not related to me") CoordCommonErr

def ErrTopicCatchupAlreadyRunning (c : RpcRetCodes) : CoordErr :=
  NewCoordErr c.RpcCommonErr (goString "topic is already running catchup") CoordCommonErr

def ErrMissingTopicLog (c : RpcRetCodes) : CoordErr :=
  NewCoordErr c.RpcCommonErr (goString "missing topic log ") CoordLocalErr

def ErrLocalTopicPartitionMismatch (c : RpcRetCodes) : CoordErr :=
  NewCoordErr c.RpcCommonErr (goString "local topic partition not match") CoordLocalErr

def ErrLocalFallBehind (c : RpcRetCodes) : CoordErr :=
  NewCoordErr c.RpcCommonErr (goString "local data fall behind") CoordElectionErr

def ErrLocalForwardThanLeader (c : RpcRetCodes) : CoordErr :=
  NewCoordErr c.RpcCommonErr (goString "local data is more than leader") CoordElectionErr

def ErrLocalWriteFailed (c : RpcRetCodes) : CoordErr :=
  NewCoordErr c.RpcCommonErr (goString "write data to local failed") CoordLocalErr

def ErrLocalMissingTopic (c : RpcRetCodes) : CoordErr :=
  NewCoordErr c.RpcCommonErr (goString "local topic missing") CoordLocalErr

def ErrLocalNotReadyForWrite (c : RpcRetCodes) : CoordErr :=
  NewCoordErr c.RpcCommonErr (goString "local topic is not ready for write.") CoordLocalErr

def ErrLocalInitTopicFailed (c : RpcRetCodes) : CoordErr :=
  NewCoordErr c.RpcCommonErr (goString "local topic init failed") CoordLocalErr

def ErrLocalInitTopicCoordFailed (c : RpcRetCodes) : CoordErr :=
  NewCoordErr c.RpcCommonErr (goString "topic coordinator init failed") CoordLocalErr

def ErrLocalTopicDataCorrupt (c : RpcRetCodes) : CoordErr :=
  NewCoordErr c.RpcCommonErr (goString "local topic data corrupt") CoordLocalErr

/-- All pre-declared sentinel errors of the `var` block, in declaration order. -/
def sentinelErrors (c : RpcRetCodes) : List CoordErr :=
  [ErrTopicInfoNotFound c,
   ErrNotTopicLeader c,
   ErrEpochMismatch c,
   ErrEpochLessThanCurrent c,
   ErrWriteQuorumFailed c,
   ErrCommitLogIDDup c,
   ErrMissingTopicLeaderSession c,
   ErrLeaderSessionMismatch c,
   ErrWriteDisabled c,
   ErrLeavingISRWait c,
   ErrTopicCoordExistingAndMismatch c,
   ErrTopicLeaderChanged c,
   ErrTopicCommitLogEOF c,
   ErrTopicCommitLogOutofBound c,
   ErrMissingTopicCoord c,
   ErrTopicLoading c,
   ErrPubArgError c,
   ErrTopicNotRelated c,
   ErrTopicCatchupAlreadyRunning c,
   ErrMissingTopicLog c,
   ErrLocalTopicPartitionMismatch c,
   ErrLocalFallBehind c,
   ErrLocalForwardThanLeader c,
   ErrLocalWriteFailed c,
   ErrLocalMissingTopic c,
   ErrLocalNotReadyForWrite c,
   ErrLocalInitTopicFailed c,
   ErrLocalInitTopicCoordFailed c,
   ErrLocalTopicDataCorrupt c]

/-! ## List helpers (`common.go` lines 142-179) -/

/-- The loop of `FindSlice` from index `i` on: the index of the first element equal
to `e`, or `-1`. -/
def FindSliceFrom (i : Int) : List GoString → GoString → Int
  | [], _ => -1
  | v :: rest, e => if v = e then i else FindSliceFrom (i + 1) rest e

/-- `FindSlice`, lines 142-149. -/
def FindSlice (xs : List GoString) (e : GoString) : Int := FindSliceFrom 0 xs e

/-- A Go `map[string]struct{}`: its keys, without duplicates, in insertion order.
The order has no meaning for the program; iteration goes through `MapIter`. -/
abbrev StringSet := List GoString

/-- Map assignment `tmp[v] = struct{}{}`. -/
def mapSet (m : StringSet) (v : GoString) : StringSet :=
  if v ∈ m then m else m ++ [v]

/-- The builtin `delete(tmp, v)`. -/
def mapDelete (m : StringSet) (v : GoString) : StringSet :=
  m.filter (fun k => decide (k ≠ v))

/-- One way the runtime may order the keys in a `for k := range tmp` loop: any
function that returns the keys of the map in some order. -/
structure MapIter where
  order : StringSet → List GoString
  perm : ∀ m, (order m).Perm m

/-- The range loop in the order the keys are stored. -/
def MapIter.stored : MapIter := { order := fun m => m, perm := fun m => List.Perm.refl m }

/-- The range loop in the reverse of the stored order. -/
def MapIter.reversed : MapIter :=
  { order := fun m => m.reverse, perm := fun m => List.reverse_perm m }

/-- The final loop of `MergeList` and `FilterList`: append every key to `ret` in
iteration order. -/
def collectKeys (it : MapIter) (tmp : StringSet) : List GoString :=
  (it.order tmp).foldl (fun ret k => ret ++ [k]) []

/-- `MergeList`, lines 151-164. -/
def MergeList (it : MapIter) (l r : List GoString) : List GoString :=
  let tmp : StringSet := []
  let tmp := l.foldl mapSet tmp
  let tmp := r.foldl mapSet tmp
  collectKeys it tmp

/-- `FilterList`, lines 166-179. -/
def FilterList (it : MapIter) (l filter : List GoString) : List GoString :=
  let tmp : StringSet := []
  let tmp := l.foldl mapSet tmp
  let tmp := filter.foldl mapDelete tmp
  collectKeys it tmp

end Consistence

namespace Nsqd

/-! ## Disk queue writer

`diskqueue_writer_test.go` drives a writer whose implementation file is not among
the sources; the definitions of this section follow sections 3, 4.A and 4.D of the
specification, and the assertions of the tests where they fix what the specification
leaves open or words differently (the place of the rotation in Put). The data
directory is a map from segment sequence number to file contents together with the
optional writer metadata file. -/

/-- A Go byte slice. -/
abbrev Bytes := List UInt8

/-- Modelled from the spec: the error kinds of the storage core (section 7); their
declarations are not among the sources. -/
inductive QueueError where
  | ArgError
  | IOError
  | Corrupt
  | MetaCorrupt
  | Closed
deriving DecidableEq, Repr

/-- Modelled from the spec: the 4-byte big-endian unsigned length prefix of a frame
(the framing codec is not among the sources). -/
def bigEndian32 (n : Nat) : Bytes :=
  [UInt8.ofNat (n / 2 ^ 24 % 256), UInt8.ofNat (n / 2 ^ 16 % 256),
   UInt8.ofNat (n / 2 ^ 8 % 256), UInt8.ofNat (n % 256)]

/-- Modelled from the spec: the on-disk frame of a message, the 4-byte big-endian
length followed by exactly that many payload bytes (section 3; the framing codec is
not among the sources). -/
def frameOf (data : Bytes) : Bytes := bigEndian32 data.length ++ data

/-- Modelled from the spec: the framing codec's encode (section 4.A), not among the
sources: the 4-byte big-endian length followed by the payload; ArgError when the
length exceeds maxMsgSize or is below minMsgSize. -/
def encode (minMsgSize maxMsgSize : Int) (msg : Bytes) : Except QueueError Bytes :=
  if (msg.length : Int) > maxMsgSize ∨ (msg.length : Int) < minMsgSize then
    .error .ArgError
  else
    .ok (frameOf msg)

/-- Modelled from the spec: the QueueEnd cursor (EndFileNum, EndPos, TotalMsgCount)
of section 3, under the type and field names the tests read; its declaration is not
among the sources. -/
structure diskQueueEndInfo where
  EndFileNum : Int
  EndPos : Int
  TotalMsgCount : Int
deriving DecidableEq, Repr

/-- Modelled from the spec: the writer state (section 4.D; the writer's source file
is not among the sources). The field names writeFileNum, writePos and totalMsgCnt
are the ones the tests read; the configuration is the enumerated one; files and
metaData are the data directory. -/
structure diskQueueWriter where
  maxBytesPerFile : Int
  minMsgSize : Int
  maxMsgSize : Int
  syncEvery : Int
  writeFileNum : Int
  writePos : Int
  totalMsgCnt : Int
  needSync : Int
  segmentOpen : Bool
  closed : Bool
  files : Int → Option Bytes
  metaData : Option (Int × Int × Int)

/-- Modelled from the spec: construction of a writer on an empty data directory
(missing metadata loads as (0,0,0)); the constructor is not among the sources. The
arguments are those of the tests, without name, directory, timeout and logger. -/
def newDiskQueueWriter (maxBytesPerFile minMsgSize maxMsgSize syncEvery : Int) :
    diskQueueWriter :=
  { maxBytesPerFile := maxBytesPerFile
    minMsgSize := minMsgSize
    maxMsgSize := maxMsgSize
    syncEvery := syncEvery
    writeFileNum := 0
    writePos := 0
    totalMsgCnt := 0
    needSync := 0
    segmentOpen := false
    closed := false
    files := fun _ => none
    metaData := none }

/-- Modelled from the spec: the current QueueEnd
(writeFileNum, writePos, totalMsgCount); the writer is not among the sources. -/
def GetQueueReadEnd (w : diskQueueWriter) : diskQueueEndInfo :=
  { EndFileNum := w.writeFileNum, EndPos := w.writePos, TotalMsgCount := w.totalMsgCnt }

/-- Modelled from the spec: step 2 of Put, "if current segment is not open, open or
create it" (the writer is not among the sources). -/
def openCurrentSegment (w : diskQueueWriter) : diskQueueWriter :=
  if w.segmentOpen then w
  else
    { w with
      segmentOpen := true
      files := fun i => if i = w.writeFileNum then some ((w.files i).getD []) else w.files i }

/-- Modelled from the spec: the rotation of Put, "close current segment, increment
writeFileNum, reset writePos = 0" (the writer is not among the sources). The file
of the new segment is created by step 2 of the next Put; until then writePos is
zero and the segment does not exist (data model, invariant 2). -/
def rotate (w : diskQueueWriter) : diskQueueWriter :=
  { w with segmentOpen := false, writeFileNum := w.writeFileNum + 1, writePos := 0 }

/-- Modelled from the spec: the rotation test of Put (the writer is not among the
sources), evaluated on the state after the frame has been written and writePos
advanced: the segment is rotated when writePos has passed maxBytesPerFile.
The place of the test is the one the tests of the repository fix:
TestDiskQueueWriterRoll (lines 62-69) finds writeFileNum = 1 and writePos = 0 right
after the tenth 14-byte frame with maxBytesPerFile = 9 * 14, and
TestDiskQueueWriterCorruption (line 158) counts 8 frames of 127 bytes, 1016 bytes,
per file with maxBytesPerFile = 1000; so do scenarios 2 and 4 of section 8 and
invariant 1 of the data model (a completed segment is at most maxBytesPerFile plus
one frame's slack). Step 3 of section 4.D words the test on the frame about to be
written (writePos + 4 + len(msg) > maxBytesPerFile and writePos > 0, before the
write); with that wording the tenth Put of the rollover test would end at
writePos = 14 and the files of the corruption test would hold 7 frames. -/
def needsRotate (w : diskQueueWriter) : Bool :=
  decide (w.writePos > w.maxBytesPerFile)

/-- Modelled from the spec: step 6 of Put, "flush+fsync the segment, persist writer
metadata, reset needSync" (the writer is not among the sources). The metadata tuple
is (totalMsgCount, writeFileNum, writePos). -/
def sync (w : diskQueueWriter) : diskQueueWriter :=
  { w with metaData := some (w.totalMsgCnt, w.writeFileNum, w.writePos), needSync := 0 }

/-- Modelled from the spec: steps 4 and 5 of Put on a successful write: the frame is
appended to the current segment, writePos advances by the frame size,
totalMsgCount and needSync are incremented (the writer is not among the sources). -/
def appendFrame (w : diskQueueWriter) (frame : Bytes) : diskQueueWriter :=
  { w with
    files := fun i =>
      if i = w.writeFileNum then some ((w.files i).getD [] ++ frame) else w.files i
    writePos := w.writePos + (frame.length : Int)
    totalMsgCnt := w.totalMsgCnt + 1
    needSync := w.needSync + 1 }

/-- Modelled from the spec: steps 4 to 6 of Put on a successful write (the writer is
not among the sources): append the frame and advance the counters, rotate when
writePos has passed maxBytesPerFile (see needsRotate), then sync when needSync has
reached syncEvery. -/
def commitFrame (w : diskQueueWriter) (frame : Bytes) : diskQueueWriter :=
  let w3 := appendFrame w frame
  let w4 := if needsRotate w3 then rotate w3 else w3
  if w4.needSync ≥ w4.syncEvery then sync w4 else w4

/-- Modelled from the spec: Put (section 4.D, steps 1-7; the writer is not among the
sources), with the rotation after the write as the tests require (see needsRotate).
The argument writeOk says whether the write of step 4 succeeds; the result is the
state after the call and either the returned end or the error. On a failed write
writePos is left unchanged and the segment is closed. A closed writer rejects the
call (section 5). The returned end is the cursor of the state after the call, so
after a rotation it is (writeFileNum + 1, 0, totalMsgCount). -/
def Put (w : diskQueueWriter) (data : Bytes) (writeOk : Bool) :
    diskQueueWriter × Except QueueError diskQueueEndInfo :=
  if w.closed then (w, .error .Closed)
  else
    match encode w.minMsgSize w.maxMsgSize data with
    | .error e => (w, .error e)
    | .ok frame =>
      let w2 := openCurrentSegment w
      if writeOk then
        let w4 := commitFrame w2 frame
        (w4, .ok (GetQueueReadEnd w4))
      else
        ({ w2 with segmentOpen := false }, .error .IOError)

/-- Modelled from the spec: Empty (section 4.D; the writer is not among the
sources): close the current segment, delete every segment file 0..writeFileNum and
the metadata file, reset writeFileNum, writePos and totalMsgCount to 0. Every
deletion is taken to succeed. -/
def Empty (w : diskQueueWriter) : diskQueueWriter :=
  { w with
    segmentOpen := false
    files := fun i => if 0 ≤ i ∧ i ≤ w.writeFileNum then none else w.files i
    metaData := none
    writeFileNum := 0
    writePos := 0
    totalMsgCnt := 0 }

/-- Modelled from the spec: Close (section 4.D; the writer is not among the
sources): final flush+fsync, persist metadata, release handles; idempotent. -/
def Close (w : diskQueueWriter) : diskQueueWriter :=
  if w.closed then w
  else { sync w with segmentOpen := false, closed := true }

/-- A run of Put calls: each input is a message and whether its write succeeds. The
result is the final state and the end cursors returned by the successful calls, in
call order. -/
def PutRun : diskQueueWriter → List (Bytes × Bool) → diskQueueWriter × List diskQueueEndInfo
  | w, [] => (w, [])
  | w, (data, ok) :: rest =>
    match Put w data ok with
    | (w1, .ok e) => ((PutRun w1 rest).1, e :: (PutRun w1 rest).2)
    | (w1, .error _) => PutRun w1 rest

/-- TestDiskQueueWriterRoll (lines 53-66) after `n` iterations of its Put loop:
a writer with maxBytesPerFile = 9 * 14, minMsgSize = 10, maxMsgSize = 1024 and
syncEvery = 2500, and `n` Puts of a 10-byte message of zero bytes. -/
def rollTestPuts (n : Nat) : diskQueueWriter :=
  (PutRun (newDiskQueueWriter (9 * 14) 10 1024 2500)
    (List.replicate n (List.replicate 10 0, true))).1

/-- The states a writer reaches from construction by Put calls (failed ones included). -/
inductive Reachable : diskQueueWriter → Prop where
  | fresh (maxBytesPerFile minMsgSize maxMsgSize syncEvery : Int) :
      Reachable (newDiskQueueWriter maxBytesPerFile minMsgSize maxMsgSize syncEvery)
  | put (w : diskQueueWriter) (data : Bytes) (writeOk : Bool) :
      Reachable w → Reachable (Put w data writeOk).1

/-! ## Disk queue reader

The reader's implementation file is not among the sources either; the definitions
below follow sections 4.A and 4.E of the specification, and the tests where they
fix what the specification leaves open (the lower bound of a frame length, the
state of a reader constructed after an Empty). One call of readerStep is one
iteration of the reader's internal loop, the offer on the output channel and the
commit of the cursor included. -/

/-- Modelled from the spec: the two failures of decode (section 4.A; the framing
codec is not among the sources). -/
inductive DecodeError where
  | Corrupt
  | ShortRead
deriving DecidableEq, Repr

/-- Modelled from the spec: the value L of a 4-byte big-endian unsigned length
(the framing codec is not among the sources). -/
def bigEndianValue (b0 b1 b2 b3 : UInt8) : Nat :=
  b0.toNat * 2 ^ 24 + b1.toNat * 2 ^ 16 + b2.toNat * 2 ^ 8 + b3.toNat

/-- Modelled from the spec: the framing codec's decode (section 4.A), not among the
sources: read 4 bytes, interpret as L; Corrupt if L is below minMsgSize or exceeds
maxMsgSize; then read exactly L bytes; ShortRead if fewer are available (also
when fewer than the 4 length bytes are available). The result is the message and
the number of bytes consumed.
The lower bound is the configured minMsgSize, the bound encode applies: the test of
the corrupt length-0 frame (line 152, "require a non-zero message length for the
corrupt (len 0) test below") configures minMsgSize = 10 so that a length of zero is
rejected, and the round-trip law of section 8 covers every message encode accepts,
the empty one included when minMsgSize = 0. Section 4.A words the lower bound as
"L is zero", which is this rule for minMsgSize = 1. -/
def decode (minMsgSize maxMsgSize : Int) : Bytes → Except DecodeError (Bytes × Int)
  | b0 :: b1 :: b2 :: b3 :: rest =>
    if (bigEndianValue b0 b1 b2 b3 : Int) < minMsgSize ∨
        (bigEndianValue b0 b1 b2 b3 : Int) > maxMsgSize then
      .error .Corrupt
    else if rest.length < bigEndianValue b0 b1 b2 b3 then
      .error .ShortRead
    else
      .ok (rest.take (bigEndianValue b0 b1 b2 b3), 4 + (bigEndianValue b0 b1 b2 b3 : Int))
  | _ => .error .ShortRead

/-- The data directory: the content of each segment file, by sequence number. -/
abbrev DataDir := Int → Option Bytes

/-- Modelled from the spec: the reader state (section 4.E; the reader's source file
is not among the sources): configuration, read cursor, delivered count and the last
accepted end cursor. -/
structure diskQueueReader where
  maxBytesPerFile : Int
  minMsgSize : Int
  maxMsgSize : Int
  syncEvery : Int
  readFileNum : Int
  readPos : Int
  readMsgCount : Int
  endInfo : diskQueueEndInfo
  closed : Bool

/-- Modelled from the spec: construction of a reader (the constructor is not among
the sources): the read cursor and the delivered count are (0,0,0) and no end has
been published yet. The arguments are those of the tests, without names, directory,
timeout, flag and logger. -/
def newDiskQueueReader (maxBytesPerFile minMsgSize maxMsgSize syncEvery : Int) :
    diskQueueReader :=
  { maxBytesPerFile := maxBytesPerFile
    minMsgSize := minMsgSize
    maxMsgSize := maxMsgSize
    syncEvery := syncEvery
    readFileNum := 0
    readPos := 0
    readMsgCount := 0
    endInfo := { EndFileNum := 0, EndPos := 0, TotalMsgCount := 0 }
    closed := false }

/-- Modelled from the spec: UpdateQueueEnd (section 4.E; the reader is not among the
sources): publishes a new end cursor; a strictly regressing update is rejected with
ArgError and changes nothing, "unless following an Empty". The argument afterEmpty
says whether the writer has been emptied since the last update; such an update is
accepted whatever the previous end was. -/
def UpdateQueueEnd (r : diskQueueReader) (e : diskQueueEndInfo) (afterEmpty : Bool) :
    diskQueueReader × Option QueueError :=
  if afterEmpty = false ∧ (e.EndFileNum < r.endInfo.EndFileNum ∨
      (e.EndFileNum = r.endInfo.EndFileNum ∧ e.EndPos < r.endInfo.EndPos)) then
    (r, some .ArgError)
  else
    ({ r with endInfo := e }, none)

/-- Modelled from the spec: SkipToEnd (section 4.E; the reader is not among the
sources): "advance read cursor to the current end; delete any fully-consumed segment
files", the segments below the end's. The result is the reader and the directory.
The specification does not say what becomes of readMsgCount; it is left as it is. -/
def SkipToEnd (r : diskQueueReader) (files : Int → Option Bytes) :
    diskQueueReader × (Int → Option Bytes) :=
  ({ r with readFileNum := r.endInfo.EndFileNum, readPos := r.endInfo.EndPos },
    fun i => if i < r.endInfo.EndFileNum then none else files i)

/-- Modelled from the spec: Close of the reader (section 4.E; the reader is not
among the sources): release handles, signal the worker to exit. -/
def diskQueueReader.Close (r : diskQueueReader) : diskQueueReader :=
  { r with closed := true }

/-- Modelled from the spec: sizeOf(seq) of the segment file manager (section 4.B,
not among the sources); a missing file counts as empty. -/
def sizeOfSegment (files : DataDir) (n : Int) : Int :=
  (((files n).getD []).length : Int)

/-- Modelled from the spec: remove(seq) of the segment file manager (section 4.B,
not among the sources). -/
def removeSegment (files : DataDir) (n : Int) : DataDir :=
  fun i => if i = n then none else files i

/-- Modelled from the spec: the bytes the reader may decode at its cursor (the
reader is not among the sources): the rest of the current segment from readPos,
cut at endPos when the segment is the one of the end cursor ("the reader must never
read past endPos in that segment"). -/
def readableBytes (r : diskQueueReader) (files : DataDir) : Bytes :=
  let content := (files r.readFileNum).getD []
  let upToEnd :=
    if r.readFileNum = r.endInfo.EndFileNum then content.take r.endInfo.EndPos.toNat
    else content
  upToEnd.drop r.readPos.toNat

/-- Modelled from the spec: the move to the next segment of step 3 of the reader
loop, "readFileNum += 1, readPos = 0" (the reader is not among the sources). -/
def nextSegment (r : diskQueueReader) : diskQueueReader :=
  { r with readFileNum := r.readFileNum + 1, readPos := 0 }

/-- Modelled from the spec: a Result handed to the consumer on ReadChan, the data
and the cursor at which its frame starts (the reader is not among the sources). -/
structure ReadResult where
  data : Bytes
  fileNum : Int
  pos : Int
deriving DecidableEq, Repr

/-- What one iteration of the reader loop did. -/
inductive ReadEvent where
  | parked
  | advanced
  | corruption
  | delivered (res : ReadResult)
deriving DecidableEq, Repr

/-- Modelled from the spec: one iteration of the reader's internal loop (section
4.E, steps 1 to 6; the reader is not among the sources).
Step 1: park when the cursor equals the end. Step 3: when the segment is older than
the end's and fully consumed, delete it and move to the next one. End boundary: park
when the frame would start beyond the end (the cursor's segment is after the end's,
or readPos + 4 > endPos in the end's segment). Step 4: decode one frame; on
ShortRead in an older segment drop the rest of the segment as in step 3; on
ShortRead in the end's segment park (not yet available); on Corrupt move to the next
segment. Steps 5 and 6: hand the message over, then readPos = nextReadPos and
readMsgCount is incremented. -/
def readerStep (r : diskQueueReader) (files : DataDir) :
    diskQueueReader × DataDir × ReadEvent :=
  if r.closed then (r, files, .parked)
  else if r.readFileNum = r.endInfo.EndFileNum ∧ r.readPos = r.endInfo.EndPos then
    (r, files, .parked)
  else if r.readFileNum < r.endInfo.EndFileNum ∧
      r.readPos ≥ sizeOfSegment files r.readFileNum then
    (nextSegment r, removeSegment files r.readFileNum, .advanced)
  else if r.readFileNum > r.endInfo.EndFileNum ∨
      (r.readFileNum = r.endInfo.EndFileNum ∧ r.readPos + 4 > r.endInfo.EndPos) then
    (r, files, .parked)
  else
    match decode r.minMsgSize r.maxMsgSize (readableBytes r files) with
    | .error .ShortRead =>
      if r.readFileNum < r.endInfo.EndFileNum then
        (nextSegment r, removeSegment files r.readFileNum, .corruption)
      else (r, files, .parked)
    | .error .Corrupt => (nextSegment r, files, .corruption)
    | .ok (msg, n) =>
      ({ r with readPos := r.readPos + n, readMsgCount := r.readMsgCount + 1 }, files,
        .delivered { data := msg, fileNum := r.readFileNum, pos := r.readPos })

/-! ## The harness of `diskqueue_writer_test.go`

The tests drive one writer and one reader over the same directory: they call Put
and keep the returned end in a variable, forward that end with UpdateQueueEnd,
receive from ReadChan, truncate segment files with `os.Truncate`, and empty the
queue and construct a new reader (TestDiskQueueWriterEmpty, lines 108-119). -/

/-- Go `os.Truncate(name, size)` on a segment file: cut the file to `size` bytes,
or extend it with zero bytes; a missing file is left missing (the call fails). -/
def osTruncate (files : DataDir) (n : Int) (size : Nat) : DataDir :=
  fun i =>
    if i = n then
      (files i).map (fun c => c.take size ++ List.replicate (size - c.length) 0)
    else files i

/-- The actions of a test on the queue: a Put (with whether its write succeeds),
the publication of the last returned end with UpdateQueueEnd, one iteration of
the reader loop (a receive from ReadChan when it delivers), Empty on the writer
alone, and the sequence of lines 108-119 of TestDiskQueueWriterEmpty: Empty on the
writer, SkipToEnd and Close on the reader, construction of a new reader. -/
inductive QueueOp where
  | put (data : Bytes) (writeOk : Bool)
  | publish
  | read
  | empty
  | emptyAndReopen
deriving DecidableEq

/-- The state of a test: the writer, the reader (the directory is the writer's
files field), the variable holding the end returned by the last successful Put,
the end last passed to UpdateQueueEnd on the current reader, the messages whose Put
returned without error since the last Empty, the results received from the
ReadChan of the current reader, both in order, and whether the writer has been
emptied since the last UpdateQueueEnd. -/
structure TestBed where
  writer : diskQueueWriter
  reader : diskQueueReader
  lastEnd : Option diskQueueEndInfo
  published : Option diskQueueEndInfo
  putOk : List Bytes
  received : List ReadResult
  emptied : Bool

/-- A test that has constructed its writer and its reader. -/
def newTestBed (w : diskQueueWriter) (r : diskQueueReader) : TestBed :=
  { writer := w, reader := r, lastEnd := none, published := none, putOk := [], received := [],
    emptied := false }

/-- The test's `dq.Empty()` (line 109). The variable holding the last returned end
belongs to the Put loop before it and holds nothing afterwards. -/
def emptyWriter (s : TestBed) : TestBed :=
  { s with writer := Empty s.writer, lastEnd := none, putOk := [], emptied := true }

/-- Lines 110-119 of TestDiskQueueWriterEmpty: SkipToEnd and Close on the reader,
then the construction of a new reader with the same configuration. The new reader
is the one newDiskQueueReader gives, at the cursor (0,0) with no message counted:
the test receives from it the 100 messages put after the Empty, the first of which
starts at position 0 of file 0, and then finds Depth 0 (lines 127-138). -/
def reopenReader (s : TestBed) : TestBed :=
  let skipped := SkipToEnd s.reader s.writer.files
  let old := diskQueueReader.Close skipped.1
  { s with
    writer := { s.writer with files := skipped.2 }
    reader := newDiskQueueReader old.maxBytesPerFile old.minMsgSize old.maxMsgSize old.syncEvery
    published := none
    received := [] }

/-- One action of a test. -/
def stepOp (s : TestBed) : QueueOp → TestBed
  | .put data writeOk =>
    match Put s.writer data writeOk with
    | (w1, .ok e) => { s with writer := w1, lastEnd := some e, putOk := s.putOk ++ [data] }
    | (w1, .error _) => { s with writer := w1 }
  | .publish =>
    match s.lastEnd with
    | none => s
    | some e =>
      { s with reader := (UpdateQueueEnd s.reader e s.emptied).1, published := some e,
               emptied := false }
  | .empty => emptyWriter s
  | .emptyAndReopen => reopenReader (emptyWriter s)
  | .read =>
    match readerStep s.reader s.writer.files with
    | (r1, files1, .delivered res) =>
      { s with reader := r1, writer := { s.writer with files := files1 },
               received := s.received ++ [res] }
    | (r1, files1, _) => { s with reader := r1, writer := { s.writer with files := files1 } }

/-- A test as a sequence of actions. -/
def runOps (s : TestBed) (ops : List QueueOp) : TestBed := ops.foldl stepOp s

/-- The test's `os.Truncate(dq.fileName(n), size)`. -/
def truncateSegment (s : TestBed) (n : Int) (size : Nat) : TestBed :=
  { s with writer := { s.writer with files := osTruncate s.writer.files n size } }

/-- The pattern of the tests that publish only the final end: Put every message of
`W` (each write succeeding), forward the last returned end with UpdateQueueEnd, then
run `n` iterations of the reader loop. -/
def putAllThenRead (w : diskQueueWriter) (r : diskQueueReader) (W : List Bytes) (n : Nat) :
    TestBed :=
  runOps (newTestBed w r)
    (W.map (fun m => QueueOp.put m true) ++ [QueueOp.publish] ++ List.replicate n QueueOp.read)

/-- The Put loop of TestDiskQueueWriterCorruption (lines 153-163): writer and reader
with maxBytesPerFile = 1000, minMsgSize = 10, maxMsgSize = 1024, syncEvery = 5; 25
Puts of a 123-byte message; the last returned end is published. -/
def corruptionTestPuts : TestBed :=
  runOps (newTestBed (newDiskQueueWriter 1000 10 1024 5) (newDiskQueueReader 1000 10 1024 5))
    (List.replicate 25 (QueueOp.put (List.replicate 123 0) true) ++ [QueueOp.publish])

/-- TestDiskQueueWriterCorruption up to line 169: after the Put loop, file 1 is
truncated to 500 bytes. -/
def corruptionTestSetup : TestBed := truncateSegment corruptionTestPuts 1 500

/-- The bytes of a segment that holds exactly the frames of the given messages. -/
def framesOf : List Bytes → Bytes
  | [] => []
  | m :: rest => frameOf m ++ framesOf rest

/-- The messages of the segments 0 .. n-1, in order, when `seg i` lists the messages
of segment i. -/
def logUpTo (seg : Nat → List Bytes) : Nat → List Bytes
  | 0 => []
  | n + 1 => logUpTo seg n ++ seg n

/-- The invariant of a test without truncation in which every Empty comes with a
new reader. `seg i` lists the messages written to segment i since the last Empty, `wf`, `rf`, `ef` are the segment numbers of the writer, of the read
cursor and of the accepted end, `P` lists the messages of the reader's segment that
lie before the read cursor and `Q` the messages of the end's segment that lie
before the end. -/
structure TestBedInv (s : TestBed) (seg : Nat → List Bytes) (wf rf ef : Nat)
    (P Q : List Bytes) : Prop where
  hWClosed : s.writer.closed = false
  hRClosed : s.reader.closed = false
  hWMax : s.writer.maxMsgSize < 2 ^ 32
  hWFile : s.writer.writeFileNum = (wf : Int)
  hRFile : s.reader.readFileNum = (rf : Int)
  hEFile : s.reader.endInfo.EndFileNum = (ef : Int)
  hFiles : ∀ i : Nat, rf ≤ i → (s.writer.files (i : Int)).getD [] = framesOf (seg i)
  hSegEmpty : ∀ i : Nat, wf < i → seg i = []
  hWPos : s.writer.writePos = ((framesOf (seg wf)).length : Int)
  hWCount : s.writer.totalMsgCnt = (s.putOk.length : Int)
  hLog : s.putOk = logUpTo seg (wf + 1)
  hSegLen : ∀ i, ∀ m ∈ seg i, m.length < 2 ^ 32
  hLastNone : s.lastEnd = none → s.putOk = []
  hLastSome : ∀ e, s.lastEnd = some e →
    ∃ lf : Nat, e.EndFileNum = (lf : Int) ∧ lf ≤ wf ∧
      e.EndPos = ((framesOf (seg lf)).length : Int) ∧
      e.TotalMsgCount = (s.putOk.length : Int) ∧
      (∀ i, lf < i → seg i = []) ∧
      (ef < lf ∨ (ef = lf ∧ s.reader.endInfo.EndPos ≤ e.EndPos))
  hPub : s.reader.endInfo = s.published.getD ⟨0, 0, 0⟩
  hELe : ef ≤ wf
  hEPre : ∃ Q', seg ef = Q ++ Q'
  hEPos : s.reader.endInfo.EndPos = ((framesOf Q).length : Int)
  hECount : s.reader.endInfo.TotalMsgCount = (((logUpTo seg ef).length + Q.length : Nat) : Int)
  hRLe : rf ≤ wf + 1
  hRCount : s.reader.readMsgCount = (s.received.length : Int)
  hRPos : s.reader.readPos = ((framesOf P).length : Int)
  hRAtEnd : rf = ef → ∃ S, P ++ S = Q
  hRBefore : rf < ef → ∃ S, P ++ S = seg rf
  hRAfter : ef < rf → P = []
  hRecvLe : s.received.length ≤ (logUpTo seg rf).length + P.length
  hRecvLeEnd : s.received.length ≤ (logUpTo seg ef).length + Q.length
  hExact : (∀ m ∈ s.putOk, s.reader.minMsgSize ≤ (m.length : Int) ∧
      (m.length : Int) ≤ s.reader.maxMsgSize) →
    rf ≤ ef ∧ s.received.map (fun x => x.data) = logUpTo seg rf ++ P

/-- The order on end cursors: file number and message count do not decrease, and
within one segment the position does not decrease (the order of (EndFileNum, EndPos)
pairs is lexicographic). -/
def EndLe (e1 e2 : diskQueueEndInfo) : Prop :=
  e1.EndFileNum ≤ e2.EndFileNum ∧ e1.TotalMsgCount ≤ e2.TotalMsgCount ∧
    (e1.EndFileNum = e2.EndFileNum → e1.EndPos ≤ e2.EndPos)

/-- A completed segment passes maxBytesPerFile by its last frame only: it is larger
than maxBytesPerFile, and what precedes its last frame is at most maxBytesPerFile
bytes long (or empty). -/
def SegmentOK (maxBytesPerFile : Int) (c : Bytes) : Prop :=
  ∃ p m : Bytes, c = p ++ frameOf m ∧ ((p.length : Int) ≤ maxBytesPerFile ∨ p = []) ∧
    (c.length : Int) > maxBytesPerFile

/-- The data-directory invariant of the writer: no segment exists outside the
sequence numbers 0..writeFileNum, completed segments exist and pass maxBytesPerFile
by their last frame only, writePos is the length of the current segment (zero when
it does not exist yet) and has not passed maxBytesPerFile. -/
def WriterInv (w : diskQueueWriter) : Prop :=
  w.closed = false ∧
  0 ≤ w.writeFileNum ∧
  (∀ i, i < 0 ∨ w.writeFileNum < i → w.files i = none) ∧
  (∀ i, 0 ≤ i → i < w.writeFileNum → ∃ c, w.files i = some c ∧ SegmentOK w.maxBytesPerFile c) ∧
  (((w.files w.writeFileNum).getD []).length : Int) = w.writePos ∧
  (w.writePos ≤ w.maxBytesPerFile ∨ w.writePos = 0)

end Nsqd

/-! # Theorems -/

namespace Consistence

/-! ## Helper lemmas on `stringsIndex` for a one-byte separator -/

theorem stringsIndex_single_cons (c x : UInt8) (t : GoString) :
    stringsIndex (x :: t) [c] =
      if c = x then 0 else if stringsIndex t [c] < 0 then -1 else stringsIndex t [c] + 1 := by
  by_cases h : c = x
  · simp [stringsIndex, List.isPrefixOf, h]
  · simp [stringsIndex, List.isPrefixOf, h]

theorem stringsIndex_single_nil (c : UInt8) : stringsIndex [] [c] = -1 := by
  simp [stringsIndex]

theorem stringsIndex_single_of_not_mem (c : UInt8) (s : GoString) (h : c ∉ s) :
    stringsIndex s [c] = -1 := by
  induction s with
  | nil => exact stringsIndex_single_nil c
  | cons x t ih =>
    have hx : c ≠ x := fun e => h (by simp [e])
    have ht : c ∉ t := fun e => h (by simp [e])
    rw [stringsIndex_single_cons, if_neg hx, ih ht]
    simp

theorem stringsIndex_single_split (c : UInt8) (a b : GoString) (h : c ∉ a) :
    stringsIndex (a ++ c :: b) [c] = (a.length : Int) := by
  induction a with
  | nil => simp [stringsIndex_single_cons]
  | cons x t ih =>
    have hx : c ≠ x := fun e => h (by simp [e])
    have ht : c ∉ t := fun e => h (by simp [e])
    rw [List.cons_append, stringsIndex_single_cons, if_neg hx, ih ht]
    have : ¬ ((t.length : Int) < 0) := by omega
    rw [if_neg this]
    simp

/-- Every string containing `c` splits at the first occurrence of `c`. -/
theorem split_at_first (c : UInt8) (s : GoString) (h : c ∈ s) :
    ∃ a b, s = a ++ c :: b ∧ c ∉ a := by
  induction s with
  | nil => simp at h
  | cons x t ih =>
    by_cases hx : c = x
    · exact ⟨[], t, by simp [hx], by simp⟩
    · have ht : c ∈ t := by
        rcases List.mem_cons.mp h with e | e
        · exact absurd e hx
        · exact e
      obtain ⟨a, b, hab, hna⟩ := ih ht
      refine ⟨x :: a, b, by simp [hab], ?_⟩
      intro hm
      rcases List.mem_cons.mp hm with e | e
      · exact hx e
      · exact hna e

/-- On a string with two separators the function returns the text before the second. -/
theorem ExtractRpcAddrFromID_split (a b c : GoString) (ha : (58 : UInt8) ∉ a)
    (hb : (58 : UInt8) ∉ b) :
    ExtractRpcAddrFromID (a ++ 58 :: (b ++ 58 :: c)) = some (a ++ 58 :: b) := by
  have h1 : stringsIndex (a ++ 58 :: (b ++ 58 :: c)) colon = (a.length : Int) :=
    stringsIndex_single_split 58 a _ ha
  have h2 : stringsIndex (b ++ 58 :: c) colon = (b.length : Int) :=
    stringsIndex_single_split 58 b _ hb
  have hdrop : List.drop (a.length + 1) (a ++ 58 :: (b ++ 58 :: c)) = b ++ 58 :: c := by
    rw [List.drop_append_eq_append_drop]
    simp
  have htake : List.take (a.length + b.length + 1) (a ++ 58 :: (b ++ 58 :: c)) = a ++ 58 :: b := by
    have e : a ++ 58 :: (b ++ 58 :: c) = (a ++ 58 :: b) ++ 58 :: c := by simp
    rw [e]
    have hl : (a ++ 58 :: b).length = a.length + b.length + 1 := by simp; omega
    rw [← hl, List.take_left]
  unfold ExtractRpcAddrFromID
  simp only [h1]
  have hs : sliceFrom (a ++ 58 :: (b ++ 58 :: c)) ((a.length : Int) + 1) = some (b ++ 58 :: c) := by
    unfold sliceFrom
    have hc : (0 : Int) ≤ (a.length : Int) + 1 ∧
        (a.length : Int) + 1 ≤ ((a ++ 58 :: (b ++ 58 :: c)).length : Int) := by
      simp only [List.length_append, List.length_cons]
      push_cast
      omega
    rw [if_pos hc]
    have : ((a.length : Int) + 1).toNat = a.length + 1 := by omega
    rw [this, hdrop]
  rw [hs]
  simp only [h2]
  unfold sliceTo
  have hc : (0 : Int) ≤ (a.length : Int) + (b.length : Int) + 1 ∧
      (a.length : Int) + (b.length : Int) + 1 ≤ ((a ++ 58 :: (b ++ 58 :: c)).length : Int) := by
    simp only [List.length_append, List.length_cons]
    push_cast
    omega
  rw [if_pos hc]
  have : ((a.length : Int) + (b.length : Int) + 1).toNat = a.length + b.length + 1 := by omega
  rw [this, htake]

/-- With at least two separators the result is the prefix before the second one. -/
theorem ExtractRpcAddrFromID_of_two (nid : GoString) (h : 2 ≤ nid.count 58) :
    ∃ r rest, ExtractRpcAddrFromID nid = some r ∧ r.count 58 = 1 ∧
      nid = r ++ colon ++ rest := by
  have hmem : (58 : UInt8) ∈ nid := List.count_pos_iff.mp (by omega)
  obtain ⟨a, t, hnid, ha⟩ := split_at_first 58 nid hmem
  have hca : a.count 58 = 0 := List.count_eq_zero.mpr ha
  have hct : 1 ≤ t.count 58 := by
    have := h
    rw [hnid, List.count_append, List.count_cons_self, hca] at this
    omega
  obtain ⟨b, c, ht, hb⟩ := split_at_first 58 t (List.count_pos_iff.mp (by omega))
  have hcb : b.count 58 = 0 := List.count_eq_zero.mpr hb
  refine ⟨a ++ 58 :: b, c, ?_, ?_, ?_⟩
  · rw [hnid, ht]
    exact ExtractRpcAddrFromID_split a b c ha hb
  · rw [List.count_append, List.count_cons_self, hca, hcb]
  · rw [hnid, ht]
    simp [colon]

theorem GenNsqdNodeID_eq (n : NsqdNodeInfo) (extra : GoString) :
    GenNsqdNodeID n extra =
      n.NodeIp ++ 58 :: (n.RpcPort ++ 58 :: (n.TcpPort ++ 58 :: extra)) := by
  simp [GenNsqdNodeID, WriteString, colon]

/-! ## Claims C1 to C5 -/

/-- C1: for non-nil pointers a and b (addresses in a heap), a.IsEqual(b) is true if
and only if the two values have the same ErrType and the same ErrCode and, when
that code is RpcCommonErr, the same ErrMsg; when the code is not RpcCommonErr the
messages are not compared. -/
theorem IsEqual_iff (RpcCommonErr : ErrRPCRetCode) (heap : Heap) (a b : Nat) :
    IsEqual RpcCommonErr heap (some a) (some b) = true ↔
      ((heap a).ErrType = (heap b).ErrType ∧ (heap a).ErrCode = (heap b).ErrCode ∧
        ((heap a).ErrCode = RpcCommonErr → (heap a).ErrMsg = (heap b).ErrMsg)) := by
  unfold IsEqual
  by_cases hab : a = b
  · subst hab
    simp
  · simp only [hab, if_false]
    by_cases hc : (heap b).ErrCode = (heap a).ErrCode
    · by_cases ht : (heap b).ErrType = (heap a).ErrType
      · by_cases hr : (heap b).ErrCode = RpcCommonErr
        · by_cases hm : (heap b).ErrMsg = (heap a).ErrMsg
          · simp [hc, ht, hm]
          · have hm2 : ¬ (heap a).ErrMsg = (heap b).ErrMsg := fun e => hm e.symm
            have hr2 : (heap a).ErrCode = RpcCommonErr := hc ▸ hr
            simp [hc, ht, hm, hm2, hr2]
        · have hr2 : ¬ (heap a).ErrCode = RpcCommonErr := fun e => hr (hc.trans e)
          simp [hc, ht, hr2]
      · have ht2 : ¬ (heap a).ErrType = (heap b).ErrType := fun e => ht e.symm
        simp [ht, ht2]
    · have hc2 : ¬ (heap a).ErrCode = (heap b).ErrCode := fun e => hc e.symm
      simp [hc, hc2]

/-- C2 (as stated, refuted): for the node info with NodeIp "::1", RpcPort "1",
TcpPort "2" and extra "x", ExtractRpcAddrFromID(GenNsqdNodeID(n, extra)) is ":" and
not NodeIp + ":" + RpcPort = "::1:1". -/
theorem GenNsqdNodeID_colon_in_ip_counterexample :
    ExtractRpcAddrFromID (GenNsqdNodeID ⟨[58, 58, 49], [49], [50]⟩ [120]) = some [58] ∧
      ExtractRpcAddrFromID (GenNsqdNodeID ⟨[58, 58, 49], [49], [50]⟩ [120]) ≠
        some ([58, 58, 49] ++ colon ++ [49]) := by
  decide

/-- C2 (amended): for every node info and every extra string,
ExtractRpcAddrFromID(GenNsqdNodeID(n, extra)) returns, and its result equals
NodeIp + ":" + RpcPort exactly when neither NodeIp nor RpcPort contains a colon. -/
theorem ExtractRpcAddrFromID_GenNsqdNodeID (n : NsqdNodeInfo) (extra : GoString) :
    (∃ r, ExtractRpcAddrFromID (GenNsqdNodeID n extra) = some r) ∧
    (ExtractRpcAddrFromID (GenNsqdNodeID n extra) = some (n.NodeIp ++ colon ++ n.RpcPort) ↔
      ((58 : UInt8) ∉ n.NodeIp ∧ (58 : UInt8) ∉ n.RpcPort)) := by
  have hcount : 2 ≤ (GenNsqdNodeID n extra).count 58 := by
    rw [GenNsqdNodeID_eq]
    simp only [List.count_append, List.count_cons_self]
    omega
  obtain ⟨r, rest, hr, hr1, _⟩ := ExtractRpcAddrFromID_of_two _ hcount
  refine ⟨⟨r, hr⟩, ?_, ?_⟩
  · intro h
    rw [hr] at h
    have hrr : r = n.NodeIp ++ colon ++ n.RpcPort := Option.some.inj h
    rw [hrr] at hr1
    simp only [colon, List.count_append, List.count_cons_self, List.count_nil] at hr1
    constructor
    · exact List.count_eq_zero.mp (by omega)
    · exact List.count_eq_zero.mp (by omega)
  · rintro ⟨hi, hp⟩
    rw [GenNsqdNodeID_eq, ExtractRpcAddrFromID_split _ _ _ hi hp]
    simp [colon]

/-- C3: for every string nid containing at least two colons, ExtractRpcAddrFromID
returns the prefix of nid that ends just before the second colon: the result
contains exactly one colon and nid = result + ":" + rest for some rest. -/
theorem ExtractRpcAddrFromID_before_second_colon (nid : GoString)
    (h : 2 ≤ nid.count 58) :
    ∃ r rest, ExtractRpcAddrFromID nid = some r ∧ r.count 58 = 1 ∧
      nid = r ++ colon ++ rest :=
  ExtractRpcAddrFromID_of_two nid h

theorem ExtractRpcAddrFromID_before_second_colon_witness :
    2 ≤ ([49, 58, 50, 58, 51, 58, 52] : GoString).count 58 ∧
      ∃ r rest, ExtractRpcAddrFromID [49, 58, 50, 58, 51, 58, 52] = some r ∧
        r.count 58 = 1 ∧ [49, 58, 50, 58, 51, 58, 52] = r ++ colon ++ rest :=
  ⟨by decide, ExtractRpcAddrFromID_before_second_colon [49, 58, 50, 58, 51, 58, 52]
    (by decide)⟩

/-- C4: for every CoordErr value e, whatever its code and message, CanRetry is true
iff ErrType is CoordTmpErr or CoordElectionTmpErr, IsNeedCheckSync is true iff
ErrType is CoordElectionErr, and IsNetErr is true iff ErrType is CoordNetErr. -/
theorem CanRetry_IsNeedCheckSync_IsNetErr_iff (e : CoordErr) :
    (CanRetry e = true ↔ (e.ErrType = CoordTmpErr ∨ e.ErrType = CoordElectionTmpErr)) ∧
    (IsNeedCheckSync e = true ↔ e.ErrType = CoordElectionErr) ∧
    (IsNetErr e = true ↔ e.ErrType = CoordNetErr) := by
  simp [CanRetry, IsNeedCheckSync, IsNetErr]

/-- C5: for every node info n and every extra string, GenNsqdNodeID(n, extra) is
exactly the concatenation NodeIp, ":", RpcPort, ":", TcpPort, ":", extra, in that
order with nothing added or removed. -/
theorem GenNsqdNodeID_concat (n : NsqdNodeInfo) (extra : GoString) :
    GenNsqdNodeID n extra =
      n.NodeIp ++ colon ++ n.RpcPort ++ colon ++ n.TcpPort ++ colon ++ extra := by
  simp [GenNsqdNodeID, WriteString]

end Consistence

namespace Nsqd

/-! ## Helper lemmas on the writer steps -/

theorem frameOf_length (data : Bytes) : ((frameOf data).length : Int) = 4 + (data.length : Int) := by
  simp [frameOf, bigEndian32]
  omega

theorem frameOf_length_nat (m : Bytes) : (frameOf m).length = 4 + m.length := by
  simp [frameOf, bigEndian32]
  omega

theorem frameOf_take (m : Bytes) : (frameOf m).take 4 = bigEndian32 m.length := by
  simp [frameOf, bigEndian32]

theorem encode_ok (lo hi : Int) (data : Bytes) (hmin : lo ≤ (data.length : Int))
    (hmax : (data.length : Int) ≤ hi) : encode lo hi data = .ok (frameOf data) := by
  unfold encode
  rw [if_neg]
  omega

theorem encode_eq_ok (lo hi : Int) (data frame : Bytes) (h : encode lo hi data = .ok frame) :
    frame = frameOf data ∧ lo ≤ (data.length : Int) ∧ (data.length : Int) ≤ hi := by
  unfold encode at h
  split at h
  · cases h
  · injection h with h
    refine ⟨h.symm, ?_, ?_⟩ <;> omega

theorem needsRotate_iff (w : diskQueueWriter) :
    needsRotate w = true ↔ w.writePos > w.maxBytesPerFile := by
  simp [needsRotate]

/-- The state after step 2: only the open flag and the existence of the current
segment file change. -/
theorem openCurrentSegment_fields (w : diskQueueWriter) :
    (openCurrentSegment w).writeFileNum = w.writeFileNum ∧
    (openCurrentSegment w).writePos = w.writePos ∧
    (openCurrentSegment w).totalMsgCnt = w.totalMsgCnt ∧
    (openCurrentSegment w).maxBytesPerFile = w.maxBytesPerFile ∧
    (openCurrentSegment w).minMsgSize = w.minMsgSize ∧
    (openCurrentSegment w).maxMsgSize = w.maxMsgSize ∧
    (openCurrentSegment w).closed = w.closed ∧
    (∀ i, ((openCurrentSegment w).files i).getD [] = (w.files i).getD []) ∧
    (∀ i, i ≠ w.writeFileNum → (openCurrentSegment w).files i = w.files i) := by
  unfold openCurrentSegment
  split
  · exact ⟨rfl, rfl, rfl, rfl, rfl, rfl, rfl, fun _ => rfl, fun _ _ => rfl⟩
  · refine ⟨rfl, rfl, rfl, rfl, rfl, rfl, rfl, ?_, ?_⟩
    · intro i
      by_cases hi : i = w.writeFileNum
      · simp [hi]
      · simp [hi]
    · intro i hi
      simp [hi]

/-- The state after steps 4 to 6: the frame is appended to the current segment, and
the cursor moves to the next segment when writePos has passed maxBytesPerFile. -/
theorem commitFrame_fields (w : diskQueueWriter) (frame : Bytes) :
    (commitFrame w frame).writeFileNum =
        (if w.writePos + (frame.length : Int) > w.maxBytesPerFile then w.writeFileNum + 1
          else w.writeFileNum) ∧
    (commitFrame w frame).writePos =
        (if w.writePos + (frame.length : Int) > w.maxBytesPerFile then 0
          else w.writePos + (frame.length : Int)) ∧
    (commitFrame w frame).totalMsgCnt = w.totalMsgCnt + 1 ∧
    (commitFrame w frame).maxBytesPerFile = w.maxBytesPerFile ∧
    (commitFrame w frame).minMsgSize = w.minMsgSize ∧
    (commitFrame w frame).maxMsgSize = w.maxMsgSize ∧
    (commitFrame w frame).closed = w.closed ∧
    (commitFrame w frame).files =
      (fun i => if i = w.writeFileNum then some ((w.files i).getD [] ++ frame) else w.files i) := by
  unfold commitFrame
  simp only
  by_cases hr : w.writePos + (frame.length : Int) > w.maxBytesPerFile
  · have hn : needsRotate (appendFrame w frame) = true := by
      rw [needsRotate_iff]
      exact hr
    simp only [hn, if_true, hr]
    split <;> simp [sync, rotate, appendFrame]
  · have hn : needsRotate (appendFrame w frame) = false := by
      cases h : needsRotate (appendFrame w frame)
      · rfl
      · exact absurd ((needsRotate_iff _).mp h) hr
    simp only [hn, Bool.false_eq_true, if_false, hr]
    split <;> simp [sync, appendFrame]

/-- A call on an open writer with a message of valid size and a successful write. -/
theorem Put_ok (w : diskQueueWriter) (data : Bytes) (hc : w.closed = false)
    (hmin : w.minMsgSize ≤ (data.length : Int)) (hmax : (data.length : Int) ≤ w.maxMsgSize) :
    Put w data true =
      (commitFrame (openCurrentSegment w) (frameOf data),
        .ok (GetQueueReadEnd (commitFrame (openCurrentSegment w) (frameOf data)))) := by
  unfold Put
  simp [hc, encode_ok _ _ _ hmin hmax]

/-- A call that returns an end cursor was such a call. -/
theorem Put_eq_ok (w : diskQueueWriter) (data : Bytes) (ok : Bool) (e : diskQueueEndInfo)
    (h : (Put w data ok).2 = .ok e) :
    w.closed = false ∧ ok = true ∧ w.minMsgSize ≤ (data.length : Int) ∧
      (data.length : Int) ≤ w.maxMsgSize := by
  unfold Put at h
  cases hc : w.closed
  · simp only [hc, Bool.false_eq_true, if_false] at h
    cases he : encode w.minMsgSize w.maxMsgSize data with
    | error err => simp [he] at h
    | ok frame =>
      obtain ⟨_, h1, h2⟩ := encode_eq_ok _ _ _ _ he
      cases ok
      · simp [he] at h
      · exact ⟨rfl, rfl, h1, h2⟩
  · simp [hc] at h

/-- The state and the returned end of a call on an open writer with a message of
valid size and a successful write, in terms of the state before the call. -/
theorem Put_ok_state (w : diskQueueWriter) (data : Bytes) (hc : w.closed = false)
    (hmin : w.minMsgSize ≤ (data.length : Int)) (hmax : (data.length : Int) ≤ w.maxMsgSize) :
    (Put w data true).1.writeFileNum =
        (if w.writePos + 4 + (data.length : Int) > w.maxBytesPerFile then w.writeFileNum + 1
          else w.writeFileNum) ∧
    (Put w data true).1.writePos =
        (if w.writePos + 4 + (data.length : Int) > w.maxBytesPerFile then 0
          else w.writePos + (4 + (data.length : Int))) ∧
    (Put w data true).1.totalMsgCnt = w.totalMsgCnt + 1 ∧
    (Put w data true).1.maxBytesPerFile = w.maxBytesPerFile ∧
    (Put w data true).1.minMsgSize = w.minMsgSize ∧
    (Put w data true).1.maxMsgSize = w.maxMsgSize ∧
    (Put w data true).1.closed = false ∧
    (Put w data true).1.files =
      (fun i => if i = w.writeFileNum then some ((w.files i).getD [] ++ frameOf data)
        else w.files i) ∧
    (Put w data true).2 = .ok (GetQueueReadEnd (Put w data true).1) := by
  obtain ⟨o1, o2, o3, o4, o5, o6, o7, o8, o9⟩ := openCurrentSegment_fields w
  obtain ⟨c1, c2, c3, c4, c5, c6, c7, c8⟩ :=
    commitFrame_fields (openCurrentSegment w) (frameOf data)
  rw [Put_ok w data hc hmin hmax]
  dsimp only
  rw [c1, c2, c3, c4, c5, c6, c7, c8, o1, o2, o3, o4, o5, o6, o7, frameOf_length]
  have hassoc : w.writePos + (4 + (data.length : Int)) = w.writePos + 4 + (data.length : Int) := by
    omega
  refine ⟨?_, ?_, rfl, rfl, rfl, rfl, hc, ?_, rfl⟩
  · rw [hassoc]
  · rw [hassoc]
  · funext i
    by_cases hi : i = w.writeFileNum
    · simp only [hi, if_true]
      rw [o8]
    · simp only [hi, if_false]
      exact o9 i hi

/-- The state after a call whose write fails: the cursor is unchanged. -/
theorem Put_failed_state (w : diskQueueWriter) (data : Bytes) (hc : w.closed = false)
    (hmin : w.minMsgSize ≤ (data.length : Int)) (hmax : (data.length : Int) ≤ w.maxMsgSize) :
    Put w data false = ({ openCurrentSegment w with segmentOpen := false }, .error .IOError) := by
  unfold Put
  simp [hc, encode_ok _ _ _ hmin hmax]

theorem WriterInv_openCurrentSegment (w : diskQueueWriter) (h : WriterInv w) :
    WriterInv (openCurrentSegment w) := by
  obtain ⟨h1, h2, h3, h4, h5, h6⟩ := h
  obtain ⟨o1, o2, _, o4, _, _, o7, o8, o9⟩ := openCurrentSegment_fields w
  unfold WriterInv
  rw [o1, o2, o4, o7, o8]
  refine ⟨h1, h2, ?_, ?_, h5, h6⟩
  · intro i hi
    rw [o9 i (by omega)]
    exact h3 i hi
  · intro i hi0 hi
    rw [o9 i (by omega)]
    exact h4 i hi0 hi

theorem WriterInv_closeSegment (w : diskQueueWriter) (h : WriterInv w) :
    WriterInv { w with segmentOpen := false } := h

/-- Every call of Put preserves the data-directory invariant. -/
theorem WriterInv_Put (w : diskQueueWriter) (data : Bytes) (ok : Bool) (h : WriterInv w) :
    WriterInv (Put w data ok).1 := by
  by_cases hv : w.minMsgSize ≤ (data.length : Int) ∧ (data.length : Int) ≤ w.maxMsgSize
  · obtain ⟨hmin, hmax⟩ := hv
    cases ok
    · rw [Put_failed_state w data h.1 hmin hmax]
      exact WriterInv_closeSegment _ (WriterInv_openCurrentSegment w h)
    · obtain ⟨s1, s2, _, s4, _, _, s7, s8, _⟩ := Put_ok_state w data h.1 hmin hmax
      obtain ⟨h1, h2, h3, h4, h5, h6⟩ := h
      have hlen := frameOf_length data
      unfold WriterInv
      rw [s1, s2, s4, s7, s8]
      by_cases hr : w.writePos + 4 + (data.length : Int) > w.maxBytesPerFile
      · simp only [hr, if_true]
        refine ⟨trivial, by omega, ?_, ?_, ?_, Or.inr trivial⟩
        · intro i hi
          have hne : i ≠ w.writeFileNum := by omega
          simp only [hne, if_false]
          exact h3 i (by omega)
        · intro i hi0 hi
          by_cases hlt : i < w.writeFileNum
          · have hne : i ≠ w.writeFileNum := by omega
            simp only [hne, if_false]
            exact h4 i hi0 hlt
          · have he : i = w.writeFileNum := by omega
            simp only [he, if_true]
            refine ⟨_, rfl, (w.files w.writeFileNum).getD [], data, rfl, ?_, ?_⟩
            · rcases h6 with h6 | h6
              · left; omega
              · right
                apply List.eq_nil_of_length_eq_zero
                omega
            · simp only [List.length_append]
              push_cast
              omega
        · have hne : w.writeFileNum + 1 ≠ w.writeFileNum := by omega
          simp only [hne, if_false]
          rw [h3 _ (Or.inr (by omega))]
          rfl
      · simp only [hr, if_false]
        refine ⟨trivial, h2, ?_, ?_, ?_, ?_⟩
        · intro i hi
          have hne : i ≠ w.writeFileNum := by omega
          simp only [hne, if_false]
          exact h3 i hi
        · intro i hi0 hi
          have hne : i ≠ w.writeFileNum := by omega
          simp only [hne, if_false]
          exact h4 i hi0 hi
        · simp only [if_true, Option.getD_some, List.length_append]
          push_cast
          omega
        · left; omega
  · have hsame : (Put w data ok).1 = w := by
      unfold Put
      rw [h.1]
      simp only [Bool.false_eq_true, if_false]
      cases he : encode w.minMsgSize w.maxMsgSize data with
      | error err => rfl
      | ok frame =>
        obtain ⟨_, e1, e2⟩ := encode_eq_ok _ _ _ _ he
        exact absurd ⟨e1, e2⟩ hv
    rw [hsame]
    exact h

theorem WriterInv_fresh (a b c d : Int) : WriterInv (newDiskQueueWriter a b c d) := by
  unfold WriterInv newDiskQueueWriter
  refine ⟨rfl, le_refl _, fun _ _ => rfl, ?_, rfl, Or.inr rfl⟩
  intro i hi0 hi
  dsimp only at hi
  omega

theorem WriterInv_of_Reachable (w : diskQueueWriter) (h : Reachable w) : WriterInv w := by
  induction h with
  | fresh a b c d => exact WriterInv_fresh a b c d
  | put w data ok _ ih => exact WriterInv_Put w data ok ih

/-- One call of Put moves the cursor forward in the order EndLe, and a returned end
is the cursor of the state after the call. -/
theorem Put_cursor (w : diskQueueWriter) (data : Bytes) (ok : Bool) :
    EndLe (GetQueueReadEnd w) (GetQueueReadEnd (Put w data ok).1) ∧
      ∀ e, (Put w data ok).2 = .ok e → e = GetQueueReadEnd (Put w data ok).1 := by
  have hrefl : EndLe (GetQueueReadEnd w) (GetQueueReadEnd w) :=
    ⟨le_refl _, le_refl _, fun _ => le_refl _⟩
  unfold Put
  cases hc : w.closed
  · simp only [Bool.false_eq_true, if_false]
    cases he : encode w.minMsgSize w.maxMsgSize data with
    | error err => exact ⟨hrefl, fun e h => by cases h⟩
    | ok frame =>
      obtain ⟨p1, p2, p3, _⟩ := openCurrentSegment_fields w
      cases ok
      · refine ⟨?_, fun e h => by cases h⟩
        simp only [Bool.false_eq_true, if_false]
        unfold EndLe GetQueueReadEnd
        dsimp only
        rw [p1, p2, p3]
        simp
      · simp only [if_true]
        obtain ⟨c1, c2, c3, _⟩ := commitFrame_fields (openCurrentSegment w) frame
        refine ⟨?_, fun e h => by injection h with h; exact h.symm⟩
        unfold EndLe GetQueueReadEnd
        dsimp only
        rw [c1, c2, c3, p1, p2, p3]
        split
        · refine ⟨by omega, by omega, fun h => ?_⟩
          omega
        · refine ⟨le_refl _, by omega, fun _ => ?_⟩
          have : (0 : Int) ≤ (frame.length : Int) := Int.natCast_nonneg _
          omega
  · simp only [if_true]
    exact ⟨hrefl, fun e h => by cases h⟩

theorem EndLe_trans (a b c : diskQueueEndInfo) (h1 : EndLe a b) (h2 : EndLe b c) :
    EndLe a c := by
  obtain ⟨a1, a2, a3⟩ := h1
  obtain ⟨b1, b2, b3⟩ := h2
  refine ⟨le_trans a1 b1, le_trans a2 b2, fun he => ?_⟩
  have e1 : a.EndFileNum = b.EndFileNum := by omega
  have e2 : b.EndFileNum = c.EndFileNum := by omega
  exact le_trans (a3 e1) (b3 e2)

/-- Every end returned during a run is at or after the cursor the run started from. -/
theorem PutRun_ends_after (inputs : List (Bytes × Bool)) (w : diskQueueWriter)
    (e : diskQueueEndInfo) (h : e ∈ (PutRun w inputs).2) : EndLe (GetQueueReadEnd w) e := by
  induction inputs generalizing w with
  | nil => simp [PutRun] at h
  | cons x rest ih =>
    obtain ⟨data, ok⟩ := x
    obtain ⟨hle, hend⟩ := Put_cursor w data ok
    unfold PutRun at h
    cases hp : Put w data ok with
    | mk w1 r =>
      rw [hp] at hle hend
      cases r with
      | error err =>
        simp only [hp] at h
        exact EndLe_trans _ _ _ hle (ih w1 h)
      | ok e1 =>
        simp only [hp] at h
        have he1 : e1 = GetQueueReadEnd w1 := hend e1 rfl
        rcases List.mem_cons.mp h with h | h
        · rw [h, he1]; exact hle
        · exact EndLe_trans _ _ _ hle (ih w1 h)

theorem PutRun_pairwise (inputs : List (Bytes × Bool)) (w : diskQueueWriter) :
    List.Pairwise EndLe (PutRun w inputs).2 := by
  induction inputs generalizing w with
  | nil => simp [PutRun]
  | cons x rest ih =>
    obtain ⟨data, ok⟩ := x
    obtain ⟨_, hend⟩ := Put_cursor w data ok
    unfold PutRun
    cases hp : Put w data ok with
    | mk w1 r =>
      rw [hp] at hend
      cases r with
      | error err => simpa only using ih w1
      | ok e1 =>
        have he1 : e1 = GetQueueReadEnd w1 := hend e1 rfl
        simp only
        refine List.Pairwise.cons ?_ (ih w1)
        intro e he
        rw [he1]
        exact PutRun_ends_after rest w1 e he

/-- A run of Puts from a reachable state ends in a reachable state. -/
theorem Reachable_PutRun (inputs : List (Bytes × Bool)) (w : diskQueueWriter)
    (h : Reachable w) : Reachable (PutRun w inputs).1 := by
  induction inputs generalizing w with
  | nil => exact h
  | cons x rest ih =>
    obtain ⟨data, ok⟩ := x
    have hstep : Reachable (Put w data ok).1 := Reachable.put w data ok h
    unfold PutRun
    cases hp : Put w data ok with
    | mk w1 r =>
      rw [hp] at hstep
      cases r with
      | error err => exact ih w1 hstep
      | ok e1 => exact ih w1 hstep

/-- The first call of a run of successful Puts. -/
theorem PutRun_cons_ok (w : diskQueueWriter) (m : Bytes) (rest : List (Bytes × Bool))
    (hc : w.closed = false) (hmin : w.minMsgSize ≤ (m.length : Int))
    (hmax : (m.length : Int) ≤ w.maxMsgSize) :
    PutRun w ((m, true) :: rest) =
      ((PutRun (Put w m true).1 rest).1,
        GetQueueReadEnd (Put w m true).1 :: (PutRun (Put w m true).1 rest).2) := by
  have h9 := (Put_ok_state w m hc hmin hmax).2.2.2.2.2.2.2.2
  rw [PutRun]
  cases hp : Put w m true with
  | mk w1 r =>
    rw [hp] at h9
    dsimp only at h9
    subst h9
    rfl

/-- Successful Puts of messages of one length, the last of which is the first to
take writePos beyond maxBytesPerFile: the run ends at position 0 of the next
segment. -/
theorem PutRun_until_rotation (ml : Nat) (rest : List Bytes) (m : Bytes) (w : diskQueueWriter)
    (hm : m.length = ml) (hall : ∀ x ∈ rest, x.length = ml) (hc : w.closed = false)
    (hmin : w.minMsgSize ≤ (ml : Int)) (hmax : (ml : Int) ≤ w.maxMsgSize)
    (hfit : w.writePos + (rest.length : Int) * ((ml : Int) + 4) ≤ w.maxBytesPerFile)
    (hover : w.writePos + ((rest.length : Int) + 1) * ((ml : Int) + 4) > w.maxBytesPerFile) :
    (PutRun w ((m :: rest).map (fun x => (x, true)))).1.writeFileNum = w.writeFileNum + 1 ∧
    (PutRun w ((m :: rest).map (fun x => (x, true)))).1.writePos = 0 ∧
    (PutRun w ((m :: rest).map (fun x => (x, true)))).1.totalMsgCnt =
      w.totalMsgCnt + ((rest.length : Int) + 1) ∧
    ((PutRun w ((m :: rest).map (fun x => (x, true)))).2).length = rest.length + 1 := by
  induction rest generalizing m w with
  | nil =>
    have hmin1 : w.minMsgSize ≤ (m.length : Int) := by rw [hm]; exact hmin
    have hmax1 : (m.length : Int) ≤ w.maxMsgSize := by rw [hm]; exact hmax
    obtain ⟨s1, s2, s3, _⟩ := Put_ok_state w m hc hmin1 hmax1
    have hr : w.writePos + 4 + (m.length : Int) > w.maxBytesPerFile := by
      rw [hm]
      simp only [List.length_nil, Nat.cast_zero, zero_add, one_mul] at hover
      omega
    simp only [hr, if_true] at s1 s2
    simp only [List.map_cons, List.map_nil]
    rw [PutRun_cons_ok w m [] hc hmin1 hmax1]
    simp only [PutRun, List.length_cons, List.length_nil, Nat.cast_zero, zero_add]
    exact ⟨s1, s2, s3, trivial⟩
  | cons m2 rest ih =>
    have hmin1 : w.minMsgSize ≤ (m.length : Int) := by rw [hm]; exact hmin
    have hmax1 : (m.length : Int) ≤ w.maxMsgSize := by rw [hm]; exact hmax
    obtain ⟨s1, s2, s3, s4, s5, s6, s7, _⟩ := Put_ok_state w m hc hmin1 hmax1
    have hprod : (((m2 :: rest).length : Nat) : Int) * ((ml : Int) + 4) =
        (rest.length : Int) * ((ml : Int) + 4) + ((ml : Int) + 4) := by
      simp only [List.length_cons]
      push_cast
      ring
    have hprod1 : ((((m2 :: rest).length : Nat) : Int) + 1) * ((ml : Int) + 4) =
        ((rest.length : Int) + 1) * ((ml : Int) + 4) + ((ml : Int) + 4) := by
      simp only [List.length_cons]
      push_cast
      ring
    have hnn : (0 : Int) ≤ (rest.length : Int) * ((ml : Int) + 4) :=
      mul_nonneg (Int.natCast_nonneg _) (by omega)
    have hr : ¬ (w.writePos + 4 + (m.length : Int) > w.maxBytesPerFile) := by
      rw [hm]
      omega
    simp only [hr, if_false] at s1 s2
    have hm2 : m2.length = ml := hall m2 (List.mem_cons_self _ _)
    have hall2 : ∀ x ∈ rest, x.length = ml := fun x hx => hall x (List.mem_cons_of_mem _ hx)
    have hprod2 : ((rest.length : Int) + 1) * ((ml : Int) + 4) =
        (rest.length : Int) * ((ml : Int) + 4) + ((ml : Int) + 4) := by ring
    obtain ⟨i1, i2, i3, i4⟩ := ih m2 (Put w m true).1 hm2 hall2 s7 (by rw [s5]; exact hmin)
      (by rw [s6]; exact hmax)
      (by rw [s2, s4, hm]; omega)
      (by rw [s2, s4, hm]; omega)
    have hmap : (m :: m2 :: rest).map (fun x => (x, true)) =
        (m, true) :: (m2 :: rest).map (fun x => (x, true)) := rfl
    rw [hmap, PutRun_cons_ok w m _ hc hmin1 hmax1]
    dsimp only
    rw [i1, i2, i3, s1, s3]
    refine ⟨rfl, rfl, ?_, ?_⟩
    · simp only [List.length_cons]
      push_cast
      omega
    · simp only [List.length_cons, i4]


/-! ## Claims C6 to C10 -/

/-- C6: for a message whose length is within [minMsgSize, maxMsgSize] and whose
frame does not trigger a rotation (the write does not take writePos beyond
maxBytesPerFile), Put on an open writer with a successful write returns an end, and
every successful Put advances writePos by exactly 4 + len(m), increments
totalMsgCount by exactly 1, leaves writeFileNum unchanged and returns the end
cursor (writeFileNum, writePos, totalMsgCount) of the updated state; on a fresh
writer with maxBytesPerFile = 1024, Put("test") returns (0, 8, 1). -/
theorem Put_without_rotation (w : diskQueueWriter) (data : Bytes)
    (hmin : w.minMsgSize ≤ (data.length : Int)) (hmax : (data.length : Int) ≤ w.maxMsgSize)
    (hrot : ¬ (w.writePos + 4 + (data.length : Int) > w.maxBytesPerFile)) :
    (w.closed = false → ∃ e, (Put w data true).2 = .ok e) ∧
    (∀ ok e, (Put w data ok).2 = .ok e →
      (Put w data ok).1.writePos = w.writePos + (4 + (data.length : Int)) ∧
      (Put w data ok).1.totalMsgCnt = w.totalMsgCnt + 1 ∧
      (Put w data ok).1.writeFileNum = w.writeFileNum ∧
      e = ⟨(Put w data ok).1.writeFileNum, (Put w data ok).1.writePos,
            (Put w data ok).1.totalMsgCnt⟩) ∧
    (∀ lo hi syncEvery : Int, lo ≤ 4 → 4 ≤ hi →
      (Put (newDiskQueueWriter 1024 lo hi syncEvery) [116, 101, 115, 116] true).2 =
        .ok ⟨0, 8, 1⟩) := by
  refine ⟨?_, ?_, ?_⟩
  · intro hc
    rw [Put_ok w data hc hmin hmax]
    exact ⟨_, rfl⟩
  · intro ok e he
    obtain ⟨hc, hok, _, _⟩ := Put_eq_ok w data ok e he
    have hend := (Put_cursor w data ok).2 e he
    subst hok
    obtain ⟨s1, s2, s3, _⟩ := Put_ok_state w data hc hmin hmax
    simp only [hrot, if_false] at s1 s2
    refine ⟨s2, s3, s1, ?_⟩
    rw [hend]
    rfl
  · intro lo hi syncEvery hlo hhi
    have hc : (newDiskQueueWriter 1024 lo hi syncEvery).closed = false := rfl
    have h1 : (newDiskQueueWriter 1024 lo hi syncEvery).minMsgSize ≤
        (([116, 101, 115, 116] : Bytes).length : Int) := by
      simpa [newDiskQueueWriter] using hlo
    have h2 : (([116, 101, 115, 116] : Bytes).length : Int) ≤
        (newDiskQueueWriter 1024 lo hi syncEvery).maxMsgSize := by
      simpa [newDiskQueueWriter] using hhi
    obtain ⟨s1, s2, s3, _, _, _, _, _, s9⟩ := Put_ok_state _ _ hc h1 h2
    have hno : ¬ ((newDiskQueueWriter 1024 lo hi syncEvery).writePos + 4 +
        (([116, 101, 115, 116] : Bytes).length : Int) >
          (newDiskQueueWriter 1024 lo hi syncEvery).maxBytesPerFile) := by
      simp [newDiskQueueWriter]
    simp only [hno, if_false] at s1 s2
    rw [s9]
    unfold GetQueueReadEnd
    rw [s1, s2, s3]
    simp [newDiskQueueWriter]

theorem Put_without_rotation_witness :
    (newDiskQueueWriter 1024 4 1024 2500).minMsgSize ≤
        (([116, 101, 115, 116] : Bytes).length : Int) ∧
    (([116, 101, 115, 116] : Bytes).length : Int) ≤
        (newDiskQueueWriter 1024 4 1024 2500).maxMsgSize ∧
    ¬ ((newDiskQueueWriter 1024 4 1024 2500).writePos + 4 +
          (([116, 101, 115, 116] : Bytes).length : Int) >
        (newDiskQueueWriter 1024 4 1024 2500).maxBytesPerFile) ∧
    ∃ e, (Put (newDiskQueueWriter 1024 4 1024 2500) [116, 101, 115, 116] true).2 = .ok e :=
  ⟨by decide, by decide, by decide,
    (Put_without_rotation (newDiskQueueWriter 1024 4 1024 2500) [116, 101, 115, 116]
      (by decide) (by decide) (by decide)).1 rfl⟩

/-- C7: for every payload length ml and every k (in particular ml ≥ 1 and k ≥ 1),
on a fresh writer configured with maxBytesPerFile = k * (ml + 4) that accepts
ml-byte messages, k + 1 Puts of ml-byte messages whose writes succeed all return
an end and leave the writer at writeFileNum = 1, writePos = 0 and
totalMsgCount = k + 1 (the test's instance is ml = 10, k = 9, ten Puts). -/
theorem PutRun_roll_state (ml k : Nat) (lo hi syncEvery : Int) (msgs : List Bytes)
    (hlo : lo ≤ (ml : Int)) (hhi : (ml : Int) ≤ hi)
    (hlen : msgs.length = k + 1) (hall : ∀ m ∈ msgs, m.length = ml) :
    (PutRun (newDiskQueueWriter ((k : Int) * ((ml : Int) + 4)) lo hi syncEvery)
        (msgs.map (fun m => (m, true)))).1.writeFileNum = 1 ∧
    (PutRun (newDiskQueueWriter ((k : Int) * ((ml : Int) + 4)) lo hi syncEvery)
        (msgs.map (fun m => (m, true)))).1.writePos = 0 ∧
    (PutRun (newDiskQueueWriter ((k : Int) * ((ml : Int) + 4)) lo hi syncEvery)
        (msgs.map (fun m => (m, true)))).1.totalMsgCnt = (k : Int) + 1 ∧
    ((PutRun (newDiskQueueWriter ((k : Int) * ((ml : Int) + 4)) lo hi syncEvery)
        (msgs.map (fun m => (m, true)))).2).length = k + 1 := by
  cases msgs with
  | nil => simp at hlen
  | cons m rest =>
    have hk : rest.length = k := by simpa using hlen
    have hm : m.length = ml := hall m (List.mem_cons_self _ _)
    have hall2 : ∀ x ∈ rest, x.length = ml := fun x hx => hall x (List.mem_cons_of_mem _ hx)
    have hprod : ((rest.length : Int) + 1) * ((ml : Int) + 4) =
        (rest.length : Int) * ((ml : Int) + 4) + ((ml : Int) + 4) := by ring
    obtain ⟨r1, r2, r3, r4⟩ := PutRun_until_rotation ml rest m
      (newDiskQueueWriter ((k : Int) * ((ml : Int) + 4)) lo hi syncEvery) hm hall2 rfl hlo hhi
      (by
        show (0 : Int) + (rest.length : Int) * ((ml : Int) + 4) ≤ (k : Int) * ((ml : Int) + 4)
        rw [hk]
        omega)
      (by
        show (0 : Int) + ((rest.length : Int) + 1) * ((ml : Int) + 4) >
          (k : Int) * ((ml : Int) + 4)
        rw [hprod, hk]
        omega)
    refine ⟨r1, r2, ?_, ?_⟩
    · rw [r3, hk]
      show (0 : Int) + ((k : Int) + 1) = (k : Int) + 1
      omega
    · rw [r4, hk]

theorem PutRun_roll_state_witness :
    (10 : Int) ≤ ((10 : Nat) : Int) ∧ ((10 : Nat) : Int) ≤ (1024 : Int) ∧
    (List.replicate 10 (List.replicate 10 (0 : UInt8))).length = 9 + 1 ∧
    (∀ m ∈ List.replicate 10 (List.replicate 10 (0 : UInt8)), m.length = 10) ∧
    (PutRun (newDiskQueueWriter (((9 : Nat) : Int) * (((10 : Nat) : Int) + 4)) 10 1024 2500)
        ((List.replicate 10 (List.replicate 10 (0 : UInt8))).map
          (fun m => (m, true)))).1.writeFileNum = 1 ∧
    (PutRun (newDiskQueueWriter (((9 : Nat) : Int) * (((10 : Nat) : Int) + 4)) 10 1024 2500)
        ((List.replicate 10 (List.replicate 10 (0 : UInt8))).map
          (fun m => (m, true)))).1.writePos = 0 ∧
    (PutRun (newDiskQueueWriter (((9 : Nat) : Int) * (((10 : Nat) : Int) + 4)) 10 1024 2500)
        ((List.replicate 10 (List.replicate 10 (0 : UInt8))).map
          (fun m => (m, true)))).1.totalMsgCnt = ((9 : Nat) : Int) + 1 :=
  ⟨by decide, by decide, by decide, by decide,
    (PutRun_roll_state 10 9 10 1024 2500 (List.replicate 10 (List.replicate 10 (0 : UInt8)))
      (by decide) (by decide) (by decide) (by decide)).1,
    (PutRun_roll_state 10 9 10 1024 2500 (List.replicate 10 (List.replicate 10 (0 : UInt8)))
      (by decide) (by decide) (by decide) (by decide)).2.1,
    (PutRun_roll_state 10 9 10 1024 2500 (List.replicate 10 (List.replicate 10 (0 : UInt8)))
      (by decide) (by decide) (by decide) (by decide)).2.2.1⟩

set_option maxRecDepth 100000 in
/-- The tenth Put of the rollover test, by evaluation. -/
theorem rollTest_tenth_put :
    (rollTestPuts 9).writeFileNum = 0 ∧ (rollTestPuts 9).writePos = 126 ∧
    (rollTestPuts 9).maxBytesPerFile = 126 ∧
    ((rollTestPuts 9).writePos + 4 + ((List.replicate 10 (0 : UInt8)).length : Int) >
        (rollTestPuts 9).maxBytesPerFile ∧ (rollTestPuts 9).writePos > 0) ∧
    (Put (rollTestPuts 9) (List.replicate 10 0) true).1.writeFileNum = 1 ∧
    (Put (rollTestPuts 9) (List.replicate 10 0) true).1.writePos = 0 ∧
    (Put (rollTestPuts 9) (List.replicate 10 0) true).1.files 1 = none ∧
    (Put (rollTestPuts 9) (List.replicate 10 0) true).1.files 0 =
      some (framesOf (List.replicate 10 (List.replicate 10 0))) ∧
    (framesOf (List.replicate 10 (List.replicate 10 0))).length = 140 ∧
    (framesOf (List.replicate 10 (List.replicate 10 (0 : UInt8)))).take 4 = [0, 0, 0, 10] := by
  refine ⟨by decide, by decide, by decide, by decide, by decide, by decide, by decide,
    by decide, by decide, by decide⟩

/-- C8 (as stated, refuted): in the rollover test, after nine Puts the writer is at
writePos = 126 in segment 0, and for the tenth 10-byte message the stated condition
holds (126 + 4 + 10 > 126 and 126 > 0); yet the tenth Put appends its frame to
segment 0 and only then moves to segment 1, in which nothing is written: segment 1
does not exist, and the completed segment 0 holds the ten frames, 140 bytes, more
than maxBytesPerFile = 126, and is not a single frame. -/
theorem Put_appends_before_rotating :
    (rollTestPuts 9).writeFileNum = 0 ∧ (rollTestPuts 9).writePos = 126 ∧
    (rollTestPuts 9).maxBytesPerFile = 126 ∧
    ((rollTestPuts 9).writePos + 4 + ((List.replicate 10 (0 : UInt8)).length : Int) >
        (rollTestPuts 9).maxBytesPerFile ∧ (rollTestPuts 9).writePos > 0) ∧
    (Put (rollTestPuts 9) (List.replicate 10 0) true).1.writeFileNum = 1 ∧
    (Put (rollTestPuts 9) (List.replicate 10 0) true).1.writePos = 0 ∧
    (Put (rollTestPuts 9) (List.replicate 10 0) true).1.files 1 = none ∧
    (Put (rollTestPuts 9) (List.replicate 10 0) true).1.files 0 =
      some (framesOf (List.replicate 10 (List.replicate 10 0))) ∧
    (framesOf (List.replicate 10 (List.replicate 10 0))).length = 140 ∧
    (∀ m : Bytes, framesOf (List.replicate 10 (List.replicate 10 0)) ≠ frameOf m) := by
  obtain ⟨e1, e2, e3, e4, e5, e6, e7, e8, e9, e10⟩ := rollTest_tenth_put
  refine ⟨e1, e2, e3, e4, e5, e6, e7, e8, e9, ?_⟩
  intro m h
  have hl := congrArg List.length h
  rw [e9] at hl
  have hm : m.length = 136 := by
    have := frameOf_length_nat m
    omega
  have ht := congrArg (fun c => c.take 4) h
  simp only [e10, frameOf_take, hm] at ht
  revert ht
  decide

/-- C8 (amended): on a state reached by Puts, a Put of a valid message whose write
succeeds appends the frame to the current segment at writePos, and rotates after
the write exactly when the new writePos, writePos + 4 + len(msg), exceeds
maxBytesPerFile: then writeFileNum is incremented by 1 and writePos is reset to 0,
the new segment holding nothing yet; otherwise writeFileNum is unchanged and
writePos is advanced by 4 + len(msg). Consequently every completed segment
(sequence number below writeFileNum) exists and passes maxBytesPerFile by its last
frame only: it is larger than maxBytesPerFile, and without its last frame it is
at most maxBytesPerFile bytes long (or empty). -/
theorem Put_rotation_rule (w : diskQueueWriter) (data : Bytes) (hr : Reachable w)
    (hmin : w.minMsgSize ≤ (data.length : Int)) (hmax : (data.length : Int) ≤ w.maxMsgSize) :
    ((Put w data true).1.files w.writeFileNum =
        some ((w.files w.writeFileNum).getD [] ++ frameOf data) ∧
      (((w.files w.writeFileNum).getD []).length : Int) = w.writePos) ∧
    (w.writePos + 4 + (data.length : Int) > w.maxBytesPerFile →
      (Put w data true).1.writeFileNum = w.writeFileNum + 1 ∧
      (Put w data true).1.writePos = 0 ∧
      (Put w data true).1.files (w.writeFileNum + 1) = none) ∧
    (¬ (w.writePos + 4 + (data.length : Int) > w.maxBytesPerFile) →
      (Put w data true).1.writeFileNum = w.writeFileNum ∧
      (Put w data true).1.writePos = w.writePos + (4 + (data.length : Int))) ∧
    (∀ i, 0 ≤ i → i < w.writeFileNum →
      ∃ p m : Bytes, w.files i = some (p ++ frameOf m) ∧
        ((p.length : Int) ≤ w.maxBytesPerFile ∨ p = []) ∧
        ((p ++ frameOf m).length : Int) > w.maxBytesPerFile) := by
  have hinv := WriterInv_of_Reachable w hr
  obtain ⟨h1, h2, h3, h4, h5, h6⟩ := hinv
  obtain ⟨s1, s2, _, _, _, _, _, s8, _⟩ := Put_ok_state w data h1 hmin hmax
  refine ⟨⟨?_, h5⟩, ?_, ?_, ?_⟩
  · rw [s8]
    simp only [if_true]
  · intro hcond
    simp only [hcond, if_true] at s1 s2
    refine ⟨s1, s2, ?_⟩
    rw [s8]
    have hne : w.writeFileNum + 1 ≠ w.writeFileNum := by omega
    simp only [hne, if_false]
    exact h3 _ (Or.inr (by omega))
  · intro hcond
    simp only [hcond, if_false] at s1 s2
    exact ⟨s1, s2⟩
  · intro i hi0 hi
    obtain ⟨c, hc, p, m, hpm, hp, hlen⟩ := h4 i hi0 hi
    refine ⟨p, m, ?_, hp, ?_⟩
    · rw [hc, hpm]
    · rw [← hpm]
      exact hlen

theorem Put_rotation_rule_witness :
    Reachable (rollTestPuts 9) ∧
    (rollTestPuts 9).minMsgSize ≤ ((List.replicate 10 (0 : UInt8)).length : Int) ∧
    ((List.replicate 10 (0 : UInt8)).length : Int) ≤ (rollTestPuts 9).maxMsgSize ∧
    (rollTestPuts 9).writePos + 4 + ((List.replicate 10 (0 : UInt8)).length : Int) >
      (rollTestPuts 9).maxBytesPerFile ∧
    ((Put (rollTestPuts 9) (List.replicate 10 0) true).1.writeFileNum =
        (rollTestPuts 9).writeFileNum + 1 ∧
      (Put (rollTestPuts 9) (List.replicate 10 0) true).1.writePos = 0 ∧
      (Put (rollTestPuts 9) (List.replicate 10 0) true).1.files
        ((rollTestPuts 9).writeFileNum + 1) = none) :=
  ⟨Reachable_PutRun _ _ (Reachable.fresh (9 * 14) 10 1024 2500), by decide, by decide,
    by decide,
    (Put_rotation_rule (rollTestPuts 9) (List.replicate 10 0)
      (Reachable_PutRun _ _ (Reachable.fresh (9 * 14) 10 1024 2500))
      (by decide) (by decide)).2.1 (by decide)⟩

/-- C9 (as stated, refuted): in the run of the rollover test (ten Puts of a 10-byte
message, maxBytesPerFile = 9 * 14) the ninth Put returns the end (0, 126, 9) and
the tenth returns (1, 0, 10), so the later EndPos is smaller than the earlier one
and the returned ends are not ordered componentwise. -/
theorem PutRun_ends_not_componentwise :
    (PutRun (newDiskQueueWriter (9 * 14) 10 1024 2500)
        (List.replicate 10 (List.replicate 10 0, true))).2 =
      [⟨0, 14, 1⟩, ⟨0, 28, 2⟩, ⟨0, 42, 3⟩, ⟨0, 56, 4⟩, ⟨0, 70, 5⟩, ⟨0, 84, 6⟩, ⟨0, 98, 7⟩,
        ⟨0, 112, 8⟩, ⟨0, 126, 9⟩, ⟨1, 0, 10⟩] ∧
    ¬ List.Pairwise
        (fun e1 e2 : diskQueueEndInfo =>
          e2.EndFileNum ≥ e1.EndFileNum ∧ e2.EndPos ≥ e1.EndPos ∧
            e2.TotalMsgCount ≥ e1.TotalMsgCount)
        (PutRun (newDiskQueueWriter (9 * 14) 10 1024 2500)
          (List.replicate 10 (List.replicate 10 0, true))).2 := by
  have h : (PutRun (newDiskQueueWriter (9 * 14) 10 1024 2500)
        (List.replicate 10 (List.replicate 10 0, true))).2 =
      [⟨0, 14, 1⟩, ⟨0, 28, 2⟩, ⟨0, 42, 3⟩, ⟨0, 56, 4⟩, ⟨0, 70, 5⟩, ⟨0, 84, 6⟩, ⟨0, 98, 7⟩,
        ⟨0, 112, 8⟩, ⟨0, 126, 9⟩, ⟨1, 0, 10⟩] := by decide
  refine ⟨h, ?_⟩
  rw [h]
  decide

/-- C9 (amended): for every run of Puts from any writer state (no Empty in
between), if E1 is the end returned by an earlier Put and E2 the end returned by a
later one, then E2.EndFileNum ≥ E1.EndFileNum and
E2.TotalMsgCount ≥ E1.TotalMsgCount, and E2.EndPos ≥ E1.EndPos whenever both ends
lie in the same segment (E1.EndFileNum = E2.EndFileNum). -/
theorem PutRun_ends_monotone (w : diskQueueWriter) (inputs : List (Bytes × Bool)) :
    List.Pairwise
      (fun e1 e2 : diskQueueEndInfo =>
        e2.EndFileNum ≥ e1.EndFileNum ∧ e2.TotalMsgCount ≥ e1.TotalMsgCount ∧
          (e1.EndFileNum = e2.EndFileNum → e2.EndPos ≥ e1.EndPos))
      (PutRun w inputs).2 :=
  PutRun_pairwise inputs w

/-- C10: for every writer state reached by Puts, Empty leaves writeFileNum = 0,
writePos = 0 and totalMsgCount = 0 with no segment file (at any sequence number)
and no metadata file remaining; a second Empty yields the same state; and the next
Put of a valid message after Empty succeeds, is written at position 0 of file 0
(the frame is the whole content of segment 0) and sets totalMsgCount to 1; it
returns the end (0, 4 + len, 1) and stays in file 0 when the frame does not pass
maxBytesPerFile, and returns (1, 0, 1) when that single frame passes it. -/
theorem Empty_resets (w : diskQueueWriter) (hr : Reachable w) :
    (Empty w).writeFileNum = 0 ∧ (Empty w).writePos = 0 ∧ (Empty w).totalMsgCnt = 0 ∧
    (∀ i, (Empty w).files i = none) ∧ (Empty w).metaData = none ∧
    Empty (Empty w) = Empty w ∧
    (∀ data : Bytes, w.minMsgSize ≤ (data.length : Int) → (data.length : Int) ≤ w.maxMsgSize →
      (Put (Empty w) data true).1.files 0 = some (frameOf data) ∧
      (Put (Empty w) data true).1.totalMsgCnt = 1 ∧
      (∃ e, (Put (Empty w) data true).2 = .ok e ∧ e.TotalMsgCount = 1) ∧
      (4 + (data.length : Int) ≤ w.maxBytesPerFile →
        (Put (Empty w) data true).2 = .ok ⟨0, 4 + (data.length : Int), 1⟩ ∧
        (Put (Empty w) data true).1.writeFileNum = 0) ∧
      (4 + (data.length : Int) > w.maxBytesPerFile →
        (Put (Empty w) data true).2 = .ok ⟨1, 0, 1⟩)) := by
  obtain ⟨h1, h2, h3, _⟩ := WriterInv_of_Reachable w hr
  have hfiles : ∀ i, (Empty w).files i = none := by
    intro i
    unfold Empty
    dsimp only
    split
    · rfl
    · exact h3 i (by omega)
  have hidem : Empty (Empty w) = Empty w := by
    have hf : (Empty (Empty w)).files = (Empty w).files := by
      funext i
      rw [hfiles i]
      unfold Empty
      dsimp only
      split
      · rfl
      · exact hfiles i
    unfold Empty at hf ⊢
    simp only at hf ⊢
    simp only [hf]
  refine ⟨rfl, rfl, rfl, hfiles, rfl, hidem, ?_⟩
  intro data hmin hmax
  have hc : (Empty w).closed = false := h1
  obtain ⟨s1, s2, s3, _, _, _, _, s8, s9⟩ := Put_ok_state (Empty w) data hc hmin hmax
  have e1 : (Empty w).writeFileNum = 0 := rfl
  have e2 : (Empty w).writePos = 0 := rfl
  have e3 : (Empty w).totalMsgCnt = 0 := rfl
  have e4 : (Empty w).maxBytesPerFile = w.maxBytesPerFile := rfl
  simp only [e1, e2, e4] at s1 s2
  rw [e3] at s3
  refine ⟨?_, ?_, ?_, ?_, ?_⟩
  · rw [s8]
    show (if (0 : Int) = 0 then some (((Empty w).files 0).getD [] ++ frameOf data)
      else (Empty w).files 0) = some (frameOf data)
    rw [if_pos rfl, hfiles 0]
    rfl
  · rw [s3]; rfl
  · refine ⟨_, s9, ?_⟩
    show (Put (Empty w) data true).1.totalMsgCnt = 1
    rw [s3]; rfl
  · intro hfit
    have hno : ¬ ((0 : Int) + 4 + (data.length : Int) > w.maxBytesPerFile) := by omega
    simp only [hno, if_false] at s1 s2
    refine ⟨?_, s1⟩
    rw [s9]
    unfold GetQueueReadEnd
    rw [s1, s2, s3]
    simp
  · intro hover
    have hyes : (0 : Int) + 4 + (data.length : Int) > w.maxBytesPerFile := by omega
    simp only [hyes, if_true] at s1 s2
    rw [s9]
    unfold GetQueueReadEnd
    rw [s1, s2, s3]
    simp

theorem Empty_resets_witness :
    Reachable (PutRun (newDiskQueueWriter 100 0 1024 2500)
        (List.replicate 10 (List.replicate 10 0, true))).1 ∧
    (PutRun (newDiskQueueWriter 100 0 1024 2500)
        (List.replicate 10 (List.replicate 10 0, true))).1.writeFileNum = 1 ∧
    (Empty (PutRun (newDiskQueueWriter 100 0 1024 2500)
        (List.replicate 10 (List.replicate 10 0, true))).1).writeFileNum = 0 ∧
    (∀ i, (Empty (PutRun (newDiskQueueWriter 100 0 1024 2500)
        (List.replicate 10 (List.replicate 10 0, true))).1).files i = none) :=
  ⟨Reachable_PutRun _ _ (Reachable.fresh 100 0 1024 2500),
    by decide,
    (Empty_resets _ (Reachable_PutRun _ _ (Reachable.fresh 100 0 1024 2500))).1,
    (Empty_resets _ (Reachable_PutRun _ _ (Reachable.fresh 100 0 1024 2500))).2.2.2.1⟩

end Nsqd

namespace Consistence

/-! ## Helper lemmas for claims C15 to C20 -/

theorem HasError_eq_false_iff (RpcNoErr : ErrRPCRetCode) (e : CoordErr) :
    HasError RpcNoErr e = false ↔ (e.ErrType = CoordNoErr ∧ e.ErrCode = RpcNoErr) := by
  unfold HasError
  by_cases h : e.ErrType = CoordNoErr ∧ e.ErrCode = RpcNoErr
  · simp [h]
  · simp only [h, if_false]
    simp

theorem HasError_of_type_ne (RpcNoErr : ErrRPCRetCode) (e : CoordErr)
    (h : e.ErrType ≠ CoordNoErr) : HasError RpcNoErr e = true := by
  cases hh : HasError RpcNoErr e
  · exact absurd ((HasError_eq_false_iff RpcNoErr e).mp hh).1 h
  · rfl

theorem sentinelErrors_type_ne (c : RpcRetCodes) :
    ∀ e ∈ sentinelErrors c, e.ErrType ≠ CoordNoErr := by
  have h : (sentinelErrors c).all (fun e => decide (e.ErrType ≠ CoordNoErr)) = true := by
    rfl
  intro e he
  have := List.all_eq_true.mp h e he
  simpa using this

/-- The characterisation of `IsEqual` on two non-nil pointers. -/
theorem IsEqual_some_some (RpcCommonErr : ErrRPCRetCode) (heap : Heap) (a b : Nat) :
    IsEqual RpcCommonErr heap (some a) (some b) = true ↔
      ((heap a).ErrType = (heap b).ErrType ∧ (heap a).ErrCode = (heap b).ErrCode ∧
        ((heap a).ErrCode = RpcCommonErr → (heap a).ErrMsg = (heap b).ErrMsg)) := by
  unfold IsEqual
  by_cases hab : a = b
  · subst hab
    simp
  · simp only [hab, if_false]
    by_cases hc : (heap b).ErrCode = (heap a).ErrCode
    · by_cases ht : (heap b).ErrType = (heap a).ErrType
      · by_cases hr : (heap b).ErrCode = RpcCommonErr
        · by_cases hm : (heap b).ErrMsg = (heap a).ErrMsg
          · simp [hc, ht, hm]
          · have hm2 : ¬ (heap a).ErrMsg = (heap b).ErrMsg := fun e => hm e.symm
            have hr2 : (heap a).ErrCode = RpcCommonErr := hc ▸ hr
            simp [hc, ht, hm, hm2, hr2]
        · have hr2 : ¬ (heap a).ErrCode = RpcCommonErr := fun e => hr (hc.trans e)
          simp [hc, ht, hr2]
      · have ht2 : ¬ (heap a).ErrType = (heap b).ErrType := fun e => ht e.symm
        simp [ht, ht2]
    · have hc2 : ¬ (heap a).ErrCode = (heap b).ErrCode := fun e => hc e.symm
      simp [hc, hc2]

theorem IsEqual_nil_left (RpcCommonErr : ErrRPCRetCode) (heap : Heap) (p : CoordErrPtr) :
    IsEqual RpcCommonErr heap none p = false := by
  cases p <;> rfl

theorem IsEqual_nil_right (RpcCommonErr : ErrRPCRetCode) (heap : Heap) (p : CoordErrPtr) :
    IsEqual RpcCommonErr heap p none = false := by
  cases p <;> rfl

/-- Without a separator the second slice bound is `-1` and the call panics. -/
theorem ExtractRpcAddrFromID_no_colon (nid : GoString) (h : (58 : UInt8) ∉ nid) :
    stringsIndex nid colon = -1 ∧ sliceFrom nid (stringsIndex nid colon + 1) = some nid ∧
      stringsIndex nid colon + stringsIndex nid colon + 1 = -1 ∧
      ExtractRpcAddrFromID nid = none := by
  have h1 : stringsIndex nid colon = -1 := stringsIndex_single_of_not_mem 58 nid h
  have hs : sliceFrom nid (stringsIndex nid colon + 1) = some nid := by
    rw [h1]
    unfold sliceFrom
    have hc : (0 : Int) ≤ -1 + 1 ∧ (-1 : Int) + 1 ≤ (nid.length : Int) := by omega
    rw [if_pos hc]
    simp
  refine ⟨h1, hs, by rw [h1]; rfl, ?_⟩
  rw [h1] at hs
  unfold ExtractRpcAddrFromID
  simp only [h1, hs]
  unfold sliceTo
  rw [if_neg]
  omega

/-- With exactly one separator the result is the text before it. -/
theorem ExtractRpcAddrFromID_one_colon (a b : GoString) (ha : (58 : UInt8) ∉ a)
    (hb : (58 : UInt8) ∉ b) : ExtractRpcAddrFromID (a ++ 58 :: b) = some a := by
  have h1 : stringsIndex (a ++ 58 :: b) colon = (a.length : Int) :=
    stringsIndex_single_split 58 a b ha
  have h2 : stringsIndex b colon = -1 := stringsIndex_single_of_not_mem 58 b hb
  have hs : sliceFrom (a ++ 58 :: b) ((a.length : Int) + 1) = some b := by
    unfold sliceFrom
    have hc : (0 : Int) ≤ (a.length : Int) + 1 ∧
        (a.length : Int) + 1 ≤ ((a ++ 58 :: b).length : Int) := by
      simp only [List.length_append, List.length_cons]
      push_cast
      omega
    rw [if_pos hc]
    have : ((a.length : Int) + 1).toNat = a.length + 1 := by omega
    rw [this, List.drop_append_eq_append_drop]
    simp
  unfold ExtractRpcAddrFromID
  simp only [h1, hs, h2]
  unfold sliceTo
  have hc : (0 : Int) ≤ (a.length : Int) + -1 + 1 ∧
      (a.length : Int) + -1 + 1 ≤ ((a ++ 58 :: b).length : Int) := by
    simp only [List.length_append, List.length_cons]
    push_cast
    omega
  rw [if_pos hc]
  have : ((a.length : Int) + -1 + 1).toNat = a.length := by omega
  rw [this, List.take_left]

theorem ExtractRpcAddrFromID_isSome_iff (nid : GoString) :
    (ExtractRpcAddrFromID nid).isSome = true ↔ (58 : UInt8) ∈ nid := by
  constructor
  · intro h
    by_contra hn
    rw [(ExtractRpcAddrFromID_no_colon nid hn).2.2.2] at h
    simp at h
  · intro h
    obtain ⟨a, t, hnid, ha⟩ := split_at_first 58 nid h
    by_cases ht : (58 : UInt8) ∈ t
    · obtain ⟨b, c, htc, hb⟩ := split_at_first 58 t ht
      rw [hnid, htc, ExtractRpcAddrFromID_split a b c ha hb]
      rfl
    · rw [hnid, ExtractRpcAddrFromID_one_colon a t ha ht]
      rfl

theorem FindSliceFrom_spec (xs : List GoString) (e : GoString) (i : Int) (hi : 0 ≤ i) :
    (FindSliceFrom i xs e = -1 ↔ e ∉ xs) ∧
    (e ∈ xs → ∃ k : Nat, FindSliceFrom i xs e = i + (k : Int) ∧ k < xs.length ∧
      xs[k]? = some e ∧ ∀ j : Nat, j < k → xs[j]? ≠ some e) := by
  induction xs generalizing i with
  | nil => simp [FindSliceFrom]
  | cons v rest ih =>
    unfold FindSliceFrom
    by_cases hv : v = e
    · subst hv
      simp only [if_true]
      refine ⟨?_, fun _ => ⟨0, by simp, by simp, by simp, by simp⟩⟩
      constructor
      · intro h; omega
      · intro h; exact absurd (List.mem_cons_self _ _) h
    · simp only [hv, if_false]
      obtain ⟨ih1, ih2⟩ := ih (i + 1) (by omega)
      have hmem : e ∈ v :: rest ↔ e ∈ rest := by
        constructor
        · intro h
          rcases List.mem_cons.mp h with h | h
          · exact absurd h.symm hv
          · exact h
        · intro h; exact List.mem_cons_of_mem _ h
      refine ⟨by rw [ih1, hmem], ?_⟩
      intro h
      obtain ⟨k, hk1, hk2, hk3, hk4⟩ := ih2 (hmem.mp h)
      refine ⟨k + 1, ?_, by simp; omega, by simpa using hk3, ?_⟩
      · rw [hk1]; push_cast; omega
      · intro j hj
        cases j with
        | zero => simpa using hv
        | succ j => simpa using hk4 j (by omega)

theorem collectKeys_eq (it : MapIter) (tmp : StringSet) : collectKeys it tmp = it.order tmp := by
  have h : ∀ (xs acc : List GoString),
      xs.foldl (fun ret k => ret ++ [k]) acc = acc ++ xs := by
    intro xs
    induction xs with
    | nil => intro acc; simp
    | cons x t ih => intro acc; simp [List.foldl, ih]
  unfold collectKeys
  rw [h]
  simp

theorem mapSet_nodup (m : StringSet) (v : GoString) (h : m.Nodup) : (mapSet m v).Nodup := by
  unfold mapSet
  split
  · exact h
  · rename_i hv
    rw [List.nodup_append]
    refine ⟨h, List.nodup_singleton v, ?_⟩
    intro a ha hb
    rw [List.mem_singleton] at hb
    exact hv (hb ▸ ha)

theorem mem_mapSet (m : StringSet) (v x : GoString) : x ∈ mapSet m v ↔ x ∈ m ∨ x = v := by
  unfold mapSet
  split
  · rename_i hv
    constructor
    · exact Or.inl
    · rintro (h | h)
      · exact h
      · exact h ▸ hv
  · simp

theorem foldl_mapSet (l : List GoString) (m : StringSet) (h : m.Nodup) :
    (l.foldl mapSet m).Nodup ∧ ∀ x, x ∈ l.foldl mapSet m ↔ x ∈ m ∨ x ∈ l := by
  induction l generalizing m with
  | nil => simp [h]
  | cons v t ih =>
    obtain ⟨h1, h2⟩ := ih (mapSet m v) (mapSet_nodup m v h)
    refine ⟨h1, fun x => ?_⟩
    rw [List.foldl_cons, h2, mem_mapSet, List.mem_cons]
    tauto

theorem foldl_mapDelete (f : List GoString) (m : StringSet) (h : m.Nodup) :
    (f.foldl mapDelete m).Nodup ∧ ∀ x, x ∈ f.foldl mapDelete m ↔ x ∈ m ∧ x ∉ f := by
  induction f generalizing m with
  | nil => simp [h]
  | cons v t ih =>
    have hn : (mapDelete m v).Nodup := List.Nodup.filter _ h
    obtain ⟨h1, h2⟩ := ih (mapDelete m v) hn
    refine ⟨h1, fun x => ?_⟩
    rw [List.foldl_cons, h2]
    unfold mapDelete
    rw [List.mem_filter, List.mem_cons]
    simp only [decide_eq_true_eq]
    tauto

theorem MergeList_spec (it : MapIter) (l r : List GoString) :
    (MergeList it l r).Nodup ∧ ∀ x, x ∈ MergeList it l r ↔ x ∈ l ∨ x ∈ r := by
  obtain ⟨a1, a2⟩ := foldl_mapSet l [] List.nodup_nil
  obtain ⟨b1, b2⟩ := foldl_mapSet r (l.foldl mapSet []) a1
  have hp := it.perm (r.foldl mapSet (l.foldl mapSet []))
  unfold MergeList
  simp only [collectKeys_eq]
  refine ⟨hp.nodup_iff.mpr b1, fun x => ?_⟩
  rw [hp.mem_iff, b2, a2]
  simp

theorem FilterList_spec (it : MapIter) (l f : List GoString) :
    (FilterList it l f).Nodup ∧ ∀ x, x ∈ FilterList it l f ↔ x ∈ l ∧ x ∉ f := by
  obtain ⟨a1, a2⟩ := foldl_mapSet l [] List.nodup_nil
  obtain ⟨b1, b2⟩ := foldl_mapDelete f (l.foldl mapSet []) a1
  have hp := it.perm (f.foldl mapDelete (l.foldl mapSet []))
  unfold FilterList
  simp only [collectKeys_eq]
  refine ⟨hp.nodup_iff.mpr b1, fun x => ?_⟩
  rw [hp.mem_iff, b2, a2]
  simp

/-! ## Claims C15 to C20 -/

/-- C15: for every CoordErr value e, HasError is false if and only if ErrType is
CoordNoErr and ErrCode is RpcNoErr; consequently, RpcCommonErr being distinct from
RpcNoErr, every error built by NewCoordErr(msg, kind) has HasError = true for every
msg and every kind (CoordNoErr included), and every pre-declared sentinel error has
HasError = true. -/
theorem HasError_false_iff (c : RpcRetCodes) (hne : c.RpcCommonErr ≠ c.RpcNoErr) :
    (∀ e : CoordErr,
      HasError c.RpcNoErr e = false ↔ (e.ErrType = CoordNoErr ∧ e.ErrCode = c.RpcNoErr)) ∧
    (∀ (msg : GoString) (kind : CoordErrType),
      HasError c.RpcNoErr (NewCoordErr c.RpcCommonErr msg kind) = true) ∧
    (∀ e ∈ sentinelErrors c, HasError c.RpcNoErr e = true) := by
  refine ⟨HasError_eq_false_iff c.RpcNoErr, ?_, ?_⟩
  · intro msg kind
    cases hh : HasError c.RpcNoErr (NewCoordErr c.RpcCommonErr msg kind)
    · exact absurd ((HasError_eq_false_iff _ _).mp hh).2 hne
    · rfl
  · intro e he
    exact HasError_of_type_ne _ e (sentinelErrors_type_ne c e he)

theorem HasError_false_iff_witness :
    (1 : ErrRPCRetCode) ≠ 0 ∧
    (∀ (msg : GoString) (kind : CoordErrType),
      HasError 0 (NewCoordErr 1 msg kind) = true) ∧
    (sentinelErrors ⟨0, 1, 2, 3, 4, 5, 6, 7, 8, 9, 10, 11, 12, 13, 14, 15, 16⟩).length = 29 :=
  ⟨by decide,
    (HasError_false_iff ⟨0, 1, 2, 3, 4, 5, 6, 7, 8, 9, 10, 11, 12, 13, 14, 15, 16⟩
      (by decide)).2.1,
    rfl⟩

/-- C16: on non-nil pointers IsEqual is an equivalence relation (reflexive,
symmetric as a.IsEqual(b) = b.IsEqual(a), transitive); whenever the receiver or the
argument is nil the result is false, also for nil against nil. -/
theorem IsEqual_equivalence (RpcCommonErr : ErrRPCRetCode) (heap : Heap) :
    (∀ a : Nat, IsEqual RpcCommonErr heap (some a) (some a) = true) ∧
    (∀ a b : Nat, IsEqual RpcCommonErr heap (some a) (some b) =
      IsEqual RpcCommonErr heap (some b) (some a)) ∧
    (∀ a b c : Nat, IsEqual RpcCommonErr heap (some a) (some b) = true →
      IsEqual RpcCommonErr heap (some b) (some c) = true →
      IsEqual RpcCommonErr heap (some a) (some c) = true) ∧
    (∀ p : CoordErrPtr, IsEqual RpcCommonErr heap none p = false ∧
      IsEqual RpcCommonErr heap p none = false) ∧
    IsEqual RpcCommonErr heap none none = false := by
  refine ⟨?_, ?_, ?_, ?_, rfl⟩
  · intro a
    rw [IsEqual_some_some]
    exact ⟨rfl, rfl, fun _ => rfl⟩
  · intro a b
    rw [Bool.eq_iff_iff, IsEqual_some_some, IsEqual_some_some]
    constructor
    · rintro ⟨h1, h2, h3⟩
      exact ⟨h1.symm, h2.symm, fun h => (h3 (h2.trans h)).symm⟩
    · rintro ⟨h1, h2, h3⟩
      exact ⟨h1.symm, h2.symm, fun h => (h3 (h2.trans h)).symm⟩
  · intro a b c hab hbc
    rw [IsEqual_some_some] at hab hbc ⊢
    obtain ⟨h1, h2, h3⟩ := hab
    obtain ⟨g1, g2, g3⟩ := hbc
    exact ⟨h1.trans g1, h2.trans g2, fun h => (h3 h).trans (g3 (h2.symm.trans h))⟩
  · intro p
    exact ⟨IsEqual_nil_left _ _ p, IsEqual_nil_right _ _ p⟩

/-- C17: ExtractRpcAddrFromID returns (no out-of-range slice) exactly for the
strings that contain at least one colon; for a string with exactly one colon it
returns the part before that colon; for a string with no colon (the empty string
included) the first slice is the whole string, the computed bound of the second
slice is -1 and the call panics. -/
theorem ExtractRpcAddrFromID_returns_iff (nid : GoString) :
    ((ExtractRpcAddrFromID nid).isSome = true ↔ (58 : UInt8) ∈ nid) ∧
    (nid.count 58 = 1 →
      ∃ a b, nid = a ++ colon ++ b ∧ (58 : UInt8) ∉ a ∧ ExtractRpcAddrFromID nid = some a) ∧
    ((58 : UInt8) ∉ nid →
      ∃ rest, sliceFrom nid (stringsIndex nid colon + 1) = some rest ∧
        stringsIndex nid colon + stringsIndex rest colon + 1 = -1 ∧
        sliceTo nid (-1) = none ∧ ExtractRpcAddrFromID nid = none) := by
  refine ⟨ExtractRpcAddrFromID_isSome_iff nid, ?_, ?_⟩
  · intro hc
    have hmem : (58 : UInt8) ∈ nid := List.count_pos_iff.mp (by omega)
    obtain ⟨a, t, hnid, ha⟩ := split_at_first 58 nid hmem
    have hca : a.count 58 = 0 := List.count_eq_zero.mpr ha
    have ht : (58 : UInt8) ∉ t := by
      apply List.count_eq_zero.mp
      rw [hnid, List.count_append, List.count_cons_self, hca] at hc
      omega
    refine ⟨a, t, by rw [hnid]; simp [colon], ha, ?_⟩
    rw [hnid]
    exact ExtractRpcAddrFromID_one_colon a t ha ht
  · intro hn
    obtain ⟨h1, h2, h3, h4⟩ := ExtractRpcAddrFromID_no_colon nid hn
    refine ⟨nid, h2, h3, ?_, h4⟩
    unfold sliceTo
    rw [if_neg]
    omega

/-- C18: FindSlice(in, e) returns -1 if and only if e does not occur in the list;
otherwise it returns the index i of the first occurrence: 0 ≤ i < len(in),
in[i] = e, and in[j] ≠ e for every j < i. -/
theorem FindSlice_spec (xs : List GoString) (e : GoString) :
    (FindSlice xs e = -1 ↔ e ∉ xs) ∧
    (e ∈ xs → ∃ i : Nat, FindSlice xs e = (i : Int) ∧ i < xs.length ∧ xs[i]? = some e ∧
      ∀ j : Nat, j < i → xs[j]? ≠ some e) := by
  obtain ⟨h1, h2⟩ := FindSliceFrom_spec xs e 0 (le_refl _)
  refine ⟨h1, fun h => ?_⟩
  obtain ⟨k, hk1, hk2, hk3, hk4⟩ := h2 h
  exact ⟨k, by unfold FindSlice; rw [hk1]; omega, hk2, hk3, hk4⟩

/-- C19: for all lists l and r and every iteration order of the map, MergeList(l, r)
has no duplicates and contains a string if and only if it occurs in l or in r;
its length is the number of distinct strings of l and r together and is at most
len(l) + len(r). -/
theorem MergeList_nodup_mem (it : MapIter) (l r : List GoString) :
    (MergeList it l r).Nodup ∧
    (∀ x, x ∈ MergeList it l r ↔ x ∈ l ∨ x ∈ r) ∧
    (MergeList it l r).length = (l ++ r).toFinset.card ∧
    (MergeList it l r).length ≤ l.length + r.length := by
  obtain ⟨h1, h2⟩ := MergeList_spec it l r
  have hset : (MergeList it l r).toFinset = (l ++ r).toFinset := by
    ext x
    simp [h2]
  have hlen : (MergeList it l r).length = (l ++ r).toFinset.card := by
    rw [← hset, List.toFinset_card_of_nodup h1]
  refine ⟨h1, h2, hlen, ?_⟩
  rw [hlen, ← List.length_append]
  exact List.toFinset_card_le _

/-- C20: for all lists l and filter and every iteration order of the map,
FilterList(l, filter) has no duplicates and contains a string if and only if it
occurs in l and not in filter; FilterList(l, l) is empty; and
FilterList(MergeList(l, r), r) has the same elements as FilterList(l, r) (each once,
so the two lists are permutations of each other), whatever orders the three
iterations take. -/
theorem FilterList_nodup_mem (it : MapIter) (l filter : List GoString) :
    (FilterList it l filter).Nodup ∧
    (∀ x, x ∈ FilterList it l filter ↔ x ∈ l ∧ x ∉ filter) ∧
    FilterList it l l = [] ∧
    (∀ (it1 it2 : MapIter) (r : List GoString),
      (∀ x, x ∈ FilterList it (MergeList it1 l r) r ↔ x ∈ FilterList it2 l r) ∧
      (FilterList it (MergeList it1 l r) r).Perm (FilterList it2 l r)) := by
  obtain ⟨h1, h2⟩ := FilterList_spec it l filter
  refine ⟨h1, h2, ?_, ?_⟩
  · apply List.eq_nil_iff_forall_not_mem.mpr
    intro x hx
    have := ((FilterList_spec it l l).2 x).mp hx
    exact this.2 this.1
  · intro it1 it2 r
    obtain ⟨a1, a2⟩ := FilterList_spec it (MergeList it1 l r) r
    obtain ⟨b1, b2⟩ := FilterList_spec it2 l r
    have hm := (MergeList_spec it1 l r).2
    have hiff : ∀ x, x ∈ FilterList it (MergeList it1 l r) r ↔ x ∈ FilterList it2 l r := by
      intro x
      rw [a2, b2, hm]
      tauto
    exact ⟨hiff, (List.perm_ext_iff_of_nodup a1 b1).mpr hiff⟩

end Consistence

namespace Nsqd

/-! ## Helper lemmas on the framing codec -/

theorem toNat_ofNat_mod (x : Nat) : (UInt8.ofNat (x % 256)).toNat = x % 256 := by
  simp [UInt8.toNat, UInt8.ofNat, Fin.ofNat]

theorem bigEndianValue_bigEndian32 (n : Nat) (h : n < 2 ^ 32) :
    bigEndianValue (UInt8.ofNat (n / 2 ^ 24 % 256)) (UInt8.ofNat (n / 2 ^ 16 % 256))
      (UInt8.ofNat (n / 2 ^ 8 % 256)) (UInt8.ofNat (n % 256)) = n := by
  unfold bigEndianValue
  rw [toNat_ofNat_mod, toNat_ofNat_mod, toNat_ofNat_mod, toNat_ofNat_mod]
  omega

/-- Decoding the frame of a message, whatever follows it in the segment. -/
theorem decode_frameOf (lo hi : Int) (m rest : Bytes) (hlen : m.length < 2 ^ 32) :
    decode lo hi (frameOf m ++ rest) =
      if (m.length : Int) < lo ∨ (m.length : Int) > hi then .error .Corrupt
      else .ok (m, 4 + (m.length : Int)) := by
  unfold frameOf bigEndian32
  simp only [List.cons_append, List.nil_append, decode]
  rw [bigEndianValue_bigEndian32 m.length hlen]
  by_cases hc : (m.length : Int) < lo ∨ (m.length : Int) > hi
  · rw [if_pos hc, if_pos hc]
  · rw [if_neg hc, if_neg hc]
    have hs : ¬ (m ++ rest).length < m.length := by simp
    rw [if_neg hs, List.take_left]

theorem decode_nil (lo hi : Int) : decode lo hi [] = .error .ShortRead := rfl

/-! ## Claim C11 -/

/-- C11: for every configuration whose maxMsgSize fits the 4-byte length of a frame
(maxMsgSize below 2^32; the sizes are 32-bit in the tests), minMsgSize = 0 included,
and for every m with minMsgSize ≤ |m| ≤ maxMsgSize, encode(m) succeeds and is the
4-byte big-endian length of m followed by m, and decode applied to encode(m)
succeeds and returns m with bytesConsumed = 4 + |m|, also when other frames follow
in the segment; with minMsgSize = 0 and maxMsgSize = 1024, the configuration of
TestDiskQueueWriterEmpty, the empty message encodes to 00 00 00 00 and decodes to
the empty message with 4 bytes consumed. -/
theorem decode_encode_roundtrip (lo hi : Int) (m : Bytes) (hcfg : hi < 2 ^ 32)
    (hmin : lo ≤ (m.length : Int)) (hmax : (m.length : Int) ≤ hi) :
    encode lo hi m = .ok (bigEndian32 m.length ++ m) ∧
    decode lo hi (bigEndian32 m.length ++ m) = .ok (m, 4 + (m.length : Int)) ∧
    (∀ frame, encode lo hi m = .ok frame →
      ∀ rest, decode lo hi (frame ++ rest) = .ok (m, 4 + (m.length : Int))) ∧
    (encode 0 1024 [] = .ok [0, 0, 0, 0] ∧ decode 0 1024 [0, 0, 0, 0] = .ok ([], 4)) := by
  have h32 : m.length < 2 ^ 32 := by omega
  have hc : ¬ ((m.length : Int) < lo ∨ (m.length : Int) > hi) := by omega
  refine ⟨encode_ok lo hi m hmin hmax, ?_, ?_, rfl, rfl⟩
  · have h := decode_frameOf lo hi m [] h32
    rw [List.append_nil, if_neg hc] at h
    exact h
  · intro frame hf rest
    obtain ⟨hfr, _, _⟩ := encode_eq_ok lo hi m frame hf
    rw [hfr, decode_frameOf lo hi m rest h32, if_neg hc]

theorem decode_encode_roundtrip_witness :
    (1024 : Int) < 2 ^ 32 ∧
    (0 : Int) ≤ (([] : Bytes).length : Int) ∧ (([] : Bytes).length : Int) ≤ 1024 ∧
    encode 0 1024 [] = .ok (bigEndian32 ([] : Bytes).length ++ []) ∧
    decode 0 1024 (bigEndian32 ([] : Bytes).length ++ []) =
      .ok ([], 4 + (([] : Bytes).length : Int)) :=
  ⟨by decide, by decide, by decide,
    (decode_encode_roundtrip 0 1024 [] (by decide) (by decide) (by decide)).1,
    (decode_encode_roundtrip 0 1024 [] (by decide) (by decide) (by decide)).2.1⟩


/-! ## Helper lemmas on segments and logs -/

theorem framesOf_append (A B : List Bytes) : framesOf (A ++ B) = framesOf A ++ framesOf B := by
  induction A with
  | nil => rfl
  | cons m t ih => simp [framesOf, ih]

theorem framesOf_cons_length (m : Bytes) (S : List Bytes) :
    (framesOf (m :: S)).length = 4 + m.length + (framesOf S).length := by
  simp [framesOf, frameOf_length_nat]

theorem framesOf_eq_nil_of_short (S : List Bytes) (h : (framesOf S).length < 4) : S = [] := by
  cases S with
  | nil => rfl
  | cons m t =>
    rw [framesOf_cons_length] at h
    omega

theorem framesOf_length_append (A B : List Bytes) :
    (framesOf (A ++ B)).length = (framesOf A).length + (framesOf B).length := by
  rw [framesOf_append, List.length_append]

theorem logUpTo_congr (seg seg' : Nat → List Bytes) (n : Nat)
    (h : ∀ i, i < n → seg' i = seg i) : logUpTo seg' n = logUpTo seg n := by
  induction n with
  | zero => rfl
  | succ k ih =>
    simp only [logUpTo]
    rw [ih (fun i hi => h i (by omega)), h k (by omega)]

theorem logUpTo_split (seg : Nat → List Bytes) (a b : Nat) (h : a ≤ b) :
    ∃ T, logUpTo seg b = logUpTo seg a ++ T ∧
      ((∀ i, a ≤ i → i < b → seg i = []) → T = []) := by
  induction b with
  | zero =>
    have : a = 0 := by omega
    subst this
    exact ⟨[], by simp, fun _ => rfl⟩
  | succ k ih =>
    by_cases hk : a = k + 1
    · subst hk
      exact ⟨[], by simp, fun _ => rfl⟩
    · obtain ⟨T, hT, hE⟩ := ih (by omega)
      refine ⟨T ++ seg k, by simp only [logUpTo]; rw [hT, List.append_assoc], ?_⟩
      intro he
      rw [hE (fun i h1 h2 => he i h1 (by omega)), he k (by omega) (by omega)]
      rfl

theorem logUpTo_length_mono (seg : Nat → List Bytes) (a b : Nat) (h : a ≤ b) :
    (logUpTo seg a).length ≤ (logUpTo seg b).length := by
  obtain ⟨T, hT, _⟩ := logUpTo_split seg a b h
  rw [hT, List.length_append]
  omega

theorem logUpTo_of_empty (seg : Nat → List Bytes) (a b : Nat) (h : a ≤ b)
    (he : ∀ i, a ≤ i → i < b → seg i = []) : logUpTo seg b = logUpTo seg a := by
  obtain ⟨T, hT, hE⟩ := logUpTo_split seg a b h
  rw [hT, hE he, List.append_nil]

theorem logUpTo_succ_length (seg : Nat → List Bytes) (n : Nat) :
    (logUpTo seg (n + 1)).length = (logUpTo seg n).length + (seg n).length := by
  simp [logUpTo]

theorem mem_logUpTo (seg : Nat → List Bytes) (i n : Nat) (m : Bytes) (hi : i < n)
    (hm : m ∈ seg i) : m ∈ logUpTo seg n := by
  obtain ⟨T, hT, _⟩ := logUpTo_split seg (i + 1) n (by omega)
  rw [hT]
  apply List.mem_append_left
  simp only [logUpTo]
  exact List.mem_append_right _ hm

theorem logUpTo_update_of_le (seg : Nat → List Bytes) (k n : Nat) (L : List Bytes)
    (h : n ≤ k) : logUpTo (Function.update seg k L) n = logUpTo seg n := by
  apply logUpTo_congr
  intro i hi
  have : i ≠ k := by omega
  simp [Function.update, this]

/-! ## Helper lemmas on the writer inside a test -/

/-- A successful Put inside a test preserves the invariant: the message joins the
writer's segment, and the writer is then in the same segment or, after a rotation,
at the start of the next one. -/
theorem TestBedInv_append (s : TestBed) (seg : Nat → List Bytes) (wf rf ef : Nat)
    (P Q : List Bytes) (h : TestBedInv s seg wf rf ef P Q) (data : Bytes)
    (hlen : (data.length : Int) ≤ s.writer.maxMsgSize)
    (w : diskQueueWriter) (wf' : Nat) (hwf : wf' = wf ∨ wf' = wf + 1)
    (hc : w.closed = false) (hm : w.maxMsgSize = s.writer.maxMsgSize)
    (hfile : w.writeFileNum = (wf' : Int))
    (hpos : w.writePos =
      if wf' = wf then s.writer.writePos + ((frameOf data).length : Int) else 0)
    (hcnt : w.totalMsgCnt = s.writer.totalMsgCnt + 1)
    (hfiles : w.files =
      fun i => if i = s.writer.writeFileNum then some ((s.writer.files i).getD [] ++ frameOf data)
        else s.writer.files i) :
    TestBedInv
      { s with writer := w, lastEnd := some (GetQueueReadEnd w), putOk := s.putOk ++ [data] }
      (Function.update seg wf (seg wf ++ [data])) wf' rf ef P Q := by
  have hd32 : data.length < 2 ^ 32 := by
    have := h.hWMax
    omega
  have hupd : ∀ i, i ≠ wf → Function.update seg wf (seg wf ++ [data]) i = seg i := by
    intro i hi
    simp [Function.update, hi]
  have hupdwf : Function.update seg wf (seg wf ++ [data]) wf = seg wf ++ [data] := by
    simp [Function.update]
  have hlog : ∀ n, n ≤ wf →
      logUpTo (Function.update seg wf (seg wf ++ [data])) n = logUpTo seg n :=
    fun n hn => logUpTo_update_of_le seg wf n _ hn
  have hlogwf : logUpTo (Function.update seg wf (seg wf ++ [data])) (wf + 1) =
      logUpTo seg (wf + 1) ++ [data] := by
    simp only [logUpTo]
    rw [hlog wf (le_refl _), hupdwf, List.append_assoc]
  have hfl : ((framesOf (seg wf ++ [data])).length : Int) =
      ((framesOf (seg wf)).length : Int) + ((frameOf data).length : Int) := by
    rw [framesOf_length_append]
    simp [framesOf]
  have hnext : Function.update seg wf (seg wf ++ [data]) (wf + 1) = [] := by
    rw [hupd (wf + 1) (by omega)]
    exact h.hSegEmpty (wf + 1) (by omega)
  have hempty : ∀ i, wf' < i → Function.update seg wf (seg wf ++ [data]) i = [] := by
    intro i hi
    rw [hupd i (by omega)]
    exact h.hSegEmpty i (by omega)
  have hposv : w.writePos =
      ((framesOf (Function.update seg wf (seg wf ++ [data]) wf')).length : Int) := by
    rcases hwf with hw | hw
    · rw [hpos, if_pos hw, hw, hupdwf, hfl, h.hWPos]
    · have hne : ¬ wf' = wf := by omega
      rw [hpos, if_neg hne, hw, hnext]
      rfl
  have hlogv : s.putOk ++ [data] =
      logUpTo (Function.update seg wf (seg wf ++ [data])) (wf' + 1) := by
    rcases hwf with hw | hw
    · rw [hw, hlogwf, h.hLog]
    · rw [hw]
      show s.putOk ++ [data] =
        logUpTo (Function.update seg wf (seg wf ++ [data])) (wf + 1) ++
          Function.update seg wf (seg wf ++ [data]) (wf + 1)
      rw [hnext, List.append_nil, hlogwf, h.hLog]
  have hcntv : w.totalMsgCnt = ((s.putOk ++ [data]).length : Int) := by
    rw [hcnt, h.hWCount]
    simp
  exact
    { hWClosed := hc
      hRClosed := h.hRClosed
      hWMax := by show w.maxMsgSize < 2 ^ 32; rw [hm]; exact h.hWMax
      hWFile := hfile
      hRFile := h.hRFile
      hEFile := h.hEFile
      hFiles := by
        intro i hi
        show (w.files _).getD [] = _
        rw [hfiles]
        by_cases hiw : i = wf
        · subst hiw
          rw [hupdwf, framesOf_append]
          simp only [h.hWFile, if_true, Option.getD_some]
          rw [h.hFiles i hi]
          simp [framesOf]
        · have hne : (i : Int) ≠ s.writer.writeFileNum := by
            rw [h.hWFile]
            omega
          simp only [hne, if_false]
          rw [hupd i hiw]
          exact h.hFiles i hi
      hSegEmpty := hempty
      hWPos := hposv
      hWCount := hcntv
      hLog := hlogv
      hSegLen := by
        intro i m hm
        by_cases hiw : i = wf
        · subst hiw
          rw [hupdwf] at hm
          rcases List.mem_append.mp hm with hm | hm
          · exact h.hSegLen i m hm
          · rw [List.mem_singleton] at hm
            rw [hm]
            exact hd32
        · rw [hupd i hiw] at hm
          exact h.hSegLen i m hm
      hLastNone := by
        intro hnone
        cases hnone
      hLastSome := by
        intro e he
        have he' : e = GetQueueReadEnd w := (Option.some.inj he).symm
        refine ⟨wf', ?_, le_refl _, ?_, ?_, hempty, ?_⟩
        · rw [he']
          exact hfile
        · rw [he']
          exact hposv
        · rw [he']
          exact hcntv
        · have hele := h.hELe
          by_cases hew : ef = wf'
          · right
            refine ⟨hew, ?_⟩
            have hw : wf' = wf := by omega
            rw [he']
            show s.reader.endInfo.EndPos ≤ w.writePos
            rw [hpos, if_pos hw, h.hEPos, h.hWPos]
            obtain ⟨Q', hQ⟩ := h.hEPre
            rw [← hw, ← hew, hQ, framesOf_length_append]
            push_cast
            omega
          · left
            omega
      hPub := h.hPub
      hELe := by have := h.hELe; omega
      hEPre := by
        obtain ⟨Q', hQ⟩ := h.hEPre
        by_cases hew : ef = wf
        · refine ⟨Q' ++ [data], ?_⟩
          rw [hew, hupdwf, ← hew, hQ, List.append_assoc]
        · exact ⟨Q', by rw [hupd ef hew]; exact hQ⟩
      hEPos := h.hEPos
      hECount := by
        rw [hlog ef h.hELe]
        exact h.hECount
      hRLe := by have := h.hRLe; omega
      hRCount := h.hRCount
      hRPos := h.hRPos
      hRAtEnd := h.hRAtEnd
      hRBefore := by
        intro hlt
        have := h.hELe
        rw [hupd rf (by omega)]
        exact h.hRBefore hlt
      hRAfter := h.hRAfter
      hRecvLe := by
        have hrle := h.hRLe
        have hold := h.hRecvLe
        by_cases hr : rf ≤ wf
        · rw [hlog rf hr]
          exact hold
        · have hrf : rf = wf + 1 := by omega
          show s.received.length ≤ _
          rw [hrf] at hold ⊢
          rw [hlogwf, List.length_append, List.length_singleton]
          omega
      hRecvLeEnd := by
        rw [hlog ef h.hELe]
        exact h.hRecvLeEnd
      hExact := by
        intro hgood
        have hgood' : ∀ m ∈ s.putOk, s.reader.minMsgSize ≤ (m.length : Int) ∧
            (m.length : Int) ≤ s.reader.maxMsgSize :=
          fun m hm => hgood m (List.mem_append_left _ hm)
        obtain ⟨e1, e2⟩ := h.hExact hgood'
        have := h.hELe
        refine ⟨e1, ?_⟩
        rw [hlog rf (by omega)]
        exact e2 }

/-- A Put whose write fails leaves the invariant as it is: the segment file exists
afterwards, with the content it had. -/
theorem TestBedInv_writeFailed (s : TestBed) (seg : Nat → List Bytes) (wf rf ef : Nat)
    (P Q : List Bytes) (h : TestBedInv s seg wf rf ef P Q) :
    TestBedInv { s with writer := { openCurrentSegment s.writer with segmentOpen := false } }
      seg wf rf ef P Q := by
  obtain ⟨o1, o2, o3, _, _, o6, o7, o8, _⟩ := openCurrentSegment_fields s.writer
  exact
    { hWClosed := by show (openCurrentSegment s.writer).closed = false; rw [o7]; exact h.hWClosed
      hRClosed := h.hRClosed
      hWMax := by show (openCurrentSegment s.writer).maxMsgSize < 2 ^ 32; rw [o6]; exact h.hWMax
      hWFile := by show (openCurrentSegment s.writer).writeFileNum = _; rw [o1]; exact h.hWFile
      hRFile := h.hRFile
      hEFile := h.hEFile
      hFiles := by
        intro i hi
        show ((openCurrentSegment s.writer).files _).getD [] = _
        rw [o8]
        exact h.hFiles i hi
      hSegEmpty := h.hSegEmpty
      hWPos := by show (openCurrentSegment s.writer).writePos = _; rw [o2]; exact h.hWPos
      hWCount := by show (openCurrentSegment s.writer).totalMsgCnt = _; rw [o3]; exact h.hWCount
      hLog := h.hLog
      hSegLen := h.hSegLen
      hLastNone := h.hLastNone
      hLastSome := h.hLastSome
      hPub := h.hPub
      hELe := h.hELe
      hEPre := h.hEPre
      hEPos := h.hEPos
      hECount := h.hECount
      hRLe := h.hRLe
      hRCount := h.hRCount
      hRPos := h.hRPos
      hRAtEnd := h.hRAtEnd
      hRBefore := h.hRBefore
      hRAfter := h.hRAfter
      hRecvLe := h.hRecvLe
      hRecvLeEnd := h.hRecvLeEnd
      hExact := h.hExact }

theorem Put_rejected (w : diskQueueWriter) (data : Bytes) (ok : Bool)
    (h : ¬ (w.minMsgSize ≤ (data.length : Int) ∧ (data.length : Int) ≤ w.maxMsgSize)) :
    ∃ err, Put w data ok = (w, .error err) := by
  unfold Put
  by_cases hc : w.closed = true
  · exact ⟨.Closed, by simp [hc]⟩
  · have he : encode w.minMsgSize w.maxMsgSize data = .error .ArgError := by
      unfold encode
      rw [if_pos]
      omega
    exact ⟨.ArgError, by simp [hc, he]⟩


theorem stepOp_put_ok (s : TestBed) (data : Bytes) (hc : s.writer.closed = false)
    (hmin : s.writer.minMsgSize ≤ (data.length : Int))
    (hmax : (data.length : Int) ≤ s.writer.maxMsgSize) :
    stepOp s (.put data true) =
      { s with
        writer := (Put s.writer data true).1
        lastEnd := some (GetQueueReadEnd (Put s.writer data true).1)
        putOk := s.putOk ++ [data] } := by
  simp only [stepOp, Put_ok s.writer data hc hmin hmax]

theorem stepOp_put_failed (s : TestBed) (data : Bytes) (hc : s.writer.closed = false)
    (hmin : s.writer.minMsgSize ≤ (data.length : Int))
    (hmax : (data.length : Int) ≤ s.writer.maxMsgSize) :
    stepOp s (.put data false) =
      { s with writer := { openCurrentSegment s.writer with segmentOpen := false } } := by
  simp only [stepOp, Put_failed_state s.writer data hc hmin hmax]

theorem stepOp_put_rejected (s : TestBed) (data : Bytes) (ok : Bool)
    (h : ¬ (s.writer.minMsgSize ≤ (data.length : Int) ∧
        (data.length : Int) ≤ s.writer.maxMsgSize)) :
    stepOp s (.put data ok) = s := by
  obtain ⟨err, he⟩ := Put_rejected s.writer data ok h
  simp only [stepOp, he]

/-- A Put inside a test preserves the invariant. -/
theorem TestBedInv_put (s : TestBed) (seg : Nat → List Bytes) (wf rf ef : Nat)
    (P Q : List Bytes) (h : TestBedInv s seg wf rf ef P Q) (data : Bytes) (ok : Bool) :
    ∃ seg' wf', TestBedInv (stepOp s (.put data ok)) seg' wf' rf ef P Q := by
  by_cases hv : s.writer.minMsgSize ≤ (data.length : Int) ∧
      (data.length : Int) ≤ s.writer.maxMsgSize
  · cases ok
    · rw [stepOp_put_failed s data h.hWClosed hv.1 hv.2]
      exact ⟨seg, wf, TestBedInv_writeFailed s seg wf rf ef P Q h⟩
    · rw [stepOp_put_ok s data h.hWClosed hv.1 hv.2]
      obtain ⟨s1, s2, s3, _, _, s6, s7, s8, _⟩ := Put_ok_state s.writer data h.hWClosed hv.1 hv.2
      have hfl : ((frameOf data).length : Int) = 4 + (data.length : Int) := frameOf_length data
      by_cases hr : s.writer.writePos + 4 + (data.length : Int) > s.writer.maxBytesPerFile
      · simp only [hr, if_true] at s1 s2
        refine ⟨_, wf + 1, TestBedInv_append s seg wf rf ef P Q h data hv.2 _ (wf + 1)
          (Or.inr rfl) s7 s6 ?_ ?_ s3 s8⟩
        · rw [s1, h.hWFile]
          push_cast
          rfl
        · have hne : ¬ (wf + 1 = wf) := by omega
          rw [s2, if_neg hne]
      · simp only [hr, if_false] at s1 s2
        refine ⟨_, wf, TestBedInv_append s seg wf rf ef P Q h data hv.2 _ wf
          (Or.inl rfl) s7 s6 ?_ ?_ s3 s8⟩
        · rw [s1, h.hWFile]
        · rw [s2, if_pos rfl, hfl]
  · rw [stepOp_put_rejected s data ok hv]
    exact ⟨seg, wf, h⟩

theorem UpdateQueueEnd_accepted (r : diskQueueReader) (e : diskQueueEndInfo) (afterEmpty : Bool)
    (h : ¬ (e.EndFileNum < r.endInfo.EndFileNum ∨
      (e.EndFileNum = r.endInfo.EndFileNum ∧ e.EndPos < r.endInfo.EndPos))) :
    UpdateQueueEnd r e afterEmpty = ({ r with endInfo := e }, none) := by
  unfold UpdateQueueEnd
  rw [if_neg]
  intro hh
  exact h hh.2

/-- The count of the accepted end never exceeds the number of successful Puts. -/
theorem TestBedInv_endCount_le (s : TestBed) (seg : Nat → List Bytes) (wf rf ef : Nat)
    (P Q : List Bytes) (h : TestBedInv s seg wf rf ef P Q) :
    (logUpTo seg ef).length + Q.length ≤ s.putOk.length := by
  obtain ⟨Q', hQ⟩ := h.hEPre
  have h1 := logUpTo_succ_length seg ef
  have h2 := logUpTo_length_mono seg (ef + 1) (wf + 1) (by have := h.hELe; omega)
  have h3 : Q.length ≤ (seg ef).length := by rw [hQ, List.length_append]; omega
  rw [h.hLog]
  omega

/-- Publishing the last returned end preserves the invariant; the update is
accepted, so that the accepted end counts all successful Puts. -/
theorem TestBedInv_publish (s : TestBed) (seg : Nat → List Bytes) (wf rf ef : Nat)
    (P Q : List Bytes) (h : TestBedInv s seg wf rf ef P Q) :
    ∃ ef' Q', TestBedInv (stepOp s .publish) seg wf rf ef' P Q' ∧
      (stepOp s .publish).reader.endInfo.TotalMsgCount = (s.putOk.length : Int) ∧
      (stepOp s .publish).putOk = s.putOk ∧
      (stepOp s .publish).received = s.received := by
  cases hl : s.lastEnd with
  | none =>
    have hs : stepOp s .publish = s := by
      simp only [stepOp, hl]
    rw [hs]
    have hp := h.hLastNone hl
    refine ⟨ef, Q, h, ?_, rfl, rfl⟩
    have hle := TestBedInv_endCount_le s seg wf rf ef P Q h
    rw [h.hECount]
    rw [hp] at hle ⊢
    simp only [List.length_nil] at hle ⊢
    omega
  | some e =>
    obtain ⟨lf, a1, a2, a3, a4, a5, a6⟩ := h.hLastSome e hl
    have hacc : ¬ (e.EndFileNum < s.reader.endInfo.EndFileNum ∨
        (e.EndFileNum = s.reader.endInfo.EndFileNum ∧ e.EndPos < s.reader.endInfo.EndPos)) := by
      rw [a1, h.hEFile]
      omega
    have hs : stepOp s .publish =
        { s with reader := { s.reader with endInfo := e }, published := some e,
                 emptied := false } := by
      simp only [stepOp, hl, UpdateQueueEnd_accepted s.reader e s.emptied hacc]
    rw [hs]
    obtain ⟨Q'', hQ⟩ := h.hEPre
    have hef : ef ≤ lf := by omega
    have hcount : s.putOk.length = (logUpTo seg lf).length + (seg lf).length := by
      rw [h.hLog, logUpTo_of_empty seg (lf + 1) (wf + 1) (by omega)
        (fun i h1 _ => a5 i (by omega)), logUpTo_succ_length]
    refine ⟨lf, seg lf, ?_, a4, rfl, rfl⟩
    exact
      { hWClosed := h.hWClosed
        hRClosed := h.hRClosed
        hWMax := h.hWMax
        hWFile := h.hWFile
        hRFile := h.hRFile
        hEFile := a1
        hFiles := h.hFiles
        hSegEmpty := h.hSegEmpty
        hWPos := h.hWPos
        hWCount := h.hWCount
        hLog := h.hLog
        hSegLen := h.hSegLen
        hLastNone := fun hn => by rw [hl] at hn; cases hn
        hLastSome := by
          intro e2 he2
          have : e2 = e := by
            have h3 : some e2 = some e := he2.symm.trans hl
            exact Option.some.inj h3
          subst this
          exact ⟨lf, a1, a2, a3, a4, a5, Or.inr ⟨rfl, le_refl _⟩⟩
        hPub := rfl
        hELe := a2
        hEPre := ⟨[], by simp⟩
        hEPos := a3
        hECount := by
          show e.TotalMsgCount = _
          rw [a4, hcount]
        hRLe := h.hRLe
        hRCount := h.hRCount
        hRPos := h.hRPos
        hRAtEnd := by
          intro hrl
          by_cases h1 : rf = ef
          · obtain ⟨S, hS⟩ := h.hRAtEnd h1
            refine ⟨S ++ Q'', ?_⟩
            rw [← List.append_assoc, hS, ← hrl, h1, hQ]
          · have h2 : ef < rf := by omega
            rw [h.hRAfter h2, ← hrl]
            exact ⟨seg rf, rfl⟩
        hRBefore := by
          intro hrl
          by_cases h1 : rf < ef
          · exact h.hRBefore h1
          · by_cases h2 : rf = ef
            · obtain ⟨S, hS⟩ := h.hRAtEnd h2
              refine ⟨S ++ Q'', ?_⟩
              rw [← List.append_assoc, hS, h2, hQ]
            · rw [h.hRAfter (by omega)]
              exact ⟨seg rf, rfl⟩
        hRAfter := fun hlt => h.hRAfter (by omega)
        hRecvLe := h.hRecvLe
        hRecvLeEnd := by
          have h0 := h.hRecvLeEnd
          have h1 := TestBedInv_endCount_le s seg wf rf ef P Q h
          show s.received.length ≤ _
          omega
        hExact := by
          intro hgood
          obtain ⟨e1, e2⟩ := h.hExact hgood
          exact ⟨by omega, e2⟩ }


/-! ## Helper lemmas on the reader inside a test -/

/-- What the reader sees at its cursor: the frames of the messages `S` that follow
the consumed messages `P` in its segment, up to the end. -/
theorem TestBedInv_view (s : TestBed) (seg : Nat → List Bytes) (wf rf ef : Nat)
    (P Q : List Bytes) (h : TestBedInv s seg wf rf ef P Q) (hle : rf ≤ ef) :
    ∃ S T, seg rf = P ++ S ++ T ∧
      readableBytes s.reader s.writer.files = framesOf S ∧
      (rf = ef → P ++ S = Q) ∧ (rf < ef → T = []) ∧
      (rf = ef → s.reader.endInfo.EndPos =
        ((framesOf P).length : Int) + ((framesOf S).length : Int)) ∧
      sizeOfSegment s.writer.files s.reader.readFileNum = ((framesOf (seg rf)).length : Int) := by
  have hcontent : (s.writer.files s.reader.readFileNum).getD [] = framesOf (seg rf) := by
    rw [h.hRFile]
    exact h.hFiles rf (le_refl _)
  have hsize : sizeOfSegment s.writer.files s.reader.readFileNum =
      ((framesOf (seg rf)).length : Int) := by
    unfold sizeOfSegment
    rw [hcontent]
  have hrp : s.reader.readPos.toNat = (framesOf P).length := by
    rw [h.hRPos]
    simp
  by_cases hre : rf = ef
  · obtain ⟨S, hS⟩ := h.hRAtEnd hre
    obtain ⟨Q', hQ⟩ := h.hEPre
    have hep : s.reader.endInfo.EndPos.toNat = (framesOf Q).length := by
      rw [h.hEPos]
      simp
    refine ⟨S, Q', by rw [hS, hre, hQ], ?_, fun _ => hS, fun hlt => by omega, ?_, hsize⟩
    · unfold readableBytes
      simp only
      have hc : s.reader.readFileNum = s.reader.endInfo.EndFileNum := by
        rw [h.hRFile, h.hEFile, hre]
      rw [if_pos hc, hcontent, hep, hrp, hre, hQ, framesOf_append, List.take_left, ← hS,
        framesOf_append, List.drop_left]
    · intro _
      rw [h.hEPos, ← hS, framesOf_length_append]
      push_cast
      rfl
  · have hlt : rf < ef := by omega
    obtain ⟨S, hS⟩ := h.hRBefore hlt
    refine ⟨S, [], by rw [hS, List.append_nil], ?_, fun he => absurd he hre, fun _ => rfl,
      fun he => absurd he hre, hsize⟩
    unfold readableBytes
    simp only
    have hc : ¬ s.reader.readFileNum = s.reader.endInfo.EndFileNum := by
      rw [h.hRFile, h.hEFile]
      omega
    rw [if_neg hc, hcontent, hrp, ← hS, framesOf_append, List.drop_left]

theorem decode_framesOf_nil (lo hi : Int) : decode lo hi (framesOf []) = .error .ShortRead := rfl

theorem decode_framesOf_cons (lo hi : Int) (m : Bytes) (S : List Bytes)
    (hlen : m.length < 2 ^ 32) :
    decode lo hi (framesOf (m :: S)) =
      if (m.length : Int) < lo ∨ (m.length : Int) > hi then .error .Corrupt
      else .ok (m, 4 + (m.length : Int)) :=
  decode_frameOf lo hi m (framesOf S) hlen


/-- Moving the reader to the next segment preserves the invariant. -/
theorem TestBedInv_advance (s : TestBed) (seg : Nat → List Bytes) (wf rf ef : Nat)
    (P Q : List Bytes) (h : TestBedInv s seg wf rf ef P Q) (hle : rf ≤ ef) (F : DataDir)
    (hF : ∀ i : Nat, rf + 1 ≤ i → F (i : Int) = s.writer.files (i : Int))
    (S T : List Bytes) (hseg : seg rf = P ++ S ++ T)
    (hdone : (∀ m ∈ s.putOk, s.reader.minMsgSize ≤ (m.length : Int) ∧
        (m.length : Int) ≤ s.reader.maxMsgSize) →
      rf < ef ∧ S = [] ∧ T = []) :
    TestBedInv
      { s with reader := nextSegment s.reader, writer := { s.writer with files := F } }
      seg wf (rf + 1) ef [] Q :=
  { hWClosed := h.hWClosed
    hRClosed := h.hRClosed
    hWMax := h.hWMax
    hWFile := h.hWFile
    hRFile := by
      show s.reader.readFileNum + 1 = _
      rw [h.hRFile]
      push_cast
      rfl
    hEFile := h.hEFile
    hFiles := by
      intro i hi
      show (F (i : Int)).getD [] = _
      rw [hF i hi]
      exact h.hFiles i (by omega)
    hSegEmpty := h.hSegEmpty
    hWPos := h.hWPos
    hWCount := h.hWCount
    hLog := h.hLog
    hSegLen := h.hSegLen
    hLastNone := h.hLastNone
    hLastSome := h.hLastSome
    hPub := h.hPub
    hELe := h.hELe
    hEPre := h.hEPre
    hEPos := h.hEPos
    hECount := h.hECount
    hRLe := by have := h.hELe; omega
    hRCount := h.hRCount
    hRPos := rfl
    hRAtEnd := fun _ => ⟨Q, rfl⟩
    hRBefore := fun _ => ⟨seg (rf + 1), rfl⟩
    hRAfter := fun _ => rfl
    hRecvLe := by
      have h0 := h.hRecvLe
      have h1 := logUpTo_succ_length seg rf
      have h2 : P.length ≤ (seg rf).length := by
        rw [hseg, List.length_append, List.length_append]
        omega
      show s.received.length ≤ (logUpTo seg (rf + 1)).length + ([] : List Bytes).length
      rw [List.length_nil]
      omega
    hRecvLeEnd := h.hRecvLeEnd
    hExact := by
      intro hgood
      obtain ⟨d1, d2, d3⟩ := hdone hgood
      obtain ⟨_, e2⟩ := h.hExact hgood
      refine ⟨by omega, ?_⟩
      show s.received.map (fun x => x.data) = logUpTo seg (rf + 1) ++ []
      rw [e2, List.append_nil]
      simp only [logUpTo]
      rw [hseg, d2, d3, List.append_nil, List.append_nil] }

/-- Delivering the next message preserves the invariant. -/
theorem TestBedInv_deliver (s : TestBed) (seg : Nat → List Bytes) (wf rf ef : Nat)
    (P Q : List Bytes) (h : TestBedInv s seg wf rf ef P Q) (hle : rf ≤ ef)
    (m : Bytes) (S T : List Bytes) (res : ReadResult)
    (hseg : seg rf = P ++ (m :: S) ++ T) (hQ : rf = ef → P ++ (m :: S) = Q)
    (hres : res.data = m) :
    TestBedInv
      { s with
        reader := { s.reader with
          readPos := s.reader.readPos + (4 + (m.length : Int))
          readMsgCount := s.reader.readMsgCount + 1 }
        writer := { s.writer with files := s.writer.files }
        received := s.received ++ [res] }
      seg wf rf ef (P ++ [m]) Q :=
  { hWClosed := h.hWClosed
    hRClosed := h.hRClosed
    hWMax := h.hWMax
    hWFile := h.hWFile
    hRFile := h.hRFile
    hEFile := h.hEFile
    hFiles := h.hFiles
    hSegEmpty := h.hSegEmpty
    hWPos := h.hWPos
    hWCount := h.hWCount
    hLog := h.hLog
    hSegLen := h.hSegLen
    hLastNone := h.hLastNone
    hLastSome := h.hLastSome
    hPub := h.hPub
    hELe := h.hELe
    hEPre := h.hEPre
    hEPos := h.hEPos
    hECount := h.hECount
    hRLe := h.hRLe
    hRCount := by
      show s.reader.readMsgCount + 1 = ((s.received ++ [res]).length : Int)
      rw [h.hRCount]
      simp
    hRPos := by
      show s.reader.readPos + (4 + (m.length : Int)) = ((framesOf (P ++ [m])).length : Int)
      rw [h.hRPos, framesOf_length_append, framesOf_cons_length]
      simp [framesOf]
    hRAtEnd := by
      intro he
      refine ⟨S, ?_⟩
      rw [List.append_assoc]
      exact hQ he
    hRBefore := by
      intro _
      refine ⟨S ++ T, ?_⟩
      rw [hseg]
      simp
    hRAfter := fun hlt => by omega
    hRecvLe := by
      have h0 := h.hRecvLe
      show (s.received ++ [res]).length ≤ (logUpTo seg rf).length + (P ++ [m]).length
      simp only [List.length_append, List.length_singleton]
      omega
    hRecvLeEnd := by
      have h0 := h.hRecvLe
      show (s.received ++ [res]).length ≤ (logUpTo seg ef).length + Q.length
      simp only [List.length_append, List.length_singleton]
      by_cases he : rf = ef
      · have hq := hQ he
        have : P.length + 1 ≤ Q.length := by
          rw [← hq, List.length_append, List.length_cons]
          omega
        rw [← he]
        omega
      · have h1 := logUpTo_succ_length seg rf
        have h2 := logUpTo_length_mono seg (rf + 1) ef (by omega)
        have h3 : P.length + 1 ≤ (seg rf).length := by
          rw [hseg, List.length_append, List.length_append, List.length_cons]
          omega
        omega
    hExact := by
      intro hgood
      obtain ⟨e1, e2⟩ := h.hExact hgood
      refine ⟨e1, ?_⟩
      show (s.received ++ [res]).map (fun x => x.data) = logUpTo seg rf ++ (P ++ [m])
      rw [List.map_append, e2, List.append_assoc]
      simp [hres] }


theorem TestBedInv_done (s : TestBed) (seg : Nat → List Bytes) (wf rf ef : Nat)
    (P Q : List Bytes) (h : TestBedInv s seg wf rf ef P Q)
    (hgood : ∀ m ∈ s.putOk, s.reader.minMsgSize ≤ (m.length : Int) ∧
        (m.length : Int) ≤ s.reader.maxMsgSize)
    (he : rf = ef) (hPQ : P = Q) :
    s.received.length = (logUpTo seg ef).length + Q.length := by
  obtain ⟨_, e2⟩ := h.hExact hgood
  have := congrArg List.length e2
  rw [List.length_map, List.length_append, he, hPQ] at this
  exact this

/-- One iteration of the reader loop inside a test preserves the invariant. When
every message put so far is within the reader's size bounds, the
iteration either delivers one message, or moves to the next segment (only while
the cursor's segment is older than the end's), or parks with everything up to
the end delivered. -/
theorem TestBedInv_read (s : TestBed) (seg : Nat → List Bytes) (wf rf ef : Nat)
    (P Q : List Bytes) (h : TestBedInv s seg wf rf ef P Q) :
    ∃ rf' P', TestBedInv (stepOp s .read) seg wf rf' ef P' Q ∧
      (stepOp s .read).putOk = s.putOk ∧
      (stepOp s .read).reader.endInfo = s.reader.endInfo ∧
      (stepOp s .read).reader.maxMsgSize = s.reader.maxMsgSize ∧
      (stepOp s .read).reader.minMsgSize = s.reader.minMsgSize ∧
      ((∀ m ∈ s.putOk, s.reader.minMsgSize ≤ (m.length : Int) ∧
        (m.length : Int) ≤ s.reader.maxMsgSize) →
        ((stepOp s .read).received = s.received ∧ rf' = rf ∧
          s.received.length = (logUpTo seg ef).length + Q.length) ∨
        ((stepOp s .read).received.length = s.received.length + 1 ∧ rf' = rf) ∨
        ((stepOp s .read).received = s.received ∧ rf' = rf + 1 ∧ rf < ef)) := by
  have hcl : s.reader.closed = false := h.hRClosed
  by_cases hle : rf ≤ ef
  · obtain ⟨S, T, hseg, hview, hvQ, hvT, hvE, hsize⟩ := TestBedInv_view s seg wf rf ef P Q h hle
    by_cases hc1 : s.reader.readFileNum = s.reader.endInfo.EndFileNum ∧
        s.reader.readPos = s.reader.endInfo.EndPos
    · -- step 1: park at the end
      have hstep : readerStep s.reader s.writer.files = (s.reader, s.writer.files, .parked) := by
        unfold readerStep
        simp only [hcl, Bool.false_eq_true, if_false]
        rw [if_pos hc1]
      have hs : stepOp s .read = s := by
        simp only [stepOp, hstep]
      rw [hs]
      refine ⟨rf, P, h, rfl, rfl, rfl, rfl, fun hgood => Or.inl ⟨rfl, rfl, ?_⟩⟩
      have he : rf = ef := by
        have := hc1.1
        rw [h.hRFile, h.hEFile] at this
        omega
      have hS : S = [] := by
        apply framesOf_eq_nil_of_short
        have h1 := hvE he
        have h2 := hc1.2
        rw [h.hRPos] at h2
        omega
      have hPQ : P = Q := by
        have := hvQ he
        rw [hS, List.append_nil] at this
        exact this
      exact TestBedInv_done s seg wf rf ef P Q h hgood he hPQ
    · by_cases hc3 : s.reader.readFileNum < s.reader.endInfo.EndFileNum ∧
          s.reader.readPos ≥ sizeOfSegment s.writer.files s.reader.readFileNum
      · -- step 3: the segment is fully consumed
        have hstep : readerStep s.reader s.writer.files =
            (nextSegment s.reader, removeSegment s.writer.files s.reader.readFileNum,
              .advanced) := by
          unfold readerStep
          simp only [hcl, Bool.false_eq_true, if_false]
          rw [if_neg hc1, if_pos hc3]
        have hs : stepOp s .read =
            { s with reader := nextSegment s.reader,
                     writer := { s.writer with
                       files := removeSegment s.writer.files s.reader.readFileNum } } := by
          simp only [stepOp, hstep]
        rw [hs]
        have hlt : rf < ef := by
          have := hc3.1
          rw [h.hRFile, h.hEFile] at this
          omega
        have hST : S = [] ∧ T = [] := by
          have h2 := hc3.2
          rw [hsize, h.hRPos, hseg, framesOf_length_append, framesOf_length_append] at h2
          constructor
          · apply framesOf_eq_nil_of_short; omega
          · apply framesOf_eq_nil_of_short; omega
        have hF : ∀ i : Nat, rf + 1 ≤ i →
            removeSegment s.writer.files s.reader.readFileNum (i : Int) =
              s.writer.files (i : Int) := by
          intro i hi
          unfold removeSegment
          rw [if_neg]
          rw [h.hRFile]
          omega
        refine ⟨rf + 1, [], TestBedInv_advance s seg wf rf ef P Q h hle _ hF S T hseg
          (fun _ => ⟨hlt, hST.1, hST.2⟩), rfl, rfl, rfl, rfl, fun _ => Or.inr (Or.inr ⟨rfl, rfl, hlt⟩)⟩
      · by_cases hg : s.reader.readFileNum > s.reader.endInfo.EndFileNum ∨
            (s.reader.readFileNum = s.reader.endInfo.EndFileNum ∧
              s.reader.readPos + 4 > s.reader.endInfo.EndPos)
        · -- end boundary: park
          have hstep : readerStep s.reader s.writer.files =
              (s.reader, s.writer.files, .parked) := by
            unfold readerStep
            simp only [hcl, Bool.false_eq_true, if_false]
            rw [if_neg hc1, if_neg hc3, if_pos hg]
          have hs : stepOp s .read = s := by
            simp only [stepOp, hstep]
          rw [hs]
          refine ⟨rf, P, h, rfl, rfl, rfl, rfl, fun hgood => Or.inl ⟨rfl, rfl, ?_⟩⟩
          have hg' : rf = ef ∧ s.reader.readPos + 4 > s.reader.endInfo.EndPos := by
            rcases hg with hg | hg
            · rw [h.hRFile, h.hEFile] at hg
              omega
            · refine ⟨?_, hg.2⟩
              have := hg.1
              rw [h.hRFile, h.hEFile] at this
              omega
          have hS : S = [] := by
            apply framesOf_eq_nil_of_short
            have h1 := hvE hg'.1
            have h2 := hg'.2
            rw [h.hRPos] at h2
            omega
          have hPQ : P = Q := by
            have := hvQ hg'.1
            rw [hS, List.append_nil] at this
            exact this
          exact TestBedInv_done s seg wf rf ef P Q h hgood hg'.1 hPQ
        · -- step 4: decode one frame
          cases S with
          | nil =>
            have hdec : decode s.reader.minMsgSize s.reader.maxMsgSize
                (readableBytes s.reader s.writer.files) = .error .ShortRead := by
              rw [hview]
              rfl
            by_cases hlt : s.reader.readFileNum < s.reader.endInfo.EndFileNum
            · have hstep : readerStep s.reader s.writer.files =
                  (nextSegment s.reader, removeSegment s.writer.files s.reader.readFileNum,
                    .corruption) := by
                unfold readerStep
                simp only [hcl, Bool.false_eq_true, if_false]
                rw [if_neg hc1, if_neg hc3, if_neg hg]
                simp only [hdec]
                rw [if_pos hlt]
              have hs : stepOp s .read =
                  { s with reader := nextSegment s.reader,
                           writer := { s.writer with
                             files := removeSegment s.writer.files s.reader.readFileNum } } := by
                simp only [stepOp, hstep]
              rw [hs]
              have hlt' : rf < ef := by
                rw [h.hRFile, h.hEFile] at hlt
                omega
              have hF : ∀ i : Nat, rf + 1 ≤ i →
                  removeSegment s.writer.files s.reader.readFileNum (i : Int) =
                    s.writer.files (i : Int) := by
                intro i hi
                unfold removeSegment
                rw [if_neg]
                rw [h.hRFile]
                omega
              refine ⟨rf + 1, [], TestBedInv_advance s seg wf rf ef P Q h hle _ hF [] T hseg
                (fun _ => ⟨hlt', rfl, hvT hlt'⟩), rfl, rfl, rfl, rfl,
                fun _ => Or.inr (Or.inr ⟨rfl, rfl, hlt'⟩)⟩
            · have hstep : readerStep s.reader s.writer.files =
                  (s.reader, s.writer.files, .parked) := by
                unfold readerStep
                simp only [hcl, Bool.false_eq_true, if_false]
                rw [if_neg hc1, if_neg hc3, if_neg hg]
                simp only [hdec]
                rw [if_neg hlt]
              have hs : stepOp s .read = s := by
                simp only [stepOp, hstep]
              rw [hs]
              refine ⟨rf, P, h, rfl, rfl, rfl, rfl, fun hgood => Or.inl ⟨rfl, rfl, ?_⟩⟩
              have he : rf = ef := by
                rw [h.hRFile, h.hEFile] at hlt
                omega
              have hPQ : P = Q := by
                have := hvQ he
                rw [List.append_nil] at this
                exact this
              exact TestBedInv_done s seg wf rf ef P Q h hgood he hPQ
          | cons m S' =>
            have hmem : m ∈ seg rf := by
              rw [hseg]
              simp
            have hlen : m.length < 2 ^ 32 := h.hSegLen rf m hmem
            have hdec := decode_framesOf_cons s.reader.minMsgSize s.reader.maxMsgSize m S' hlen
            rw [← hview] at hdec
            by_cases hbad : (m.length : Int) < s.reader.minMsgSize ∨
                (m.length : Int) > s.reader.maxMsgSize
            · rw [if_pos hbad] at hdec
              have hstep : readerStep s.reader s.writer.files =
                  (nextSegment s.reader, s.writer.files, .corruption) := by
                unfold readerStep
                simp only [hcl, Bool.false_eq_true, if_false]
                rw [if_neg hc1, if_neg hc3, if_neg hg]
                simp only [hdec]
              have hs : stepOp s .read =
                  { s with reader := nextSegment s.reader,
                           writer := { s.writer with files := s.writer.files } } := by
                simp only [stepOp, hstep]
              rw [hs]
              have hnot : ¬ (∀ m ∈ s.putOk, s.reader.minMsgSize ≤ (m.length : Int) ∧
                  (m.length : Int) ≤ s.reader.maxMsgSize) := by
                intro hgood
                have hin : m ∈ s.putOk := by
                  rw [h.hLog]
                  exact mem_logUpTo seg rf (wf + 1) m (by have := h.hELe; omega) hmem
                have := hgood m hin
                omega
              refine ⟨rf + 1, [], TestBedInv_advance s seg wf rf ef P Q h hle _
                (fun _ _ => rfl) (m :: S') T hseg (fun hgood => absurd hgood hnot), rfl, rfl, rfl, rfl,
                fun hgood => absurd hgood hnot⟩
            · rw [if_neg hbad] at hdec
              have hstep : readerStep s.reader s.writer.files =
                  ({ s.reader with
                      readPos := s.reader.readPos + (4 + (m.length : Int))
                      readMsgCount := s.reader.readMsgCount + 1 }, s.writer.files,
                    .delivered { data := m, fileNum := s.reader.readFileNum,
                                 pos := s.reader.readPos }) := by
                unfold readerStep
                simp only [hcl, Bool.false_eq_true, if_false]
                rw [if_neg hc1, if_neg hc3, if_neg hg]
                simp only [hdec]
              have hs : stepOp s .read =
                  { s with
                    reader := { s.reader with
                      readPos := s.reader.readPos + (4 + (m.length : Int))
                      readMsgCount := s.reader.readMsgCount + 1 }
                    writer := { s.writer with files := s.writer.files }
                    received := s.received ++
                      [{ data := m, fileNum := s.reader.readFileNum,
                         pos := s.reader.readPos }] } := by
                simp only [stepOp, hstep]
              rw [hs]
              refine ⟨rf, P ++ [m], TestBedInv_deliver s seg wf rf ef P Q h hle m S' T _ hseg
                hvQ rfl, rfl, rfl, rfl, rfl, fun _ => Or.inr (Or.inl ⟨?_, rfl⟩)⟩
              show (s.received ++ _).length = _
              simp
  · -- the cursor is beyond the end: park
    have hg : s.reader.readFileNum > s.reader.endInfo.EndFileNum := by
      rw [h.hRFile, h.hEFile]
      omega
    have hc1 : ¬ (s.reader.readFileNum = s.reader.endInfo.EndFileNum ∧
        s.reader.readPos = s.reader.endInfo.EndPos) := by omega
    have hc3 : ¬ (s.reader.readFileNum < s.reader.endInfo.EndFileNum ∧
        s.reader.readPos ≥ sizeOfSegment s.writer.files s.reader.readFileNum) := by omega
    have hstep : readerStep s.reader s.writer.files = (s.reader, s.writer.files, .parked) := by
      unfold readerStep
      simp only [hcl, Bool.false_eq_true, if_false]
      rw [if_neg hc1, if_neg hc3, if_pos (Or.inl hg)]
    have hs : stepOp s .read = s := by
      simp only [stepOp, hstep]
    rw [hs]
    refine ⟨rf, P, h, rfl, rfl, rfl, rfl, fun hgood => ?_⟩
    exact absurd (h.hExact hgood).1 hle


theorem TestBedInv_fresh (a b c d a' b' c' d' : Int) (hmax : c < 2 ^ 32) :
    TestBedInv (newTestBed (newDiskQueueWriter a b c d) (newDiskQueueReader a' b' c' d'))
      (fun _ => []) 0 0 0 [] [] :=
  { hWClosed := rfl
    hRClosed := rfl
    hWMax := hmax
    hWFile := rfl
    hRFile := rfl
    hEFile := rfl
    hFiles := fun _ _ => rfl
    hSegEmpty := fun _ _ => rfl
    hWPos := rfl
    hWCount := rfl
    hLog := rfl
    hSegLen := fun _ m hm => by cases hm
    hLastNone := fun _ => rfl
    hLastSome := fun e he => by cases he
    hPub := rfl
    hELe := le_refl _
    hEPre := ⟨[], rfl⟩
    hEPos := rfl
    hECount := rfl
    hRLe := by omega
    hRCount := rfl
    hRPos := rfl
    hRAtEnd := fun _ => ⟨[], rfl⟩
    hRBefore := fun _ => ⟨[], rfl⟩
    hRAfter := fun _ => rfl
    hRecvLe := le_refl _
    hRecvLeEnd := le_refl _
    hExact := fun _ => ⟨le_refl _, rfl⟩ }

/-- Emptying the writer and constructing a new reader starts the test afresh: no
segment file is left, and the cursors, the counts and the end are zero. -/
theorem TestBedInv_emptyAndReopen (s : TestBed) (seg : Nat → List Bytes) (wf rf ef : Nat)
    (P Q : List Bytes) (h : TestBedInv s seg wf rf ef P Q) :
    TestBedInv (stepOp s .emptyAndReopen) (fun _ => []) 0 0 0 [] [] :=
  { hWClosed := h.hWClosed
    hRClosed := rfl
    hWMax := h.hWMax
    hWFile := rfl
    hRFile := rfl
    hEFile := rfl
    hFiles := by
      intro i _
      show ((SkipToEnd s.reader (Empty s.writer).files).2 (i : Int)).getD [] = framesOf []
      unfold SkipToEnd Empty
      dsimp only
      split
      · rfl
      · split
        · rfl
        · rename_i hnot
          have hrle := h.hRLe
          have hi : wf < i := by
            rw [h.hWFile] at hnot
            omega
          rw [h.hFiles i (by omega), h.hSegEmpty i hi]
    hSegEmpty := fun _ _ => rfl
    hWPos := rfl
    hWCount := rfl
    hLog := rfl
    hSegLen := fun _ m hm => by cases hm
    hLastNone := fun _ => rfl
    hLastSome := fun e he => by cases he
    hPub := rfl
    hELe := le_refl _
    hEPre := ⟨[], rfl⟩
    hEPos := rfl
    hECount := rfl
    hRLe := by omega
    hRCount := rfl
    hRPos := rfl
    hRAtEnd := fun _ => ⟨[], rfl⟩
    hRBefore := fun _ => ⟨[], rfl⟩
    hRAfter := fun _ => rfl
    hRecvLe := le_refl _
    hRecvLeEnd := le_refl _
    hExact := fun _ => ⟨le_refl _, rfl⟩ }

/-- Every action of a test other than an Empty that keeps the reader preserves the
invariant. -/
theorem TestBedInv_stepOp (s : TestBed) (op : QueueOp) (hop : op ≠ QueueOp.empty)
    (h : ∃ seg wf rf ef P Q, TestBedInv s seg wf rf ef P Q) :
    ∃ seg wf rf ef P Q, TestBedInv (stepOp s op) seg wf rf ef P Q := by
  obtain ⟨seg, wf, rf, ef, P, Q, hinv⟩ := h
  cases op with
  | empty => exact absurd rfl hop
  | put data ok =>
    obtain ⟨seg', wf', h'⟩ := TestBedInv_put s seg wf rf ef P Q hinv data ok
    exact ⟨seg', wf', rf, ef, P, Q, h'⟩
  | publish =>
    obtain ⟨ef', Q', h', _⟩ := TestBedInv_publish s seg wf rf ef P Q hinv
    exact ⟨seg, wf, rf, ef', P, Q', h'⟩
  | read =>
    obtain ⟨rf', P', h', _⟩ := TestBedInv_read s seg wf rf ef P Q hinv
    exact ⟨seg, wf, rf', ef, P', Q, h'⟩
  | emptyAndReopen =>
    exact ⟨_, 0, 0, 0, [], [], TestBedInv_emptyAndReopen s seg wf rf ef P Q hinv⟩

theorem TestBedInv_runOps (ops : List QueueOp) (s : TestBed)
    (hops : ∀ op ∈ ops, op ≠ QueueOp.empty)
    (h : ∃ seg wf rf ef P Q, TestBedInv s seg wf rf ef P Q) :
    ∃ seg wf rf ef P Q, TestBedInv (runOps s ops) seg wf rf ef P Q := by
  induction ops generalizing s with
  | nil => exact h
  | cons op rest ih =>
    show ∃ seg wf rf ef P Q, TestBedInv (runOps (stepOp s op) rest) seg wf rf ef P Q
    exact ih (stepOp s op) (fun x hx => hops x (List.mem_cons_of_mem _ hx))
      (TestBedInv_stepOp s op (hops op (List.mem_cons_self _ _)) h)

/-- A run of Puts of valid messages with successful writes: every Put succeeds. -/
theorem runOps_puts (W : List Bytes) (s : TestBed)
    (h : ∃ seg wf rf ef P Q, TestBedInv s seg wf rf ef P Q)
    (hvalid : ∀ m ∈ W, s.writer.minMsgSize ≤ (m.length : Int) ∧
      (m.length : Int) ≤ s.writer.maxMsgSize) :
    (runOps s (W.map (fun m => QueueOp.put m true))).putOk = s.putOk ++ W ∧
    (runOps s (W.map (fun m => QueueOp.put m true))).received = s.received ∧
    (runOps s (W.map (fun m => QueueOp.put m true))).reader = s.reader := by
  induction W generalizing s with
  | nil => simp [runOps]
  | cons m rest ih =>
    obtain ⟨seg, wf, rf, ef, P, Q, hinv⟩ := h
    have hm := hvalid m (List.mem_cons_self _ _)
    have hstep := stepOp_put_ok s m hinv.hWClosed hm.1 hm.2
    have hinv1 := TestBedInv_stepOp s (.put m true) (by intro hh; cases hh)
      ⟨seg, wf, rf, ef, P, Q, hinv⟩
    obtain ⟨_, _, _, _, p5, p6, _⟩ := Put_ok_state s.writer m hinv.hWClosed hm.1 hm.2
    have hmin1 : (stepOp s (.put m true)).writer.minMsgSize = s.writer.minMsgSize := by
      rw [hstep]
      exact p5
    have hmax1 : (stepOp s (.put m true)).writer.maxMsgSize = s.writer.maxMsgSize := by
      rw [hstep]
      exact p6
    have hvalid1 : ∀ x ∈ rest, (stepOp s (.put m true)).writer.minMsgSize ≤ (x.length : Int) ∧
        (x.length : Int) ≤ (stepOp s (.put m true)).writer.maxMsgSize := by
      intro x hx
      rw [hmin1, hmax1]
      exact hvalid x (List.mem_cons_of_mem _ hx)
    obtain ⟨i1, i2, i3⟩ := ih (stepOp s (.put m true)) hinv1 hvalid1
    have e1 : (stepOp s (.put m true)).putOk = s.putOk ++ [m] := by rw [hstep]
    have e2 : (stepOp s (.put m true)).received = s.received := by rw [hstep]
    have e3 : (stepOp s (.put m true)).reader = s.reader := by rw [hstep]
    show (runOps (stepOp s (.put m true)) (rest.map _)).putOk = _ ∧
      (runOps (stepOp s (.put m true)) (rest.map _)).received = _ ∧
      (runOps (stepOp s (.put m true)) (rest.map _)).reader = _
    rw [i1, i2, i3, e1, e2, e3]
    simp

/-- A run of reader iterations when every message put so far is within the
reader's size bounds: either everything up to the end has been delivered, or every
iteration made one step of progress. -/
theorem runOps_reads (n : Nat) (s : TestBed) (seg : Nat → List Bytes) (wf rf ef : Nat)
    (P Q : List Bytes) (h : TestBedInv s seg wf rf ef P Q)
    (hgood : ∀ m ∈ s.putOk, s.reader.minMsgSize ≤ (m.length : Int) ∧
        (m.length : Int) ≤ s.reader.maxMsgSize) :
    ∃ rf' P', TestBedInv (runOps s (List.replicate n QueueOp.read)) seg wf rf' ef P' Q ∧
      (runOps s (List.replicate n QueueOp.read)).putOk = s.putOk ∧
      (runOps s (List.replicate n QueueOp.read)).reader.maxMsgSize = s.reader.maxMsgSize ∧
      (runOps s (List.replicate n QueueOp.read)).reader.minMsgSize = s.reader.minMsgSize ∧
      (runOps s (List.replicate n QueueOp.read)).reader.endInfo = s.reader.endInfo ∧
      s.received.length ≤ (runOps s (List.replicate n QueueOp.read)).received.length ∧
      ((runOps s (List.replicate n QueueOp.read)).received.length =
          (logUpTo seg ef).length + Q.length ∨
        (runOps s (List.replicate n QueueOp.read)).received.length + rf' =
          s.received.length + rf + n) := by
  induction n generalizing s rf P with
  | zero => exact ⟨rf, P, h, rfl, rfl, rfl, rfl, le_refl _, Or.inr rfl⟩
  | succ k ih =>
    obtain ⟨rf1, P1, h1, q1, q2, q3, q3m, q4⟩ := TestBedInv_read s seg wf rf ef P Q h
    have hgood1 : ∀ m ∈ (stepOp s .read).putOk,
        (stepOp s .read).reader.minMsgSize ≤ (m.length : Int) ∧
        (m.length : Int) ≤ (stepOp s .read).reader.maxMsgSize := by
      rw [q1, q3, q3m]
      exact hgood
    obtain ⟨rf', P', h', r1, r2, r2m, r3, r4, r5⟩ := ih (stepOp s .read) rf1 P1 h1 hgood1
    have hrun : runOps s (List.replicate (k + 1) QueueOp.read) =
        runOps (stepOp s .read) (List.replicate k QueueOp.read) := rfl
    rw [hrun]
    have hbound := h'.hRecvLeEnd
    refine ⟨rf', P', h', by rw [r1, q1], by rw [r2, q3], by rw [r2m, q3m], by rw [r3, q2],
      ?_, ?_⟩
    · rcases q4 hgood with ⟨a, _, _⟩ | ⟨a, _⟩ | ⟨a, _, _⟩
      · rw [a] at r4; exact r4
      · omega
      · rw [a] at r4; exact r4
    · rcases q4 hgood with ⟨a, b, c⟩ | ⟨a, b⟩ | ⟨a, b, c⟩
      · left
        rw [a] at r4
        omega
      · rcases r5 with r5 | r5
        · exact Or.inl r5
        · right
          omega
      · rcases r5 with r5 | r5
        · exact Or.inl r5
        · right
          rw [a] at r5
          omega

/-- When everything counted by the writer has been received, the received messages
are the put messages. -/
theorem TestBedInv_received_eq (s : TestBed) (seg : Nat → List Bytes) (wf rf ef : Nat)
    (P Q : List Bytes) (h : TestBedInv s seg wf rf ef P Q)
    (hgood : ∀ m ∈ s.putOk, s.reader.minMsgSize ≤ (m.length : Int) ∧
        (m.length : Int) ≤ s.reader.maxMsgSize)
    (hfull : s.received.length = s.putOk.length) :
    s.received.map (fun x => x.data) = s.putOk := by
  obtain ⟨e1, e2⟩ := h.hExact hgood
  have hpre : ∃ Y, seg rf = P ++ Y := by
    by_cases he : rf = ef
    · obtain ⟨S, hS⟩ := h.hRAtEnd he
      obtain ⟨Q', hQ⟩ := h.hEPre
      exact ⟨S ++ Q', by rw [he, hQ, ← hS, List.append_assoc]⟩
    · obtain ⟨S, hS⟩ := h.hRBefore (by omega)
      exact ⟨S, hS.symm⟩
  obtain ⟨Y, hY⟩ := hpre
  obtain ⟨T, hT, _⟩ := logUpTo_split seg (rf + 1) (wf + 1) (by have := h.hELe; omega)
  have hlog : s.putOk = s.received.map (fun x => x.data) ++ (Y ++ T) := by
    rw [h.hLog, hT, e2]
    simp only [logUpTo]
    rw [hY]
    simp
  have hlen := congrArg List.length hlog
  rw [List.length_append, List.length_map, hfull] at hlen
  have hnil : Y ++ T = [] := List.eq_nil_of_length_eq_zero (by omega)
  rw [hnil, List.append_nil] at hlog
  exact hlog.symm



/-! ## The reader's end and count in every test -/

theorem runOps_append (s : TestBed) (xs ys : List QueueOp) :
    runOps s (xs ++ ys) = runOps (runOps s xs) ys := by
  unfold runOps
  rw [List.foldl_append]

/-- Publishing leaves the reader's size bounds as they are. -/
theorem stepOp_publish_bounds (s : TestBed) :
    (stepOp s .publish).reader.minMsgSize = s.reader.minMsgSize ∧
    (stepOp s .publish).reader.maxMsgSize = s.reader.maxMsgSize := by
  cases hl : s.lastEnd with
  | none =>
    have hs : stepOp s .publish = s := by
      simp only [stepOp, hl]
    rw [hs]
    exact ⟨rfl, rfl⟩
  | some e =>
    have hs : stepOp s .publish =
        { s with reader := (UpdateQueueEnd s.reader e s.emptied).1, published := some e,
                 emptied := false } := by
      simp only [stepOp, hl]
    rw [hs]
    show (UpdateQueueEnd s.reader e s.emptied).1.minMsgSize = s.reader.minMsgSize ∧
      (UpdateQueueEnd s.reader e s.emptied).1.maxMsgSize = s.reader.maxMsgSize
    unfold UpdateQueueEnd
    split
    · exact ⟨rfl, rfl⟩
    · exact ⟨rfl, rfl⟩

/-- C13: for every sequence W of valid messages (minMsgSize ≤ |m| ≤ maxMsgSize, with
maxMsgSize below 2^32, the empty message included when minMsgSize = 0) Put on a
fresh writer, for any maxBytesPerFile and hence any number of rotations, with a
fresh reader configured with the same size bounds: after the final end cursor is
published with UpdateQueueEnd and the reader loop has run at least
len(W) + writeFileNum iterations, every Put has succeeded and the sequence of
messages delivered on ReadChan equals W, in the same order, with no message lost,
duplicated or altered; the number delivered equals the number of successful
Puts. -/
theorem ReadChan_delivers_puts (a b c d a' d' : Int) (hmax : c < 2 ^ 32)
    (W : List Bytes)
    (hvalid : ∀ m ∈ W, b ≤ (m.length : Int) ∧ (m.length : Int) ≤ c)
    (n : Nat)
    (hn : W.length +
        (runOps (newTestBed (newDiskQueueWriter a b c d) (newDiskQueueReader a' b c d'))
          (W.map (fun m => QueueOp.put m true))).writer.writeFileNum.toNat ≤ n) :
    (putAllThenRead (newDiskQueueWriter a b c d) (newDiskQueueReader a' b c d') W n).putOk = W ∧
    (putAllThenRead (newDiskQueueWriter a b c d)
        (newDiskQueueReader a' b c d') W n).received.map (fun x => x.data) = W ∧
    (putAllThenRead (newDiskQueueWriter a b c d)
        (newDiskQueueReader a' b c d') W n).received.length =
      (putAllThenRead (newDiskQueueWriter a b c d)
        (newDiskQueueReader a' b c d') W n).putOk.length := by
  have hfresh := TestBedInv_fresh a b c d a' b c d' hmax
  have hinv0 : ∃ seg wf rf ef P Q,
      TestBedInv (newTestBed (newDiskQueueWriter a b c d) (newDiskQueueReader a' b c d'))
        seg wf rf ef P Q := ⟨_, 0, 0, 0, [], [], hfresh⟩
  obtain ⟨p1, p2, p3⟩ := runOps_puts W _ hinv0 hvalid
  have hputs : ∀ op ∈ W.map (fun m => QueueOp.put m true), op ≠ QueueOp.empty := by
    intro op hop
    obtain ⟨m, _, hm⟩ := List.mem_map.mp hop
    rw [← hm]
    intro hh
    cases hh
  obtain ⟨seg, wf, rf, ef, P, Q, hinv1⟩ :=
    TestBedInv_runOps (W.map (fun m => QueueOp.put m true)) _ hputs hinv0
  obtain ⟨ef2, Q2, hinv2, q1, q2, q3⟩ := TestBedInv_publish _ seg wf rf ef P Q hinv1
  obtain ⟨b1, b2⟩ := stepOp_publish_bounds (runOps (newTestBed (newDiskQueueWriter a b c d)
      (newDiskQueueReader a' b c d')) (W.map (fun m => QueueOp.put m true)))
  have hputOk2 : (stepOp (runOps (newTestBed (newDiskQueueWriter a b c d)
      (newDiskQueueReader a' b c d')) (W.map (fun m => QueueOp.put m true)))
      QueueOp.publish).putOk = W := by
    rw [q2, p1]
    rfl
  have hrecv2 : (stepOp (runOps (newTestBed (newDiskQueueWriter a b c d)
      (newDiskQueueReader a' b c d')) (W.map (fun m => QueueOp.put m true)))
      QueueOp.publish).received = [] := by
    rw [q3, p2]
    rfl
  have hrmin : (stepOp (runOps (newTestBed (newDiskQueueWriter a b c d)
      (newDiskQueueReader a' b c d')) (W.map (fun m => QueueOp.put m true)))
      QueueOp.publish).reader.minMsgSize = b := by
    rw [b1, p3]
    rfl
  have hrmax : (stepOp (runOps (newTestBed (newDiskQueueWriter a b c d)
      (newDiskQueueReader a' b c d')) (W.map (fun m => QueueOp.put m true)))
      QueueOp.publish).reader.maxMsgSize = c := by
    rw [b2, p3]
    rfl
  have hgood2 : ∀ m ∈ (stepOp (runOps (newTestBed (newDiskQueueWriter a b c d)
      (newDiskQueueReader a' b c d')) (W.map (fun m => QueueOp.put m true)))
      QueueOp.publish).putOk,
      (stepOp (runOps (newTestBed (newDiskQueueWriter a b c d)
      (newDiskQueueReader a' b c d')) (W.map (fun m => QueueOp.put m true)))
      QueueOp.publish).reader.minMsgSize ≤ (m.length : Int) ∧
      (m.length : Int) ≤ (stepOp (runOps (newTestBed (newDiskQueueWriter a b c d)
      (newDiskQueueReader a' b c d')) (W.map (fun m => QueueOp.put m true)))
      QueueOp.publish).reader.maxMsgSize := by
    rw [hputOk2, hrmin, hrmax]
    exact hvalid
  obtain ⟨rf3, P3, hinv3, r1, r2, r2m, r3, r4, r5⟩ :=
    runOps_reads n _ seg wf rf ef2 P Q2 hinv2 hgood2
  have hrun : putAllThenRead (newDiskQueueWriter a b c d) (newDiskQueueReader a' b c d') W n =
      runOps (stepOp (runOps (newTestBed (newDiskQueueWriter a b c d)
        (newDiskQueueReader a' b c d')) (W.map (fun m => QueueOp.put m true)))
        QueueOp.publish) (List.replicate n QueueOp.read) := by
    unfold putAllThenRead
    rw [runOps_append, runOps_append]
    rfl
  rw [hrun]
  have hputOk3 := r1.trans hputOk2
  have hgood3 : ∀ m ∈ (runOps (stepOp (runOps (newTestBed (newDiskQueueWriter a b c d)
      (newDiskQueueReader a' b c d')) (W.map (fun m => QueueOp.put m true)))
      QueueOp.publish) (List.replicate n QueueOp.read)).putOk,
      (runOps (stepOp (runOps (newTestBed
      (newDiskQueueWriter a b c d) (newDiskQueueReader a' b c d'))
      (W.map (fun m => QueueOp.put m true))) QueueOp.publish)
      (List.replicate n QueueOp.read)).reader.minMsgSize ≤ (m.length : Int) ∧
      (m.length : Int) ≤ (runOps (stepOp (runOps (newTestBed
      (newDiskQueueWriter a b c d) (newDiskQueueReader a' b c d'))
      (W.map (fun m => QueueOp.put m true))) QueueOp.publish)
      (List.replicate n QueueOp.read)).reader.maxMsgSize := by
    rw [hputOk3, r2, r2m, hrmin, hrmax]
    exact hvalid
  have hcount : (logUpTo seg ef2).length + Q2.length = W.length := by
    have h1 := hinv2.hECount
    rw [q1, p1] at h1
    simp only [newTestBed, List.nil_append] at h1
    omega
  have hfull : (runOps (stepOp (runOps (newTestBed (newDiskQueueWriter a b c d)
      (newDiskQueueReader a' b c d')) (W.map (fun m => QueueOp.put m true)))
      QueueOp.publish) (List.replicate n QueueOp.read)).received.length = W.length := by
    rcases r5 with r5 | r5
    · rw [r5, hcount]
    · have hb := hinv3.hRecvLeEnd
      have hrf := (hinv3.hExact hgood3).1
      have hele := hinv3.hELe
      have hwf := hinv1.hWFile
      rw [hwf] at hn
      rw [hrecv2] at r5
      simp only [List.length_nil] at r5
      have : (wf : Int).toNat = wf := by omega
      rw [this] at hn
      omega
  refine ⟨hputOk3, ?_, ?_⟩
  · have := TestBedInv_received_eq _ seg wf rf3 ef2 P3 Q2 hinv3 hgood3 (by rw [hfull, hputOk3])
    rw [this, hputOk3]
  · rw [hfull, hputOk3]

theorem ReadChan_delivers_puts_witness :
    (1024 : Int) < 2 ^ 32 ∧
    (∀ m ∈ ([[1, 2, 3], [], [4], [5, 6, 7, 8, 9, 10, 11, 12, 13, 14]] : List Bytes),
      (0 : Int) ≤ (m.length : Int) ∧ (m.length : Int) ≤ 1024) ∧
    (putAllThenRead (newDiskQueueWriter 20 0 1024 2500) (newDiskQueueReader 20 0 1024 2500)
        [[1, 2, 3], [], [4], [5, 6, 7, 8, 9, 10, 11, 12, 13, 14]] 6).received.map
          (fun x => x.data) =
      [[1, 2, 3], [], [4], [5, 6, 7, 8, 9, 10, 11, 12, 13, 14]] :=
  ⟨by decide, by decide,
    (ReadChan_delivers_puts 20 0 1024 2500 20 2500 (by decide)
      [[1, 2, 3], [], [4], [5, 6, 7, 8, 9, 10, 11, 12, 13, 14]] (by decide)
      6 (by decide)).2.1⟩


set_option maxRecDepth 100000 in
theorem corruptionTest_eval :
    corruptionTestPuts.writer.writeFileNum = 3 ∧
    corruptionTestPuts.writer.writePos = 127 ∧
    corruptionTestPuts.writer.totalMsgCnt = 25 ∧
    corruptionTestPuts.reader.endInfo = ⟨3, 127, 25⟩ ∧
    (List.map (fun i => corruptionTestPuts.writer.files i) [0, 1, 2, 3, 4]) =
      [some (framesOf (List.replicate 8 (List.replicate 123 0))),
       some (framesOf (List.replicate 8 (List.replicate 123 0))),
       some (framesOf (List.replicate 8 (List.replicate 123 0))),
       some (framesOf (List.replicate 1 (List.replicate 123 0))), none] ∧
    (List.map (fun i => (corruptionTestPuts.writer.files i).map List.length) [0, 1, 2, 3, 4]) =
      [some 1016, some 1016, some 1016, some 127, none] ∧
    (corruptionTestSetup.writer.files 1).map List.length = some 500 ∧
    (corruptionTestSetup.writer.files 1).map (fun c => c.take 381) =
      some (framesOf (List.replicate 3 (List.replicate 123 0))) ∧
    ((runOps corruptionTestSetup (List.replicate 22 QueueOp.read)).received.map
        (fun x => x.fileNum)) =
      List.replicate 8 0 ++ List.replicate 3 1 ++ List.replicate 8 2 ∧
    ((runOps corruptionTestSetup (List.replicate 22 QueueOp.read)).received.map
        (fun x => x.data)) = List.replicate 19 (List.replicate 123 0) ∧
    (runOps corruptionTestSetup (List.replicate 22 QueueOp.read)).reader.readFileNum = 3 ∧
    (runOps corruptionTestSetup (List.replicate 22 QueueOp.read)).reader.readPos = 0 ∧
    (runOps corruptionTestSetup (List.replicate 12 QueueOp.read)).reader.readFileNum = 1 ∧
    (runOps corruptionTestSetup (List.replicate 12 QueueOp.read)).reader.readPos = 381 ∧
    (readerStep (runOps corruptionTestSetup (List.replicate 12 QueueOp.read)).reader
        (runOps corruptionTestSetup (List.replicate 12 QueueOp.read)).writer.files).2.2 =
      ReadEvent.corruption ∧
    (runOps corruptionTestSetup (List.replicate 13 QueueOp.read)).reader.readFileNum = 2 ∧
    (runOps corruptionTestSetup (List.replicate 13 QueueOp.read)).reader.readPos = 0 ∧
    ((runOps corruptionTestSetup (List.replicate 23 QueueOp.read)).received.map
        (fun x => (x.fileNum, x.pos))).drop 19 = [(3, 0)] ∧
    ((runOps corruptionTestSetup (List.replicate 40 QueueOp.read)).received.map
        (fun x => x.data)) = List.replicate 20 (List.replicate 123 0) := by
  decide

/-- C14: with maxBytesPerFile = 1000 and 25 Puts of a 123-byte message (127-byte
frames) the writer ends in file 3 with 25 messages and has produced 4 segment
files, with 8 frames (1016 bytes) in each of the files 0, 1, 2 and 1 frame in file
3; after file 1 is truncated to 500 bytes its first 381 bytes are 3 whole frames;
the reader then delivers exactly 19 messages, each equal to the payload, before
reaching the last written frame at position 0 of file 3: 8 from file 0, 3 from file
1 and 8 from file 2; at position 381 of file 1 the iteration records a corruption
and moves to position 0 of file 2, skipping the rest of the truncated file; the
next message delivered is the last written frame, and no more than 20 messages are
delivered. -/
theorem corruptionTest_frames_per_file :
    corruptionTestPuts.writer.writeFileNum = 3 ∧
    corruptionTestPuts.writer.writePos = 127 ∧
    corruptionTestPuts.writer.totalMsgCnt = 25 ∧
    corruptionTestPuts.reader.endInfo = ⟨3, 127, 25⟩ ∧
    (List.map (fun i => corruptionTestPuts.writer.files i) [0, 1, 2, 3, 4]) =
      [some (framesOf (List.replicate 8 (List.replicate 123 0))),
       some (framesOf (List.replicate 8 (List.replicate 123 0))),
       some (framesOf (List.replicate 8 (List.replicate 123 0))),
       some (framesOf (List.replicate 1 (List.replicate 123 0))), none] ∧
    (List.map (fun i => (corruptionTestPuts.writer.files i).map List.length) [0, 1, 2, 3, 4]) =
      [some 1016, some 1016, some 1016, some 127, none] ∧
    (corruptionTestSetup.writer.files 1).map List.length = some 500 ∧
    (corruptionTestSetup.writer.files 1).map (fun c => c.take 381) =
      some (framesOf (List.replicate 3 (List.replicate 123 0))) ∧
    ((runOps corruptionTestSetup (List.replicate 22 QueueOp.read)).received.map
        (fun x => x.fileNum)) =
      List.replicate 8 0 ++ List.replicate 3 1 ++ List.replicate 8 2 ∧
    ((runOps corruptionTestSetup (List.replicate 22 QueueOp.read)).received.map
        (fun x => x.data)) = List.replicate 19 (List.replicate 123 0) ∧
    (runOps corruptionTestSetup (List.replicate 22 QueueOp.read)).reader.readFileNum = 3 ∧
    (runOps corruptionTestSetup (List.replicate 22 QueueOp.read)).reader.readPos = 0 ∧
    (runOps corruptionTestSetup (List.replicate 12 QueueOp.read)).reader.readFileNum = 1 ∧
    (runOps corruptionTestSetup (List.replicate 12 QueueOp.read)).reader.readPos = 381 ∧
    (readerStep (runOps corruptionTestSetup (List.replicate 12 QueueOp.read)).reader
        (runOps corruptionTestSetup (List.replicate 12 QueueOp.read)).writer.files).2.2 =
      ReadEvent.corruption ∧
    (runOps corruptionTestSetup (List.replicate 13 QueueOp.read)).reader.readFileNum = 2 ∧
    (runOps corruptionTestSetup (List.replicate 13 QueueOp.read)).reader.readPos = 0 ∧
    ((runOps corruptionTestSetup (List.replicate 23 QueueOp.read)).received.map
        (fun x => (x.fileNum, x.pos))).drop 19 = [(3, 0)] ∧
    ((runOps corruptionTestSetup (List.replicate 40 QueueOp.read)).received.map
        (fun x => x.data)) = List.replicate 20 (List.replicate 123 0) :=
  corruptionTest_eval

end Nsqd
